import Mathlib

/-!
# Multi-shop order synchronisation (package `shopify`)

A shallow embedding of `shopify/service.go`: the adaptive rate limiter, the
per-shop worker `syncShopOrders`, the batch writer wrapper `syncBatch` and the
coordinator `SyncOrdersForAccount`.

Conventions.
* `time.Duration` is a signed 64-bit count of nanoseconds: durations are `Int`
  and every arithmetic result is reduced with `wrapInt64`.
* `int32` counters are `Int` reduced with `wrapInt32`.
* External collaborators (the remote shop API, the repository, the context
  deadline) are fields of a `World`; each is indexed by the shop and by the
  number of the call, so that a run is a function of the answers it receives.
* A loop that may run forever takes a fuel argument; `none` means that the fuel
  ran out before the worker returned.
-/

namespace Shopify

/-! ## Machine integers and durations -/

/-- Two-complement reduction of an integer to the `int64` range. -/
def wrapInt64 (x : Int) : Int := (x + 2 ^ 63) % 2 ^ 64 - 2 ^ 63

/-- Two-complement reduction of an integer to the `int32` range. -/
def wrapInt32 (x : Int) : Int := (x + 2 ^ 31) % 2 ^ 32 - 2 ^ 31

/-- The constant `time.Millisecond`. -/
def millisecond : Int := 1000000

/-- The constant `time.Second`. -/
def second : Int := 1000000000

/-- The constant `batchSize`. -/
def batchSize : Nat := 250

/-- The constant `initialRateLimit`, 200 ms. -/
def initialRateLimit : Int := 200 * millisecond

/-- The constant `maxRateLimit`, 1000 ms. -/
def maxRateLimit : Int := 1000 * millisecond

/-- The constant `minRateLimit`, 100 ms. -/
def minRateLimit : Int := 100 * millisecond

/-- The constant `maxRetries`. -/
def maxRetries : Int := 5

/-- The package function `min` on durations. -/
def min (a b : Int) : Int := if a < b then a else b

/-- The package function `max` on durations. -/
def max (a b : Int) : Int := if a > b then a else b

/-! ## Rate governor -/

/-- The interval field of `adaptiveRateLimiter`; the ticker is driven by it. -/
structure adaptiveRateLimiter where
  interval : Int
  deriving DecidableEq, Repr

/-- The constructor `newAdaptiveRateLimiter`. -/
def newAdaptiveRateLimiter : adaptiveRateLimiter :=
  { interval := initialRateLimit }

/-- The assignment of the method `adjustRate`: the limiter with the new
interval, which is the value the method then hands to `ticker.Reset`. The
whole call, with the panic of `Reset` on an interval that is not positive, is
`adjustRate.call`. -/
def adjustRate (r : adaptiveRateLimiter) (isRateLimited : Bool) : adaptiveRateLimiter :=
  if isRateLimited then
    { interval := min (wrapInt64 (r.interval * 2)) maxRateLimit }
  else
    { interval := max (wrapInt64 (r.interval - 50 * millisecond)) minRateLimit }

/-- The method `Reset` of `time.Ticker`, which `adjustRate` calls last, with
the new interval: it panics when the duration is not positive. -/
def Ticker.Reset (d : Int) : Except String Unit :=
  if d ≤ 0 then Except.error "non-positive interval for Ticker.Reset" else Except.ok ()

/-- The whole call of the method `adjustRate`: the assignment of the new
interval, `adjustRate`, then `r.ticker.Reset(r.interval)`; the limiter after
the call, or the value of the panic of `Reset`. -/
def adjustRate.call (r : adaptiveRateLimiter) (isRateLimited : Bool) :
    Except String adaptiveRateLimiter :=
  match Ticker.Reset (adjustRate r isRateLimited).interval with
  | Except.error v => Except.error v
  | Except.ok _ => Except.ok (adjustRate r isRateLimited)

/-- A governor after a sequence of `adjustRate` calls, oldest signal first. -/
def adjustMany (r : adaptiveRateLimiter) (signals : List Bool) : adaptiveRateLimiter :=
  signals.foldl adjustRate r

/-! ## Data model -/

/-- A `time.Time` instant, as nanoseconds relative to the Unix epoch. -/
structure Time where
  unixNano : Int
  deriving DecidableEq, Repr

/-- The zero value `time.Time{}`: January 1 of year 1, 00:00 UTC. -/
def Time.zero : Time := { unixNano := -62135596800 * 1000000000 }

/-- The method `Time.IsZero`. -/
def Time.IsZero (t : Time) : Bool := t == Time.zero

/-- A `decimal.Decimal`: coefficient and base-ten exponent. -/
structure Decimal where
  coeff : Int
  exp : Int
  deriving DecidableEq, Repr

/-- A `float64` price, kept symbolically: either the literal `0.0` or the value
`d.Float64()` of a decimal. -/
inductive Float64 where
  | zero
  | ofDecimal (d : Decimal)
  deriving DecidableEq, Repr

/-- The fields of `goshopify.Customer` that this repository reads. -/
structure Customer where
  id : Nat
  email : String
  firstName : String
  lastName : String
  phone : String
  deriving DecidableEq, Repr

/-- The zero value of `goshopify.Customer`. -/
def Customer.zero : Customer :=
  { id := 0, email := "", firstName := "", lastName := "", phone := "" }

/-- The fields of the remote record `goshopify.Order` read by
`convertShopifyOrderToOrder`; pointer fields are options, and the id, a
`uint64`, is a natural number. -/
structure ShopifyOrder where
  id : Nat
  name : String
  email : String
  createdAt : Option Time
  updatedAt : Option Time
  cancelledAt : Option Time
  closedAt : Option Time
  processedAt : Option Time
  currency : String
  totalPrice : Option Decimal
  subtotalPrice : Option Decimal
  totalDiscounts : Option Decimal
  totalTax : Option Decimal
  taxesIncluded : Bool
  financialStatus : String
  fulfillmentStatus : String
  orderNumber : Int
  test : Bool
  browserIp : String
  cancelReason : String
  tags : String
  gateway : String
  confirmed : Bool
  contactEmail : String
  phone : String
  customer : Option Customer
  deriving DecidableEq, Repr

/-- The struct `Order` of `models.go` (the two address fields, which no code of
the package reads or writes, are left out). -/
structure Order where
  id : Int
  name : String
  email : String
  createdAt : Time
  updatedAt : Time
  cancelledAt : Option Time
  closedAt : Option Time
  processedAt : Option Time
  currency : String
  totalPrice : Float64
  subtotalPrice : Float64
  totalDiscounts : Float64
  totalTax : Float64
  taxesIncluded : Bool
  totalWeight : Int
  financialStatus : String
  fulfillmentStatus : String
  number : Int
  orderNumber : Int
  test : Bool
  browserIp : String
  cancelReason : String
  tags : String
  locationId : Int
  customer : Customer
  gateway : String
  confirmed : Bool
  phone : String
  contactEmail : String
  deriving DecidableEq, Repr

/-- The function `convertDecimalToFloat`. -/
def convertDecimalToFloat (d : Option Decimal) : Float64 :=
  match d with
  | none => Float64.zero
  | some x => Float64.ofDecimal x

/-- The function `convertShopifyOrderToOrder`. The source dereferences
`CreatedAt` and `UpdatedAt` without a nil check: `none` is the nil-pointer
fault raised there. -/
def convertShopifyOrderToOrder (o : ShopifyOrder) : Option Order :=
  match o.createdAt, o.updatedAt with
  | some created, some updated =>
    some
      { id := wrapInt64 o.id
        name := o.name
        email := o.email
        createdAt := created
        updatedAt := updated
        cancelledAt := o.cancelledAt
        closedAt := o.closedAt
        processedAt := o.processedAt
        currency := o.currency
        totalPrice := convertDecimalToFloat o.totalPrice
        subtotalPrice := convertDecimalToFloat o.subtotalPrice
        totalDiscounts := convertDecimalToFloat o.totalDiscounts
        totalTax := convertDecimalToFloat o.totalTax
        taxesIncluded := o.taxesIncluded
        totalWeight := 0
        financialStatus := o.financialStatus
        fulfillmentStatus := o.fulfillmentStatus
        number := 0
        orderNumber := o.orderNumber
        test := o.test
        browserIp := o.browserIp
        cancelReason := o.cancelReason
        tags := o.tags
        locationId := 0
        customer := match o.customer with
          | some c => c
          | none => Customer.zero
        gateway := o.gateway
        confirmed := o.confirmed
        phone := o.phone
        contactEmail := o.contactEmail }
  | _, _ => none

/-- The text of the runtime fault raised by a nil-pointer dereference. -/
def nilDereference : String :=
  "runtime error: invalid memory address or nil pointer dereference"

/-- The struct `goshopify.ListOptions`: cursor, page number and page size. -/
structure ListOptions where
  pageInfo : String
  page : Int
  limit : Int
  deriving DecidableEq, Repr

/-- The struct `goshopify.OrderListOptions`, with the fields the worker sets. -/
structure OrderListOptions where
  listOptions : ListOptions
  status : String
  updatedAtMin : Time
  deriving DecidableEq, Repr

/-- The struct `goshopify.Pagination`; a nil pointer is `none`. -/
structure Pagination where
  nextPageOptions : Option ListOptions
  previousPageOptions : Option ListOptions
  deriving DecidableEq, Repr

/-- The answer of `client.Order.ListWithPagination`. -/
inductive FetchResult where
  | ok (orders : List ShopifyOrder) (pagination : Option Pagination)
  | error (msg : String)
  deriving DecidableEq, Repr

/-- The struct `syncResult`. -/
structure syncResult where
  shopName : String
  success : Bool
  errorMessage : String
  ordersSynced : Int
  deriving DecidableEq, Repr

/-- The message `pb.ShopSyncStatus`. -/
structure ShopSyncStatus where
  success : Bool
  errorMessage : String
  ordersSynced : Int
  deriving DecidableEq, Repr

/-- The external collaborators of the service. Every answer is indexed by the
shop and by the number of the call within that shop's run. -/
structure World where
  /-- Whether the receiver and its repository are non-nil. -/
  serviceReady : Bool
  /-- Result of `Repo.GetShopTokens` for an account: error text or the
  credentials (a Go map, listed as pairs). -/
  getShopTokens : String → Except String (List (String × String))
  /-- Result of `goshopify.NewClient` for a shop and token: an error text, or
  `none` on success. -/
  newClient : String → String → Option String
  /-- Result of `Repo.GetLatestOrderTimestamp` for a shop and account. -/
  getLatestOrderTimestamp : String → String → Time × Option String
  /-- State of `orderCtx` for a shop at the check that precedes fetch number
  `n`: `none` while the context is live, else the text of `orderCtx.Err()`. -/
  ctxDone : String → Nat → Option String
  /-- Answer of `ListWithPagination` for a shop, token, call number and
  options. -/
  listWithPagination : String → String → Nat → OrderListOptions → FetchResult
  /-- Answer of `Repo.SyncOrders` for a shop, account, call number and batch. -/
  syncOrders : String → String → Nat → List Order → Bool × Option String

/-- What a worker does, in order. -/
inductive Event where
  | wait
  | fetch (opts : OrderListOptions)
  | adjust (isRateLimited : Bool) (interval : Int)
  | sleep (d : Int)
  | write (batch : List Order) (ok : Bool)
  | send (r : syncResult)
  deriving DecidableEq, Repr

/-! ## The shop worker -/

/-- Whether the character list `sub` occurs in `s` as a contiguous block. -/
def containsChars (s sub : List Char) : Bool :=
  match s with
  | [] => sub.isEmpty
  | c :: cs => sub.isPrefixOf (c :: cs) || containsChars cs sub

/-- The library function `strings.Contains`. -/
def stringsContains (s sub : String) : Bool := containsChars s.data sub.data

/-- The local variables of `syncShopOrders` inside its loop, with three ghost
fields: the number of fetches and of batch writes issued so far, and the
events so far. -/
structure LoopState where
  options : OrderListOptions
  rateLimiter : adaptiveRateLimiter
  ordersSynced : Int
  currentBatch : List Order
  backoff : Int
  retryCount : Int
  fetches : Nat
  writes : Nat
  trace : List Event
  deriving DecidableEq, Repr

/-- How far a worker got: still in its loop, returned after sending the result
`r`, or stopped by a runtime fault with value `v`. -/
inductive Outcome where
  | running (s : LoopState)
  | returned (r : syncResult) (s : LoopState)
  | panicked (v : String) (s : LoopState)
  deriving DecidableEq, Repr

/-- The identity of one worker: the arguments of `syncShopOrders`. -/
structure ShopCtx where
  shopName : String
  token : String
  accountId : String
  deriving DecidableEq, Repr

/-- Record an event. -/
def LoopState.emit (s : LoopState) (e : Event) : LoopState :=
  { s with trace := s.trace ++ [e] }

/-- The statement `results <- syncResult{...}; return` of the worker. -/
def sendResult (c : ShopCtx) (s : LoopState) (success : Bool) (msg : String) : Outcome :=
  let r : syncResult :=
    { shopName := c.shopName, success := success, errorMessage := msg,
      ordersSynced := s.ordersSynced }
  Outcome.returned r (s.emit (Event.send r))

/-- The method `syncBatch`: the error it returns, or `none` for nil. The call
number `n` selects the answer of `Repo.SyncOrders`. -/
def syncBatch (w : World) (c : ShopCtx) (n : Nat) (batch : List Order) : Option String :=
  match w.syncOrders c.shopName c.accountId n batch with
  | (_, some err) => some ("failed to sync batch: " ++ err)
  | (false, none) => some "batch sync reported failure"
  | (true, none) => none

/-- The state after a call of `syncBatch` on `batch`, with its outcome logged. -/
def LoopState.wrote (s : LoopState) (batch : List Order) (ok : Bool) : LoopState :=
  { s with writes := s.writes + 1, trace := s.trace ++ [Event.write batch ok] }

/-- The inner loop `for _, shopifyOrder := range shopifyOrders` of the worker:
convert, append, and write the batch each time it reaches `batchSize`. -/
def processOrders (w : World) (c : ShopCtx) : List ShopifyOrder → LoopState → Outcome
  | [], s => Outcome.running s
  | o :: rest, s =>
    match convertShopifyOrderToOrder o with
    | none => Outcome.panicked nilDereference s
    | some order =>
      let batch := s.currentBatch ++ [order]
      if batch.length ≥ batchSize then
        match syncBatch w c s.writes batch with
        | some err =>
          sendResult c ({ s with currentBatch := batch }.wrote batch false) false
            ("failed to sync batch: " ++ err)
        | none =>
          processOrders w c rest
            { s.wrote batch true with
              ordersSynced := wrapInt32 (s.ordersSynced + wrapInt32 batch.length)
              currentBatch := [] }
      else
        processOrders w c rest { s with currentBatch := batch }

/-- The value `pagination.NextPageOptions` when `pagination` and it are both
non-nil; `none` is the test `pagination == nil || pagination.NextPageOptions == nil`. -/
def nextPageOptions (pagination : Option Pagination) : Option ListOptions :=
  match pagination with
  | none => none
  | some p => p.nextPageOptions

/-- The part of the loop body after the inner loop: the flush of the remaining
orders on the last page, the success report, or the move to the next page. -/
def finishPage (w : World) (c : ShopCtx) (pagination : Option Pagination)
    (s : LoopState) : Outcome :=
  match nextPageOptions pagination with
  | none =>
    if s.currentBatch.length > 0 then
      match syncBatch w c s.writes s.currentBatch with
      | some err =>
        sendResult c (s.wrote s.currentBatch false) false
          ("failed to sync final batch: " ++ err)
      | none =>
        sendResult c
          { s.wrote s.currentBatch true with
            ordersSynced := wrapInt32 (s.ordersSynced + wrapInt32 s.currentBatch.length) }
          true ""
    else
      sendResult c s true ""
  | some next =>
    Outcome.running
      { s with options := { s.options with
                            listOptions := { s.options.listOptions with page := next.page } } }

/-- The first half of the loop body: the deadline check, the governor wait and
the page fetch with its error handling. Either the iteration is over (`stop`)
or a page was fetched and is handed to the second half (`page`). -/
inductive Fetched where
  | stop (o : Outcome)
  | page (orders : List ShopifyOrder) (pagination : Option Pagination) (s : LoopState)
  deriving DecidableEq, Repr

/-- The `select` on `orderCtx.Done()`, `rateLimiter.wait()`, the call of
`ListWithPagination` and the handling of its error. The two calls of
`adjustRate` are entered as the assignment `adjustRate`: in a run the interval
of the governor stays within `[minRateLimit, maxRateLimit]`, where
`ticker.Reset` is handed a positive interval and the call returns that limiter
(theorem `adjustRate_call_in_run`). -/
def fetchPage (w : World) (c : ShopCtx) (s : LoopState) : Fetched :=
  match w.ctxDone c.shopName s.fetches with
  | some err =>
    Fetched.stop (sendResult c s false ("operation cancelled or timed out: " ++ err))
  | none =>
    let s1 : LoopState :=
      { s with fetches := s.fetches + 1
               trace := s.trace ++ [Event.wait, Event.fetch s.options] }
    match w.listWithPagination c.shopName c.token s.fetches s.options with
    | FetchResult.error err =>
      if stringsContains err "Exceeded" && s1.retryCount < maxRetries then
        let limiter := adjustRate s1.rateLimiter true
        let doubled := wrapInt64 (s1.backoff * 2)
        Fetched.stop (Outcome.running
          { s1 with
            retryCount := s1.retryCount + 1
            rateLimiter := limiter
            backoff := if doubled > maxRateLimit then maxRateLimit else doubled
            trace := s1.trace ++ [Event.adjust true limiter.interval, Event.sleep s1.backoff] })
      else
        Fetched.stop (sendResult c s1 false
          ("failed to list orders after " ++ toString s1.retryCount ++ " retries: " ++ err))
    | FetchResult.ok orders pagination =>
      let limiter := adjustRate s1.rateLimiter false
      Fetched.page orders pagination
        { s1 with
          rateLimiter := limiter
          backoff := second
          retryCount := 0
          trace := s1.trace ++ [Event.adjust false limiter.interval] }

/-- One iteration of the loop `for { select { ... } }` of the worker. -/
def step (w : World) (c : ShopCtx) (s : LoopState) : Outcome :=
  match fetchPage w c s with
  | Fetched.stop o => o
  | Fetched.page orders pagination s1 =>
    match processOrders w c orders s1 with
    | Outcome.running s2 => finishPage w c pagination s2
    | o => o

/-- The loop of the worker, run for at most `fuel` iterations. -/
def runLoop (w : World) (c : ShopCtx) : Nat → LoopState → Option Outcome
  | 0, _ => none
  | fuel + 1, s =>
    match step w c s with
    | Outcome.running s1 => runLoop w c fuel s1
    | o => some o

/-- The state at loop entry: options with page size `batchSize` and status
"any", `UpdatedAtMin` set when the watermark is not the zero time, a fresh
governor, an empty batch, backoff of one second. -/
def initialState (lastSync : Time) : LoopState :=
  { options :=
      { listOptions := { pageInfo := "", page := 0, limit := batchSize }
        status := "any"
        updatedAtMin := if !lastSync.IsZero then lastSync else Time.zero }
    rateLimiter := newAdaptiveRateLimiter
    ordersSynced := 0
    currentBatch := []
    backoff := second
    retryCount := 0
    fetches := 0
    writes := 0
    trace := [] }

/-- The method `syncShopOrders`, run for at most `fuel` loop iterations. The
outcome is never `running`. -/
def syncShopOrders (w : World) (c : ShopCtx) (fuel : Nat) : Option Outcome :=
  match w.newClient c.shopName c.token with
  | some err =>
    some (sendResult c (initialState Time.zero) false ("failed to create client: " ++ err))
  | none =>
    runLoop w c fuel (initialState (w.getLatestOrderTimestamp c.shopName c.accountId).1)

/-! ## The coordinator -/

/-- The results a trace put on the channel. -/
def sentResults (trace : List Event) : List syncResult :=
  trace.filterMap fun e =>
    match e with
    | Event.send r => some r
    | _ => none

/-- The batches handed to `syncBatch`, in order, with the outcome of each. -/
def batchWrites (trace : List Event) : List (List Order × Bool) :=
  trace.filterMap fun e =>
    match e with
    | Event.write batch ok => some (batch, ok)
    | _ => none

/-- The number of orders in the batches whose write succeeded. -/
def committedOrders (trace : List Event) : Nat :=
  (((batchWrites trace).filter fun b => b.2).map fun b => b.1.length).sum

/-- The result sent by the deferred `recover` handler of a worker goroutine. -/
def recoverResult (shopName v : String) : syncResult :=
  { shopName := shopName, success := false,
    errorMessage := "panic recovered: " ++ v, ordersSynced := 0 }

/-- The results one worker goroutine puts on the channel: those sent by
`syncShopOrders`, then the one of the `recover` handler if it faulted. -/
def goroutineResults (w : World) (c : ShopCtx) (fuel : Nat) : Option (List syncResult) :=
  match syncShopOrders w c fuel with
  | none => none
  | some (Outcome.running _) => none
  | some (Outcome.returned _ s) => some (sentResults s.trace)
  | some (Outcome.panicked v s) => some (sentResults s.trace ++ [recoverResult c.shopName v])

/-- The results on the channel for one credential: the immediate failure for an
empty shop name or token, else what the goroutine of the shop sends. -/
def shopResults (w : World) (accountId : String) (fuel : Nat)
    (cred : String × String) : Option (List syncResult) :=
  if cred.1 = "" ∨ cred.2 = "" then
    some [{ shopName := cred.1, success := false,
            errorMessage := "invalid shop name or token", ordersSynced := 0 }]
  else
    goroutineResults w { shopName := cred.1, token := cred.2, accountId := accountId } fuel

/-- The contents of the channel once every worker is done, credential by
credential; `none` when some worker does not return within the fuel. -/
def channelResults (w : World) (accountId : String) (fuel : Nat) :
    List (String × String) → Option (List syncResult)
  | [] => some []
  | cred :: rest =>
    match shopResults w accountId fuel cred, channelResults w accountId fuel rest with
    | some rs, some more => some (rs ++ more)
    | _, _ => none

/-- A report: the Go map from shop name to status, as an association list. -/
abbrev Report := List (String × ShopSyncStatus)

/-- The map assignment `syncResults[name] = status`. -/
def Report.set (m : Report) (name : String) (status : ShopSyncStatus) : Report :=
  match m with
  | [] => [(name, status)]
  | (k, v) :: rest =>
    if k = name then (k, status) :: rest else (k, v) :: Report.set rest name status

/-- The map read `syncResults[name]`. -/
def Report.get (m : Report) (name : String) : Option ShopSyncStatus :=
  match m with
  | [] => none
  | (k, v) :: rest => if k = name then some v else Report.get rest name

/-- The loop `for result := range results` of the coordinator. -/
def collectResults (results : List syncResult) : Report :=
  results.foldl
    (fun m r =>
      if r.shopName ≠ "" then
        Report.set m r.shopName
          { success := r.success, errorMessage := r.errorMessage,
            ordersSynced := r.ordersSynced }
      else m)
    []

/-- The method `SyncOrdersForAccount`: `none` when it does not return within
the fuel given to each worker, else the error or the report. -/
def SyncOrdersForAccount (w : World) (accountId : String) (fuel : Nat) :
    Option (Except String Report) :=
  if !w.serviceReady then
    some (Except.error "shopify service not properly initialized")
  else
    match w.getShopTokens accountId with
    | Except.error err => some (Except.error ("failed to get shop tokens: " ++ err))
    | Except.ok shopTokens =>
      if shopTokens.length = 0 then some (Except.ok [])
      else
        match channelResults w accountId fuel shopTokens with
        | none => none
        | some results => some (Except.ok (collectResults results))

/-! ## Observations on runs -/

/-- The loop state an outcome carries. -/
def Outcome.state : Outcome → LoopState
  | Outcome.running s => s
  | Outcome.returned _ s => s
  | Outcome.panicked _ s => s

/-- The state after `n` iterations that all ended with the worker still in its
loop; `none` if one of them ended the run. -/
def iterateLoop (w : World) (c : ShopCtx) (s : LoopState) : Nat → Option LoopState
  | 0 => some s
  | n + 1 =>
    match iterateLoop w c s n with
    | some sn =>
      match step w c sn with
      | Outcome.running s1 => some s1
      | _ => none
    | none => none

/-- The durations handed to `time.Sleep`, in order. -/
def sleeps (trace : List Event) : List Int :=
  trace.filterMap fun e =>
    match e with
    | Event.sleep d => some d
    | _ => none

/-- The `adjustRate` calls, in order: the signal and the interval it set. -/
def adjustments (trace : List Event) : List (Bool × Int) :=
  trace.filterMap fun e =>
    match e with
    | Event.adjust b i => some (b, i)
    | _ => none

/-- The options of the page fetches, in order. -/
def fetchEvents (trace : List Event) : List OrderListOptions :=
  trace.filterMap fun e =>
    match e with
    | Event.fetch opts => some opts
    | _ => none

/-- The state left by an iteration whose fetch was answered by a rate-limit
error while retries remain. -/
def LoopState.throttled (s : LoopState) : LoopState :=
  { s with
    fetches := s.fetches + 1
    retryCount := s.retryCount + 1
    rateLimiter := adjustRate s.rateLimiter true
    backoff :=
      if wrapInt64 (s.backoff * 2) > maxRateLimit then maxRateLimit else wrapInt64 (s.backoff * 2)
    trace := s.trace ++ [Event.wait, Event.fetch s.options] ++
      [Event.adjust true (adjustRate s.rateLimiter true).interval, Event.sleep s.backoff] }

/-- The result sent on a terminal fetch error `e`. -/
def fetchFailure (c : ShopCtx) (s : LoopState) (e : String) : syncResult :=
  { shopName := c.shopName, success := false,
    errorMessage := "failed to list orders after " ++ toString s.retryCount ++ " retries: " ++ e,
    ordersSynced := s.ordersSynced }

/-- The counter `ordersSynced` is the `int32` image of the number of orders in
the batches written successfully so far. -/
def Counted (s : LoopState) : Prop :=
  s.ordersSynced = wrapInt32 (committedOrders s.trace)

/-- The invariant `Counted` on an outcome: it holds of the state, and a result
that was sent carries the counter of that state. -/
def OutcomeCounted (o : Outcome) : Prop :=
  Counted o.state ∧ ∀ r s, o = Outcome.returned r s → r.ordersSynced = s.ordersSynced

/-- The invariant `Counted` after the first half of an iteration. -/
def FetchedCounted (f : Fetched) : Prop :=
  match f with
  | Fetched.stop o => OutcomeCounted o
  | Fetched.page _ _ s => Counted s

/-! ## Invariants and auxiliary notions -/

/-- The intervals set by `j` consecutive throttle signals from the initial
interval, each with its signal. -/
def throttleIntervals (j : Nat) : List (Bool × Int) :=
  (List.range j).map fun i => (true, min (initialRateLimit * 2 ^ (i + 1)) maxRateLimit)

/-- The result an outcome sent, if it returned. -/
def Outcome.result : Outcome → Option syncResult
  | Outcome.returned r _ => some r
  | _ => none

/-- The state left by the first half of an iteration whose fetch succeeded. -/
def LoopState.fetched (s : LoopState) : LoopState :=
  { s with
    fetches := s.fetches + 1
    rateLimiter := adjustRate s.rateLimiter false
    backoff := second
    retryCount := 0
    trace := s.trace ++ [Event.wait, Event.fetch s.options] ++
      [Event.adjust false (adjustRate s.rateLimiter false).interval] }

/-- The converted orders of a page. -/
def convertPage (page : List ShopifyOrder) : List Order :=
  page.filterMap convertShopifyOrderToOrder

/-- Every order of the page carries both timestamps. -/
def ValidPage (page : List ShopifyOrder) : Prop :=
  ∀ o, o ∈ page → (convertShopifyOrderToOrder o).isSome = true

/-- The send discipline on an outcome: nothing is sent while the worker runs or
when it faults, and a worker that returned has sent exactly its result, under
its own shop name. -/
def OutcomeSingle (c : ShopCtx) (o : Outcome) : Prop :=
  match o with
  | Outcome.running s => sentResults s.trace = []
  | Outcome.returned r s => sentResults s.trace = [r] ∧ r.shopName = c.shopName
  | Outcome.panicked _ s => sentResults s.trace = []

/-- One turn of the loop `for result := range results`. -/
def collectOne (m : Report) (r : syncResult) : Report :=
  if r.shopName ≠ "" then
    Report.set m r.shopName
      { success := r.success, errorMessage := r.errorMessage, ordersSynced := r.ordersSynced }
  else m

/-- The status that the coordinator stores for a result. -/
def statusOf (r : syncResult) : ShopSyncStatus :=
  { success := r.success, errorMessage := r.errorMessage, ordersSynced := r.ordersSynced }

/-! ## Concrete scenarios -/

/-- A remote order that carries both timestamps. -/
def sampleOrder : ShopifyOrder :=
  { id := 1001, name := "#1001", email := "buyer@example.com",
    createdAt := some { unixNano := 1700000000000000000 },
    updatedAt := some { unixNano := 1700000600000000000 },
    cancelledAt := none, closedAt := none, processedAt := none, currency := "USD",
    totalPrice := some { coeff := 1999, exp := -2 }, subtotalPrice := none,
    totalDiscounts := none, totalTax := none, taxesIncluded := false,
    financialStatus := "paid", fulfillmentStatus := "", orderNumber := 1001, test := false,
    browserIp := "", cancelReason := "", tags := "", gateway := "manual", confirmed := true,
    contactEmail := "", phone := "", customer := none }

/-- A remote order without `CreatedAt`. -/
def brokenOrder : ShopifyOrder := { sampleOrder with createdAt := none }

/-- The worker identity of shop-a in account acct-1. -/
def shopA : ShopCtx := { shopName := "shop-a", token := "token-a", accountId := "acct-1" }

/-- A pagination value that names a next page. -/
def morePages : Option Pagination :=
  some { nextPageOptions := some { pageInfo := "cursor-2", page := 0, limit := 250 },
         previousPageOptions := none }

/-- The text of the rate-limit error of the remote API. -/
def throttleError : String := "Exceeded 2 calls per second for api client."

/-- The literal scenario: shop-a serves 250 orders and a next page, then 10
orders; shop-b serves one empty last page; every write succeeds. -/
def literalWorld : World :=
  { serviceReady := true
    getShopTokens := fun _ => Except.ok [("shop-a", "token-a"), ("shop-b", "token-b")]
    newClient := fun _ _ => none
    getLatestOrderTimestamp := fun _ _ => (Time.zero, none)
    ctxDone := fun _ _ => none
    listWithPagination := fun shop _ n _ =>
      if shop = "shop-a" then
        if n = 0 then FetchResult.ok (List.replicate 250 sampleOrder) morePages
        else FetchResult.ok (List.replicate 10 sampleOrder) none
      else FetchResult.ok [] none
    syncOrders := fun _ _ _ _ => (true, none) }

/-- Whether the outcome is a runtime fault. -/
def Outcome.faulted : Outcome → Bool
  | Outcome.panicked _ _ => true
  | _ => false

/-- The outcome of a run that is known to end within the fuel. -/
def outcomeOf (run : Option Outcome) : Outcome :=
  run.getD (Outcome.running (initialState Time.zero))

/-- Shop-a serves two full pages of 250 orders; the first batch write succeeds
and the second fails. -/
def secondWriteFails : World :=
  { literalWorld with
    listWithPagination := fun _ _ n _ =>
      if n = 0 then FetchResult.ok (List.replicate 250 sampleOrder) morePages
      else FetchResult.ok (List.replicate 250 sampleOrder) none
    syncOrders := fun _ _ n _ => if n = 0 then (true, none) else (false, some "connection reset") }

/-- Shop-a serves a full page of 250 valid orders and then a page whose order
has no `CreatedAt`. -/
def faultAfterCommit : World :=
  { literalWorld with
    getShopTokens := fun _ => Except.ok [("shop-a", "token-a")]
    listWithPagination := fun _ _ n _ =>
      if n = 0 then FetchResult.ok (List.replicate 250 sampleOrder) morePages
      else FetchResult.ok [brokenOrder] none }

/-- The remote API answers the first three calls with a rate-limit error and
then serves a last page of 10 orders. -/
def throttledThrice : World :=
  { literalWorld with
    listWithPagination := fun _ _ n _ =>
      if n < 3 then FetchResult.error throttleError
      else FetchResult.ok (List.replicate 10 sampleOrder) none }

/-- The remote API answers every call with a rate-limit error. -/
def alwaysThrottled : World :=
  { literalWorld with listWithPagination := fun _ _ _ _ => FetchResult.error throttleError }

/-- The remote API answers every call with a server error. -/
def remoteDown : World :=
  { literalWorld with
    listWithPagination := fun _ _ _ _ => FetchResult.error "Internal Server Error" }

/-- The remote API of shop-a answers every call with a server error; shop-b
serves 250 orders and a next page, then 10 orders. -/
def isolationWorld : World :=
  { literalWorld with
    listWithPagination := fun shop _ n _ =>
      if shop = "shop-a" then FetchResult.error "Internal Server Error"
      else if n = 0 then FetchResult.ok (List.replicate 250 sampleOrder) morePages
      else FetchResult.ok (List.replicate 10 sampleOrder) none }

/-- Every batch written so far holds exactly `batchSize` orders, and the batch
in memory is short of `batchSize`. -/
def BatchInv (s : LoopState) : Prop :=
  (∀ b, b ∈ batchWrites s.trace → b.1.length = batchSize) ∧ s.currentBatch.length < batchSize

/-- The shape of the batches of an outcome: full batches, then at most one
shorter, non-empty batch, which is the flush of a worker that returned. -/
def BatchShape (o : Outcome) : Prop :=
  ∃ full last, batchWrites o.state.trace = full ++ last ∧
    (∀ b, b ∈ full → b.1.length = batchSize) ∧
    (last = [] ∨ ∃ b ok, last = [(b, ok)] ∧ 1 ≤ b.length ∧ b.length < batchSize ∧
      o.result.isSome = true)

/-- The batch discipline on an outcome. -/
def OutcomeBatches (o : Outcome) : Prop :=
  match o with
  | Outcome.running s => BatchInv s
  | o => BatchShape o

/-- The pages fetched successfully according to the fetch events of a trace,
the first of which is call number `n`: each fetch is answered by the world at
its call number and options. -/
def fetchedPagesFrom (w : World) (c : ShopCtx) : Nat → List Event → List (List ShopifyOrder)
  | _, [] => []
  | n, Event.fetch opts :: rest =>
    match w.listWithPagination c.shopName c.token n opts with
    | FetchResult.ok orders _ => orders :: fetchedPagesFrom w c (n + 1) rest
    | FetchResult.error _ => fetchedPagesFrom w c (n + 1) rest
  | n, _ :: rest => fetchedPagesFrom w c n rest

/-- The remote orders of all successfully fetched pages, in page order and then
in-page order. -/
def fetchedOrders (w : World) (c : ShopCtx) (trace : List Event) : List ShopifyOrder :=
  (fetchedPagesFrom w c 0 trace).flatten

/-- The orders of the batches handed to `syncBatch`, in invocation order. -/
def writtenOrders (trace : List Event) : List Order :=
  ((batchWrites trace).map fun b => b.1).flatten

/-- The events are no fetches. -/
def NoFetch (events : List Event) : Prop := fetchEvents events = []

/-- Between iterations: the fetch counter counts the fetch events, every write
so far succeeded, and the fetched orders, converted, are the written orders
followed by the batch in memory. -/
def Faithful (w : World) (c : ShopCtx) (s : LoopState) : Prop :=
  s.fetches = (fetchEvents s.trace).length ∧
    (∀ b, b ∈ batchWrites s.trace → b.2 = true) ∧
    (fetchedOrders w c s.trace).map convertShopifyOrderToOrder
      = (writtenOrders s.trace ++ s.currentBatch).map some

/-- The outcome of an iteration entered in a faithful state: a worker that is
still running is faithful, and a worker that reports success has written
exactly the converted fetched orders, every write succeeding. -/
def OutcomeFaithful (w : World) (c : ShopCtx) (o : Outcome) : Prop :=
  match o with
  | Outcome.running s => Faithful w c s
  | Outcome.returned r s =>
    r.success = true →
      (∀ b, b ∈ batchWrites s.trace → b.2 = true) ∧
      (fetchedOrders w c s.trace).map convertShopifyOrderToOrder
        = (writtenOrders s.trace).map some
  | Outcome.panicked _ _ => True

/-- The state of the inner loop half-way through a page: every write so far
succeeded, the fetch counter counts the fetch events, and the fetched orders
but for the rest of the page, converted, are the written orders followed by
the batch in memory. -/
def MidPage (w : World) (c : ShopCtx) (rest : List ShopifyOrder) (s : LoopState) : Prop :=
  s.fetches = (fetchEvents s.trace).length ∧
    (∀ b, b ∈ batchWrites s.trace → b.2 = true) ∧
    ∃ done, fetchedOrders w c s.trace = done ++ rest ∧
      done.map convertShopifyOrderToOrder = (writtenOrders s.trace ++ s.currentBatch).map some

/-! ## Scenarios of pages, deadlines and credentials -/

/-- Shop-a serves a page of 300 orders, then an empty page, then a last page of
210 orders; every write succeeds. -/
def oddPages : World :=
  { literalWorld with
    listWithPagination := fun _ _ n _ =>
      if n = 0 then FetchResult.ok (List.replicate 300 sampleOrder) morePages
      else if n = 1 then FetchResult.ok [] morePages
      else FetchResult.ok (List.replicate 210 sampleOrder) none }

/-- The deadline of every shop is exceeded from the third check on; the remote
API serves full pages of 250 orders without end. -/
def deadlineAtThird : World :=
  { literalWorld with
    ctxDone := fun _ n => if n < 2 then none else some "context deadline exceeded"
    listWithPagination := fun _ _ _ _ =>
      FetchResult.ok (List.replicate 250 sampleOrder) morePages }

/-- The loop state held in an option, for a run that is known to get there. -/
def stateOf (s : Option LoopState) : LoopState := s.getD (initialState Time.zero)

/-- The account has one credential, whose shop name is empty. -/
def namelessCredential : World :=
  { literalWorld with getShopTokens := fun _ => Except.ok [("", "token-x")] }

/-- The account has a credential with an empty token and a sound one. -/
def tokenlessCredential : World :=
  { literalWorld with getShopTokens := fun _ => Except.ok [("shop-a", ""), ("shop-b", "token-b")] }

/-- The result sent for a credential whose shop name or token is empty. -/
def invalidCredential (shopName : String) : syncResult :=
  { shopName := shopName, success := false, errorMessage := "invalid shop name or token",
    ordersSynced := 0 }

/-! ## The gRPC handler of the synchronisation -/

/-- The message `pb.SyncOrderResponse`. -/
structure SyncOrderResponse where
  overallSuccess : Bool
  shopResults : Report
  deriving DecidableEq, Repr

/-- The handler `grpcServer.SyncOrders`: the response and the error it returns;
`none` when the service call does not return within the fuel. -/
def grpcServer.SyncOrders (w : World) (accountId : String) (fuel : Nat) :
    Option (SyncOrderResponse × Option String) :=
  match SyncOrdersForAccount w accountId fuel with
  | none => none
  | some (Except.error err) =>
    some ({ overallSuccess := false, shopResults := [] }, some ("failed to sync orders: " ++ err))
  | some (Except.ok results) =>
    some ({ overallSuccess := true, shopResults := results }, none)

/-! ## The repository -/

/-- A row of table `orders`: the columns named by the statement of
`SyncOrders`, in its order. -/
structure OrderRow where
  id : Int
  name : String
  email : String
  createdAt : Time
  updatedAt : Time
  cancelledAt : Option Time
  closedAt : Option Time
  processedAt : Option Time
  currency : String
  totalPrice : Float64
  subtotalPrice : Float64
  totalDiscounts : Float64
  totalTax : Float64
  taxesIncluded : Bool
  financialStatus : String
  fulfillmentStatus : String
  orderNumber : Int
  test : Bool
  browserIp : String
  cancelReason : String
  tags : String
  gateway : String
  confirmed : Bool
  contactEmail : String
  phone : String
  shopName : String
  accountId : String
  customerId : Option Int
  customerEmail : Option String
  customerFirstName : Option String
  customerLastName : Option String
  customerPhone : Option String
  deriving DecidableEq, Repr

/-- The arguments that `processBatch` hands to `stmt.ExecContext` for an order:
the customer columns are NULL unless the customer id is non-zero. -/
def insertArgs (order : Order) (shopName accountId : String) : OrderRow :=
  { id := order.id
    name := order.name
    email := order.email
    createdAt := order.createdAt
    updatedAt := order.updatedAt
    cancelledAt := order.cancelledAt
    closedAt := order.closedAt
    processedAt := order.processedAt
    currency := order.currency
    totalPrice := order.totalPrice
    subtotalPrice := order.subtotalPrice
    totalDiscounts := order.totalDiscounts
    totalTax := order.totalTax
    taxesIncluded := order.taxesIncluded
    financialStatus := order.financialStatus
    fulfillmentStatus := order.fulfillmentStatus
    orderNumber := order.orderNumber
    test := order.test
    browserIp := order.browserIp
    cancelReason := order.cancelReason
    tags := order.tags
    gateway := order.gateway
    confirmed := order.confirmed
    contactEmail := order.contactEmail
    phone := order.phone
    shopName := shopName
    accountId := accountId
    customerId := if order.customer.id ≠ 0 then some (wrapInt64 order.customer.id) else none
    customerEmail := if order.customer.id ≠ 0 then some order.customer.email else none
    customerFirstName := if order.customer.id ≠ 0 then some order.customer.firstName else none
    customerLastName := if order.customer.id ≠ 0 then some order.customer.lastName else none
    customerPhone := if order.customer.id ≠ 0 then some order.customer.phone else none }

/-- The outcome of one `stmt.ExecContext`: success, a `pq.Error` with its code,
or another error; errors carry their text. -/
inductive ExecResult where
  | ok
  | pqError (code : String) (text : String)
  | otherError (text : String)
  deriving DecidableEq, Repr

/-- What a call of `processBatch` did: the error it returned, the rows it
handed to `ExecContext`, in order, and those whose insert succeeded. -/
structure BatchRun where
  err : Option String
  executed : List OrderRow
  written : List OrderRow
  deriving DecidableEq, Repr

/-- The method `processBatch`. The outcome of each insert is given by `exec`,
at the number of the insert within the transaction (from `n` on) and its row. -/
def processBatch (exec : Nat → OrderRow → ExecResult) (shopName accountId : String) :
    Nat → List Order → BatchRun
  | _, [] => { err := none, executed := [], written := [] }
  | n, order :: rest =>
    let row := insertArgs order shopName accountId
    match exec n row with
    | ExecResult.ok =>
      let run := processBatch exec shopName accountId (n + 1) rest
      { run with executed := row :: run.executed, written := row :: run.written }
    | ExecResult.pqError code text =>
      if code = "23505" then
        let run := processBatch exec shopName accountId (n + 1) rest
        { run with executed := row :: run.executed }
      else
        { err := some ("database error: " ++ text), executed := [row], written := [] }
    | ExecResult.otherError text =>
      { err := some ("failed to insert order " ++ toString order.id ++ ": " ++ text),
        executed := [row], written := [] }

/-- An insert outcome that makes `processBatch` return an error: any error but
a `pq.Error` with code 23505 (unique violation). -/
def ExecResult.fatal : ExecResult → Bool
  | ExecResult.ok => false
  | ExecResult.pqError code _ => decide (code ≠ "23505")
  | ExecResult.otherError _ => true

/-- The insert of the order at position `i` of the batch, were it executed,
fails with an error other than a unique violation. -/
def FatalAt (exec : Nat → OrderRow → ExecResult) (shopName accountId : String) (n : Nat)
    (orders : List Order) (i : Nat) : Prop :=
  ∃ order, orders[i]? = some order ∧
    (exec (n + i) (insertArgs order shopName accountId)).fatal = true

/-- The table `orders`, as the list of its rows. -/
abbrev Store := List OrderRow

/-- The clause `DO UPDATE SET ...` of the statement of `SyncOrders`: the row
`old` after a conflict with the proposed row `new`. -/
def conflictUpdate (old new : OrderRow) : OrderRow :=
  { old with
    updatedAt := new.updatedAt
    cancelledAt := new.cancelledAt
    closedAt := new.closedAt
    processedAt := new.processedAt
    totalPrice := new.totalPrice
    subtotalPrice := new.subtotalPrice
    totalDiscounts := new.totalDiscounts
    totalTax := new.totalTax
    financialStatus := new.financialStatus
    fulfillmentStatus := new.fulfillmentStatus
    tags := new.tags
    gateway := new.gateway }

/-- The statement `INSERT ... ON CONFLICT (id) DO UPDATE SET ...` executed with
success: the row with the same id is updated, or the row is added. -/
def upsert (store : Store) (row : OrderRow) : Store :=
  match store with
  | [] => [row]
  | r :: rest => if r.id = row.id then conflictUpdate r row :: rest else r :: upsert rest row

/-- The stored row with a given id. -/
def Store.lookup (store : Store) (id : Int) : Option OrderRow :=
  match store with
  | [] => none
  | r :: rest => if r.id = id then some r else Store.lookup rest id

/-- The answers of the database to one call of `SyncOrders`: the errors of
`BeginTx`, `PrepareContext` and `Commit`, if any, and the outcome of each
insert. -/
structure TxOracle where
  beginTx : Option String
  prepare : Option String
  exec : Nat → OrderRow → ExecResult
  commit : Option String

/-- The loop `for i := 0; i < len(orders); i += batchSize` of `SyncOrders`, with
its local `batchSize` of 100: `remaining` is `orders[i:]`. It returns the error,
if any, and the rows written so far. -/
def processChunks (tx : TxOracle) (shopName accountId : String) :
    Nat → Nat → List Order → Option String × List OrderRow
  | 0, _, _ => (none, [])
  | fuel + 1, i, remaining =>
    if remaining.length = 0 then (none, [])
    else
      let batch := remaining.take 100
      let stop := i + batch.length
      let run := processBatch tx.exec shopName accountId i batch
      match run.err with
      | some err =>
        (some ("failed to process batch " ++ toString i ++ "-" ++ toString stop ++ ": " ++ err),
          run.written)
      | none =>
        let more := processChunks tx shopName accountId fuel stop (remaining.drop 100)
        (more.1, run.written ++ more.2)

/-- The method `PostgresRepository.SyncOrders` on a store: its two results and
the store it leaves. The deferred `tx.Rollback` leaves the store as it was
unless `Commit` succeeded. -/
def PostgresRepository.SyncOrders (tx : TxOracle) (store : Store) (orders : List Order)
    (shopName accountId : String) : (Bool × Option String) × Store :=
  match tx.beginTx with
  | some err => ((false, some ("failed to begin transaction: " ++ err)), store)
  | none =>
    match tx.prepare with
    | some err => ((false, some ("failed to prepare statement: " ++ err)), store)
    | none =>
      match processChunks tx shopName accountId orders.length 0 orders with
      | (some err, _) => ((false, some err), store)
      | (none, written) =>
        match tx.commit with
        | some err => ((false, some ("failed to commit transaction: " ++ err)), store)
        | none => ((true, none), written.foldl upsert store)

/-- The value `'1970-01-01'::timestamp` of the watermark query. -/
def epoch : Time := { unixNano := 0 }

/-- The aggregate `MAX(updated_at)` over rows: `none` is NULL. -/
def maxUpdatedAt : List OrderRow → Option Time
  | [] => none
  | r :: rest =>
    match maxUpdatedAt rest with
    | none => some r.updatedAt
    | some m => if m.unixNano < r.updatedAt.unixNano then some r.updatedAt else some m

/-- The rows of a shop and account. -/
def shopRows (store : Store) (shopName accountId : String) : List OrderRow :=
  store.filter fun r => decide (r.shopName = shopName ∧ r.accountId = accountId)

/-- The timestamp that `PostgresRepository.GetLatestOrderTimestamp` scans when
its query succeeds: `COALESCE(MAX(updated_at), '1970-01-01')` over the rows of
the shop and account. -/
def PostgresRepository.GetLatestOrderTimestamp (store : Store) (shopName accountId : String) :
    Time :=
  match maxUpdatedAt (shopRows store shopName accountId) with
  | none => epoch
  | some t => t

/-- The store after the batches handed to `syncBatch`, each run through
`SyncOrders` with the answers of the database for that call. -/
def storeAfterWrites (txs : Nat → TxOracle) (shopName accountId : String) :
    Nat → Store → List (List Order) → Store
  | _, store, [] => store
  | n, store, batch :: rest =>
    storeAfterWrites txs shopName accountId (n + 1)
      (PostgresRepository.SyncOrders (txs n) store batch shopName accountId).2 rest

/-- The store after a run of the worker with the given trace. -/
def storeAfterRun (txs : Nat → TxOracle) (c : ShopCtx) (store : Store) (trace : List Event) :
    Store :=
  storeAfterWrites txs c.shopName c.accountId 0 store ((batchWrites trace).map fun b => b.1)

/-- Every order handed to `syncBatch` so far, and every order of the batch in
memory, is the conversion of a remote order of a fetched page; the fetch
counter counts the fetch events. -/
def Sourced (w : World) (c : ShopCtx) (s : LoopState) : Prop :=
  s.fetches = (fetchEvents s.trace).length ∧
    ∀ x, x ∈ writtenOrders s.trace ∨ x ∈ s.currentBatch →
      ∃ o, o ∈ fetchedOrders w c s.trace ∧ convertShopifyOrderToOrder o = some x

/-- The watermark of a shop is at least `t`: the shop has no row and `t` is
not after the epoch, or some row of the shop is updated at `t` or later. -/
def WatermarkAtLeast (t : Int) (store : Store) (shopName accountId : String) : Prop :=
  (shopRows store shopName accountId = [] ∧ t ≤ epoch.unixNano) ∨
    ∃ r, r ∈ shopRows store shopName accountId ∧ t ≤ r.updatedAt.unixNano

/-! ## Scenarios around a store -/

/-- The order that `convertShopifyOrderToOrder` makes of `sampleOrder`. -/
def sampleConverted : Order :=
  { id := 1001, name := "#1001", email := "buyer@example.com",
    createdAt := { unixNano := 1700000000000000000 },
    updatedAt := { unixNano := 1700000600000000000 },
    cancelledAt := none, closedAt := none, processedAt := none, currency := "USD",
    totalPrice := Float64.ofDecimal { coeff := 1999, exp := -2 },
    subtotalPrice := Float64.zero, totalDiscounts := Float64.zero, totalTax := Float64.zero,
    taxesIncluded := false, totalWeight := 0, financialStatus := "paid",
    fulfillmentStatus := "", number := 0, orderNumber := 1001, test := false, browserIp := "",
    cancelReason := "", tags := "", locationId := 0, customer := Customer.zero,
    gateway := "manual", confirmed := true, phone := "", contactEmail := "" }

/-- The same order at a later update. -/
def editedLater : Order :=
  { sampleConverted with
    updatedAt := { unixNano := 1800000000000000000 }, financialStatus := "refunded" }

/-- The same order at an earlier update. -/
def editedEarlier : Order :=
  { sampleConverted with
    updatedAt := { unixNano := 1600000000000000000 }, financialStatus := "pending" }

/-- A store that holds order 1001 of shop-a at its later update. -/
def staleStore : Store := [insertArgs editedLater "shop-a" "acct-1"]

/-- A store that holds order 1001 of shop-a at its earlier update. -/
def earlierStore : Store := [insertArgs editedEarlier "shop-a" "acct-1"]

/-- A database that answers every call with success. -/
def healthyDatabase : TxOracle :=
  { beginTx := none, prepare := none, exec := fun _ _ => ExecResult.ok, commit := none }

/-- The world around a store with a healthy database: the watermark is read
from the store, the remote serves `sampleOrder` on one last page, and
`Repo.SyncOrders` answers as the store does. -/
def servingSample (store : Store) : World :=
  { serviceReady := true
    getShopTokens := fun _ => Except.ok [("shop-a", "token-a")]
    newClient := fun _ _ => none
    getLatestOrderTimestamp := fun shop account =>
      (PostgresRepository.GetLatestOrderTimestamp store shop account, none)
    ctxDone := fun _ _ => none
    listWithPagination := fun _ _ _ _ => FetchResult.ok [sampleOrder] none
    syncOrders := fun shop account _ batch =>
      (PostgresRepository.SyncOrders healthyDatabase store batch shop account).1 }

/-- A remote order whose id, a `uint64`, is `2 ^ 63`. -/
def largeIdOrder : ShopifyOrder := { sampleOrder with id := 2 ^ 63 }

/-! ## Fetch options, watermark errors and faults -/

/-- The options that a run with watermark `lastSync` fetches with, at page
number `page`: page size `batchSize`, status "any", no cursor, and
`UpdatedAtMin` equal to the watermark unless it is the zero time. -/
def fetchOptions (lastSync : Time) (page : Int) : OrderListOptions :=
  { listOptions := { pageInfo := "", page := page, limit := batchSize }
    status := "any"
    updatedAtMin := if lastSync.IsZero then Time.zero else lastSync }

/-- The options of the state and of every fetch so far are the fetch options
of the run, up to the page number, and the first fetch has page number 0. -/
def OptionsKept (lastSync : Time) (s : LoopState) : Prop :=
  s.options = fetchOptions lastSync s.options.listOptions.page ∧
    (∀ opts, opts ∈ fetchEvents s.trace → opts = fetchOptions lastSync opts.listOptions.page) ∧
    (fetchEvents s.trace = [] → s.options = fetchOptions lastSync 0) ∧
    (∀ first, (fetchEvents s.trace).head? = some first → first = fetchOptions lastSync 0)

/-- The invariant `OptionsKept` on an outcome. -/
def OutcomeOptionsKept (lastSync : Time) (o : Outcome) : Prop :=
  match o with
  | Outcome.running s => OptionsKept lastSync s
  | o =>
    (∀ opts, opts ∈ fetchEvents o.state.trace →
        opts = fetchOptions lastSync opts.listOptions.page) ∧
      (∀ first, (fetchEvents o.state.trace).head? = some first → first = fetchOptions lastSync 0)

/-- The world in which the watermark of every shop is read without error as
the zero time. -/
def withoutWatermark (w : World) : World :=
  { w with getLatestOrderTimestamp := fun _ _ => (Time.zero, none) }

/-- The literal scenario with a failing watermark read. -/
def watermarkDown : World :=
  { literalWorld with
    getLatestOrderTimestamp := fun _ _ => (Time.zero, some "connection refused") }

/-- A fault of the outcome is the nil dereference of the conversion, raised
on an order of a fetched page that lacks a timestamp; while the worker runs the
fetch counter counts the fetch events. -/
def FaultTraced (w : World) (c : ShopCtx) (o : Outcome) : Prop :=
  match o with
  | Outcome.running s => s.fetches = (fetchEvents s.trace).length
  | Outcome.returned _ _ => True
  | Outcome.panicked v s =>
    v = nilDereference ∧
      ∃ order, order ∈ fetchedOrders w c s.trace ∧ convertShopifyOrderToOrder order = none

/-- The options of a first fetch without watermark filter. -/
def firstPageOptions : OrderListOptions :=
  { listOptions := { pageInfo := "", page := 0, limit := 250 }, status := "any",
    updatedAtMin := Time.zero }

/-- A remote that pages by cursor, as `ListWithPagination` does: without cursor
it serves the first page, 250 orders, and the cursor "cursor-2" as next-page
options; with a cursor it serves the last page, 10 orders of id 2002. The
watermark read fails, so the run is a full pull; the deadline is exceeded from
the third check on; every write succeeds. -/
def cursorPaged : World :=
  { literalWorld with
    getShopTokens := fun _ => Except.ok [("shop-a", "token-a")]
    getLatestOrderTimestamp := fun _ _ => (Time.zero, some "connection refused")
    ctxDone := fun _ n => if n < 2 then none else some "context deadline exceeded"
    listWithPagination := fun _ _ _ opts =>
      if opts.listOptions.pageInfo = "" then
        FetchResult.ok (List.replicate 250 sampleOrder) morePages
      else FetchResult.ok (List.replicate 10 { sampleOrder with id := 2002 }) none }

/-! ## The GraphQL mutation of the synchronisation -/

/-- The GraphQL struct `models.ShopSyncStatus`. -/
structure models.ShopSyncStatus where
  success : Bool
  errorMessage : String
  ordersCount : Int
  deriving DecidableEq, Repr

/-- The GraphQL struct `models.ShopSyncDetails`. -/
structure models.ShopSyncDetails where
  shopName : String
  status : models.ShopSyncStatus
  deriving DecidableEq, Repr

/-- The GraphQL struct `models.SyncOrdersResult`; a nil slice of shop results
is `none`. -/
structure models.SyncOrdersResult where
  overallSuccess : Bool
  message : String
  shopResults : Option (List models.ShopSyncDetails)
  deriving DecidableEq, Repr

/-- The method `Client.SyncOrders` of the gRPC client, on the answer of the
stub: the shop results of the response, or the wrapped error. -/
def Client.SyncOrders (answer : Except String SyncOrderResponse) : Except String Report :=
  match answer with
  | Except.error err => Except.error ("failed to sync orders: " ++ err)
  | Except.ok resp => Except.ok resp.shopResults

/-- One turn of the loop `for shopName, status := range shopResults` of the
mutation: the details collected so far and the flag `allSuccessful`. -/
def collectDetails (acc : List models.ShopSyncDetails × Bool) (entry : String × ShopSyncStatus) :
    List models.ShopSyncDetails × Bool :=
  (acc.1 ++ [{ shopName := entry.1,
               status := { success := entry.2.success, errorMessage := entry.2.errorMessage,
                           ordersCount := entry.2.ordersSynced } }],
   if !entry.2.success then false else acc.2)

/-- The mutation `mutationResolver.SyncOrders`, on the result of the client
call: the result it returns and its error, `none` for nil. The map of shop
results is ranged over in the order of the list. -/
def mutationResolver.SyncOrders (client : Except String Report) :
    models.SyncOrdersResult × Option String :=
  match client with
  | Except.error err =>
    ({ overallSuccess := false, message := "Failed to sync orders: " ++ err, shopResults := none },
      none)
  | Except.ok shopResults =>
    let collected := shopResults.foldl collectDetails ([], true)
    ({ overallSuccess := collected.2, message := "Order synchronization completed",
       shopResults := some collected.1 }, none)

/-- The shop details that the mutation makes of a report entry. -/
def detailsOf (entry : String × ShopSyncStatus) : models.ShopSyncDetails :=
  { shopName := entry.1,
    status := { success := entry.2.success, errorMessage := entry.2.errorMessage,
                ordersCount := entry.2.ordersSynced } }

/-! ## Order messages of the RPC layer -/

/-- The Go conversion `string(n)` of an integer: the UTF-8 text of the code
point `n`, and of U+FFFD when `n` is no valid code point. -/
def runeString (n : Int) : String :=
  if (0 ≤ n ∧ n < 0xD800) ∨ (0xE000 ≤ n ∧ n ≤ 0x10FFFF) then
    String.singleton (Char.ofNat n.toNat)
  else String.singleton (Char.ofNat 0xFFFD)

/-- The text `fmt.Sprintf("%d", n)`: the decimal digits of `n`, after a minus
sign when `n` is negative. -/
def sprintfDecimal (n : Int) : String := toString n

/-- The kinds of error of `strconv.ParseInt`: `ErrSyntax` and `ErrRange`. -/
inductive strconv.NumError where
  | errSyntax
  | errRange
  deriving DecidableEq, Repr

/-- The value of a decimal digit. -/
def digitValue (ch : Char) : Option Nat :=
  if '0' ≤ ch ∧ ch ≤ '9' then some (ch.toNat - 48) else none

/-- The loop of `strconv.ParseUint(s, 10, 64)` over the text, onto the value
`n` read so far: a character that is no digit is a syntax error; a digit that
takes the value beyond `2 ^ 64 - 1` is a range error, returned at once. -/
def parseDigits : List Char → Nat → Except strconv.NumError Nat
  | [], n => Except.ok n
  | ch :: rest, n =>
    match digitValue ch with
    | none => Except.error strconv.NumError.errSyntax
    | some d =>
      if n ≥ (2 ^ 64 - 1) / 10 + 1 then Except.error strconv.NumError.errRange
      else if n * 10 + d > 2 ^ 64 - 1 then Except.error strconv.NumError.errRange
      else parseDigits rest (n * 10 + d)

/-- The function `strconv.ParseUint(s, 10, 64)` on the characters of `s`. -/
def strconv.ParseUint (s : List Char) : Except strconv.NumError Nat :=
  if s = [] then Except.error strconv.NumError.errSyntax else parseDigits s 0

/-- The range check of `strconv.ParseInt` on the magnitude `un` read by
`ParseUint`, for a text with (`neg`) or without a minus sign. -/
def signedValue (neg : Bool) (un : Nat) : Except strconv.NumError Int :=
  if !neg && un ≥ 2 ^ 63 then Except.error strconv.NumError.errRange
  else if neg && un > 2 ^ 63 then Except.error strconv.NumError.errRange
  else Except.ok (if neg then -(un : Int) else (un : Int))

/-- The function `strconv.ParseInt(s, 10, 64)`. -/
def strconv.ParseInt (s : String) : Except strconv.NumError Int :=
  match s.data with
  | [] => Except.error strconv.NumError.errSyntax
  | ch :: rest =>
    match strconv.ParseUint (if ch = '+' ∨ ch = '-' then rest else ch :: rest) with
    | Except.error e => Except.error e
    | Except.ok un => signedValue (decide (ch = '-')) un

/-- The text fields of the message `pb.Order` that the order handlers set from
text fields of the stored order (prices, `CreatedAt` and the customer name are
left out). -/
structure pb.Order where
  id : String
  orderName : String
  currency : String
  financialStatus : String
  fulfillmentStatus : String
  customerEmail : String
  deriving DecidableEq, Repr

/-- The message that the handler `grpcServer.GetOrder` builds for a stored
order: its `Id` is `string(order.ID)`. -/
def grpcServer.GetOrder (order : Order) : pb.Order :=
  { id := runeString order.id
    orderName := order.name
    currency := order.currency
    financialStatus := order.financialStatus
    fulfillmentStatus := order.fulfillmentStatus
    customerEmail := order.customer.email }

/-- The message that the handler `grpcServer.GetOrdersForAccount` builds for
each stored order of the page: its `Id` is `fmt.Sprintf("%d", order.ID)`. -/
def grpcServer.GetOrdersForAccount.order (order : Order) : pb.Order :=
  { id := sprintfDecimal order.id
    orderName := order.name
    currency := order.currency
    financialStatus := order.financialStatus
    fulfillmentStatus := order.fulfillmentStatus
    customerEmail := order.customer.email }

/-- The fields of the `Order` built by the client that come from text fields of
the message. -/
structure ClientOrder where
  id : Int
  name : String
  currency : String
  financialStatus : String
  fulfillmentStatus : String
  customerEmail : String
  deriving DecidableEq, Repr

/-- The conversion of a message by `Client.GetOrder`, and by
`Client.GetOrdersForAccount` for each order of the page: the id is parsed by
`strconv.ParseInt(resp.Id, 10, 64)`, and its error, which the client wraps as
"failed to parse order ID", is returned by its kind. -/
def Client.GetOrder (resp : pb.Order) : Except strconv.NumError ClientOrder :=
  match strconv.ParseInt resp.id with
  | Except.error e => Except.error e
  | Except.ok id =>
    Except.ok
      { id := id
        name := resp.orderName
        currency := resp.currency
        financialStatus := resp.financialStatus
        fulfillmentStatus := resp.fulfillmentStatus
        customerEmail := resp.customerEmail }

/-- The stored order 1001 under the id 53. -/
def order53 : Order := { sampleConverted with id := 53 }

/-! ## Pages of orders of an account -/

/-- The message `pb.GetOrdersForAccountResponse`; its three counters are
`int32`. -/
structure pb.GetOrdersForAccountResponse where
  orders : List pb.Order
  totalCount : Int
  totalPages : Int
  currentPage : Int
  deriving DecidableEq, Repr

/-- The method `ShopifyService.GetAccountOrders`. The repository method
`Repo.GetAccountOrders` is the parameter `repo`, called with limit and offset;
it answers with the orders of the page and the total count, or an error. The
Go type `int` is taken as 64 bits wide. -/
def ShopifyService.GetAccountOrders (repo : Int → Int → Except String (List Order × Int))
    (page pageSize : Int) : Except String (List Order × Int) :=
  let page := if page < 1 then 1 else page
  let pageSize := if pageSize < 1 then 50 else pageSize
  let offset := wrapInt64 ((page - 1) * pageSize)
  repo pageSize offset

/-- The handler `grpcServer.GetOrdersForAccount`, on the `int32` fields `Page`
and `PageSize` of the request. The division is that of Go, which truncates
toward zero. -/
def grpcServer.GetOrdersForAccount (repo : Int → Int → Except String (List Order × Int))
    (reqPage reqPageSize : Int) : Except String pb.GetOrdersForAccountResponse :=
  let reqPageSize := if reqPageSize = 0 then 20 else reqPageSize
  let reqPage := if reqPage = 0 then 1 else reqPage
  match ShopifyService.GetAccountOrders repo reqPage reqPageSize with
  | Except.error err => Except.error ("failed to get orders: " ++ err)
  | Except.ok (orders, totalCount) =>
    let pageSize := reqPageSize
    let totalPages := wrapInt64 (Int.tdiv (wrapInt64 (totalCount + pageSize - 1)) pageSize)
    Except.ok
      { orders := orders.map grpcServer.GetOrdersForAccount.order
        totalCount := wrapInt32 totalCount
        totalPages := wrapInt32 totalPages
        currentPage := reqPage }

/-- The page size used for the query: 20 when the request says 0, 50 when it
is negative, else the requested size. -/
def effectivePageSize (reqPageSize : Int) : Int :=
  if reqPageSize = 0 then 20 else if reqPageSize < 0 then 50 else reqPageSize

/-- The page used for the query: 1 when the requested page is below 1, else
the requested page. -/
def effectivePage (reqPage : Int) : Int := if reqPage < 1 then 1 else reqPage

/-- A repository that holds `total` orders and serves empty pages. -/
def countingRepo (total : Int) : Int → Int → Except String (List Order × Int) :=
  fun _ _ => Except.ok ([], total)

/-! ## Two runs against unchanged remote data -/

/-- The watermark of a shop is at most `t`: every row of the shop is updated at
`t` or earlier, and `t` is not before the epoch when the shop has no row. -/
def WatermarkAtMost (t : Int) (store : Store) (shopName accountId : String) : Prop :=
  (shopRows store shopName accountId = [] → epoch.unixNano ≤ t) ∧
    ∀ r, r ∈ shopRows store shopName accountId → r.updatedAt.unixNano ≤ t

/-- Whether a remote order is updated at `t` or later. -/
def notBelow (t : Time) (o : ShopifyOrder) : Bool :=
  match o.updatedAt with
  | some u => decide (t.unixNano ≤ u.unixNano)
  | none => false

/-- The world of an account with the one shop shop-a, around a store with a
healthy database and a remote with fixed data: the watermark is read from the
store, and the remote serves, on one last page, the orders of `data` whose
`UpdatedAt` is not below the `UpdatedAtMin` it is given. -/
def unchangedRemote (data : List ShopifyOrder) (store : Store) : World :=
  { serviceReady := true
    getShopTokens := fun _ => Except.ok [("shop-a", "token-a")]
    newClient := fun _ _ => none
    getLatestOrderTimestamp := fun shop account =>
      (PostgresRepository.GetLatestOrderTimestamp store shop account, none)
    ctxDone := fun _ _ => none
    listWithPagination := fun _ _ _ opts =>
      FetchResult.ok (data.filter (notBelow opts.updatedAtMin)) none
    syncOrders := fun shop account _ batch =>
      (PostgresRepository.SyncOrders healthyDatabase store batch shop account).1 }

/-- The data of the remote of shop-a: order 1000, updated at
1600000000000000000, and order 1001, updated at 1700000600000000000. -/
def remoteData : List ShopifyOrder :=
  [{ sampleOrder with id := 1000, name := "#1000", orderNumber := 1000,
                      updatedAt := some { unixNano := 1600000000000000000 } },
   sampleOrder]

/-- The store left by the run of shop-a against `remoteData` from the empty
store. -/
def afterFirstRun : Store :=
  storeAfterRun (fun _ => healthyDatabase) shopA []
    (outcomeOf (syncShopOrders (unchangedRemote remoteData []) shopA 1)).state.trace

/-- The store left by the second run of shop-a against `remoteData`. -/
def afterSecondRun : Store :=
  storeAfterRun (fun _ => healthyDatabase) shopA afterFirstRun
    (outcomeOf (syncShopOrders (unchangedRemote remoteData afterFirstRun) shopA 1)).state.trace

/-! ## The governor in a run and the literal scenario behind a cursor -/

/-- The interval of the governor lies between floor and ceiling. -/
def GovernorInBand (s : LoopState) : Prop :=
  minRateLimit ≤ s.rateLimiter.interval ∧ s.rateLimiter.interval ≤ maxRateLimit

/-- The literal scenario behind a remote that pages by cursor, as
`ListWithPagination` does: shop-a answers a request without cursor with its
first page, 250 orders, and the cursor "cursor-2" as next-page options, and a
request with a cursor with its last page of 10 orders; shop-b serves one empty
last page; every write succeeds and the deadline is never exceeded. -/
def literalPaged : World :=
  { literalWorld with
    listWithPagination := fun shop _ _ opts =>
      if shop = "shop-a" then
        if opts.listOptions.pageInfo = "" then
          FetchResult.ok (List.replicate 250 sampleOrder) morePages
        else FetchResult.ok (List.replicate 10 sampleOrder) none
      else FetchResult.ok [] none }

/-- The world `literalPaged` with the deadline of shop-a exceeded from check
number `n` on. -/
def literalPagedUntil (n : Nat) : World :=
  { literalPaged with
    ctxDone := fun shop k =>
      if shop = "shop-a" ∧ n ≤ k then some "context deadline exceeded" else none }

/-- Between the iterations of a worker that is served the first page again and
again: no cursor in the options and an empty batch. -/
def FirstPageAgain (s : LoopState) : Prop :=
  s.options.listOptions.pageInfo = "" ∧ s.currentBatch = []

/-! # Verification -/

/-! ## Machine integers -/

/-- Inside the `int64` range the reduction is the identity. -/
theorem wrapInt64_of_inRange (x : Int) (hlo : -(2 ^ 63) ≤ x) (hhi : x < 2 ^ 63) :
    wrapInt64 x = x := by
  unfold wrapInt64
  omega

/-- Inside the `int32` range the reduction is the identity. -/
theorem wrapInt32_of_inRange (x : Int) (hlo : -(2 ^ 31) ≤ x) (hhi : x < 2 ^ 31) :
    wrapInt32 x = x := by
  unfold wrapInt32
  omega

/-- Addition of `int32` values may be reduced once, at the end. -/
theorem wrapInt32_add (a b : Int) :
    wrapInt32 (wrapInt32 a + wrapInt32 b) = wrapInt32 (a + b) := by
  unfold wrapInt32
  omega

/-! ## Rate governor -/

/-- One `adjustRate` call keeps the interval between floor and ceiling. -/
theorem adjustRate_bounds (r : adaptiveRateLimiter) (b : Bool)
    (hlo : minRateLimit ≤ r.interval) (hhi : r.interval ≤ maxRateLimit) :
    minRateLimit ≤ (adjustRate r b).interval ∧ (adjustRate r b).interval ≤ maxRateLimit := by
  unfold minRateLimit maxRateLimit millisecond at *
  cases b
  · have h : wrapInt64 (r.interval - 50 * 1000000) = r.interval - 50 * 1000000 :=
      wrapInt64_of_inRange _ (by omega) (by omega)
    simp only [adjustRate, max, minRateLimit, millisecond, h, Bool.false_eq_true, if_false]
    split <;> omega
  · have h : wrapInt64 (r.interval * 2) = r.interval * 2 :=
      wrapInt64_of_inRange _ (by omega) (by omega)
    simp only [adjustRate, min, maxRateLimit, millisecond, h, if_true]
    split <;> omega

/-- Any sequence of `adjustRate` calls keeps the interval between floor and
ceiling. -/
theorem adjustMany_bounds (signals : List Bool) (r : adaptiveRateLimiter)
    (hlo : minRateLimit ≤ r.interval) (hhi : r.interval ≤ maxRateLimit) :
    minRateLimit ≤ (adjustMany r signals).interval ∧
      (adjustMany r signals).interval ≤ maxRateLimit := by
  induction signals generalizing r with
  | nil => exact ⟨hlo, hhi⟩
  | cons b rest ih =>
    have h := adjustRate_bounds r b hlo hhi
    exact ih (adjustRate r b) h.1 h.2

/-- C9: a governor made by `newAdaptiveRateLimiter` starts at 200 ms, and after
every finite sequence of `adjustRate` calls its interval lies between 100 ms
and 1000 ms; in particular the value passed to the ticker reset is positive. -/
theorem governor_interval_bounded (signals : List Bool) :
    newAdaptiveRateLimiter.interval = 200 * millisecond ∧
      100 * millisecond ≤ (adjustMany newAdaptiveRateLimiter signals).interval ∧
      (adjustMany newAdaptiveRateLimiter signals).interval ≤ 1000 * millisecond ∧
      0 < (adjustMany newAdaptiveRateLimiter signals).interval := by
  have h := adjustMany_bounds signals newAdaptiveRateLimiter (by decide) (by decide)
  have hpos : (0 : Int) < minRateLimit := by decide
  exact ⟨rfl, h.1, h.2, by omega⟩

/-! ## The counter of synced orders -/

/-- The committed orders of a concatenated trace. -/
theorem committedOrders_append (t u : List Event) :
    committedOrders (t ++ u) = committedOrders t + committedOrders u := by
  simp [committedOrders, batchWrites, List.filterMap_append]

/-- A write event commits its batch exactly when it succeeded. -/
theorem committedOrders_write (batch : List Order) (ok : Bool) :
    committedOrders [Event.write batch ok] = if ok then batch.length else 0 := by
  cases ok <;> simp [committedOrders, batchWrites]

/-- Sending a result commits nothing. -/
theorem committedOrders_send (r : syncResult) : committedOrders [Event.send r] = 0 := by
  simp [committedOrders, batchWrites]

/-- Sending a result keeps the counter invariant and reports the counter. -/
theorem sendResult_counted (c : ShopCtx) (s : LoopState) (b : Bool) (msg : String)
    (h : Counted s) : OutcomeCounted (sendResult c s b msg) := by
  constructor
  · simp [sendResult, Outcome.state, Counted, LoopState.emit, committedOrders_append,
      committedOrders_send]
    exact h
  · intro r s1 hr
    simp [sendResult, LoopState.emit] at hr
    obtain ⟨h1, h2⟩ := hr
    subst h1 h2
    rfl

/-- A successful write inside the inner loop keeps the counter invariant. -/
theorem counted_wrote_ok (s : LoopState) (batch : List Order) (h : Counted s) :
    Counted { s.wrote batch true with
              ordersSynced := wrapInt32 (s.ordersSynced + wrapInt32 batch.length)
              currentBatch := [] } := by
  unfold Counted at *
  simp only [LoopState.wrote, committedOrders_append, committedOrders_write, if_true]
  rw [h, wrapInt32_add]
  push_cast
  rfl

/-- A failed write keeps the counter invariant. -/
theorem counted_wrote_fail (s : LoopState) (batch : List Order) (h : Counted s) :
    Counted (s.wrote batch false) := by
  unfold Counted at *
  simp [LoopState.wrote, committedOrders_append, committedOrders_write]
  exact h

/-- The inner loop keeps the counter invariant. -/
theorem processOrders_counted (w : World) (c : ShopCtx) (page : List ShopifyOrder) :
    ∀ s, Counted s → OutcomeCounted (processOrders w c page s) := by
  induction page with
  | nil =>
    intro s h
    exact ⟨h, by intro r s1 hr; simp [processOrders] at hr⟩
  | cons o rest ih =>
    intro s h
    unfold processOrders
    split
    · exact ⟨h, by intro r s1 hr; simp at hr⟩
    · rename_i order _
      simp only
      split
      · split
        · exact sendResult_counted _ _ _ _ (counted_wrote_fail _ _ h)
        · exact ih _ (counted_wrote_ok s _ h)
      · exact ih _ h

/-- The successful flush of the last batch keeps the counter invariant. -/
theorem counted_flush (s : LoopState) (h : Counted s) :
    Counted { s.wrote s.currentBatch true with
              ordersSynced := wrapInt32 (s.ordersSynced + wrapInt32 s.currentBatch.length) } := by
  unfold Counted at *
  simp only [LoopState.wrote, committedOrders_append, committedOrders_write, if_true]
  rw [h, wrapInt32_add]
  push_cast
  rfl

/-- The end of the loop body keeps the counter invariant. -/
theorem finishPage_counted (w : World) (c : ShopCtx) (pagination : Option Pagination)
    (s : LoopState) (h : Counted s) : OutcomeCounted (finishPage w c pagination s) := by
  unfold finishPage
  split
  · split
    · split
      · exact sendResult_counted _ _ _ _ (counted_wrote_fail _ _ h)
      · exact sendResult_counted _ _ _ _ (counted_flush s h)
    · exact sendResult_counted _ _ _ _ h
  · exact ⟨h, by intro r s1 hr; simp at hr⟩

/-- The counter invariant moves to a state with the same counter and the same
committed orders. -/
theorem counted_of_trace (s t : LoopState) (h : Counted s)
    (hs : t.ordersSynced = s.ordersSynced)
    (ht : committedOrders t.trace = committedOrders s.trace) : Counted t := by
  unfold Counted at *
  rw [hs, ht, h]

/-- The first half of an iteration keeps the counter invariant. -/
theorem fetchPage_counted (w : World) (c : ShopCtx) (s : LoopState) (h : Counted s) :
    FetchedCounted (fetchPage w c s) := by
  unfold fetchPage
  split
  · exact sendResult_counted _ _ _ _ h
  · simp only
    split
    · split
      · refine ⟨counted_of_trace s _ h rfl ?_, by intro r s1 hr; simp at hr⟩
        simp [Outcome.state, committedOrders, batchWrites, List.filterMap_append]
      · refine sendResult_counted _ _ _ _ (counted_of_trace s _ h rfl ?_)
        simp [committedOrders, batchWrites, List.filterMap_append]
    · refine counted_of_trace s _ h rfl ?_
      simp [committedOrders, batchWrites, List.filterMap_append]

/-- One iteration keeps the counter invariant. -/
theorem step_counted (w : World) (c : ShopCtx) (s : LoopState) (h : Counted s) :
    OutcomeCounted (step w c s) := by
  have hf := fetchPage_counted w c s h
  unfold step
  split
  · rename_i o heq
    rw [heq] at hf
    exact hf
  · rename_i orders pagination s1 heq
    rw [heq] at hf
    have hp := processOrders_counted w c orders s1 hf
    split
    · rename_i s2 heq2
      rw [heq2] at hp
      exact finishPage_counted w c pagination s2 hp.1
    · exact hp

/-- The loop keeps the counter invariant. -/
theorem runLoop_counted (w : World) (c : ShopCtx) (fuel : Nat) :
    ∀ s o, Counted s → runLoop w c fuel s = some o → OutcomeCounted o := by
  induction fuel with
  | zero => intro s o _ h; simp [runLoop] at h
  | succ n ih =>
    intro s o hs h
    have hstep := step_counted w c s hs
    unfold runLoop at h
    split at h
    · rename_i s1 heq
      rw [heq] at hstep
      exact ih s1 o hstep.1 h
    · cases h
      exact hstep

/-- The counter invariant holds at loop entry. -/
theorem initialState_counted (t : Time) : Counted (initialState t) := by
  simp [Counted, initialState, committedOrders, batchWrites, wrapInt32]

/-- The counter invariant holds of every outcome of the worker. -/
theorem syncShopOrders_counted (w : World) (c : ShopCtx) (fuel : Nat) (o : Outcome)
    (h : syncShopOrders w c fuel = some o) : OutcomeCounted o := by
  unfold syncShopOrders at h
  split at h
  · cases h
    exact sendResult_counted _ _ _ _ (initialState_counted _)
  · exact runLoop_counted w c fuel _ o (initialState_counted _) h

/-- C2: whenever the worker returns, having sent the result `r` (by success, by
a terminal fetch error, by a batch-write failure, by the deadline check or by a
failed client creation), and the batches written successfully in that run hold
fewer than `2 ^ 31` orders in total, `r.ordersSynced` is the sum of the sizes
of the batches whose write succeeded. `committedOrders` counts those batches
alone: a batch whose write failed and the orders waiting in `currentBatch` add
nothing. -/
theorem ordersSynced_counts_committed (w : World) (c : ShopCtx) (fuel : Nat) (o : Outcome)
    (r : syncResult)
    (hrun : syncShopOrders w c fuel = some o) (hres : o.result = some r)
    (hsmall : committedOrders o.state.trace < 2 ^ 31) :
    r.ordersSynced = committedOrders o.state.trace := by
  have h := syncShopOrders_counted w c fuel o hrun
  cases o with
  | running s => simp [Outcome.result] at hres
  | panicked v s => simp [Outcome.result] at hres
  | returned r1 s =>
    simp only [Outcome.result, Option.some.injEq] at hres
    subst hres
    have h1 : s.ordersSynced = wrapInt32 (committedOrders s.trace) := h.1
    simp only [Outcome.state] at hsmall ⊢
    rw [h.2 r1 s rfl, h1]
    exact wrapInt32_of_inRange _ (by omega) (by exact_mod_cast hsmall)

/-! ## Rate-limit errors -/

/-- An iteration whose fetch is answered by a rate-limit error while retries
remain leaves the worker in its loop, in the state `throttled`. -/
theorem step_rateLimited (w : World) (c : ShopCtx) (s : LoopState) (e : String)
    (hctx : w.ctxDone c.shopName s.fetches = none)
    (herr : w.listWithPagination c.shopName c.token s.fetches s.options = FetchResult.error e)
    (hc : stringsContains e "Exceeded" = true) (hr : s.retryCount < maxRetries) :
    step w c s = Outcome.running s.throttled := by
  simp [step, fetchPage, hctx, herr, hc, hr, LoopState.throttled]

/-- An iteration whose fetch is answered by an error that is not retried sends
the failure result and returns. -/
theorem step_fetchFailed (w : World) (c : ShopCtx) (s : LoopState) (e : String)
    (hctx : w.ctxDone c.shopName s.fetches = none)
    (herr : w.listWithPagination c.shopName c.token s.fetches s.options = FetchResult.error e)
    (hc : stringsContains e "Exceeded" = false ∨ ¬ s.retryCount < maxRetries) :
    step w c s = Outcome.returned (fetchFailure c s e)
      { s with fetches := s.fetches + 1
               trace := s.trace ++ [Event.wait, Event.fetch s.options,
                 Event.send (fetchFailure c s e)] } := by
  rcases hc with hc | hc <;>
    simp [step, fetchPage, hctx, herr, hc, sendResult, LoopState.emit, fetchFailure]

/-- The backoff of one second is back at one second after a rate-limit error:
its double exceeds `maxRateLimit` and is cut to it. -/
theorem throttled_backoff (s : LoopState) (h : s.backoff = second) :
    s.throttled.backoff = second := by
  simp [LoopState.throttled, h, second, maxRateLimit, millisecond, wrapInt64]

/-- The governor interval after one more throttle signal, counted from the
initial interval. -/
theorem adjustRate_true_pow (r : adaptiveRateLimiter) (j : Nat)
    (h : r.interval = min (initialRateLimit * 2 ^ j) maxRateLimit) :
    (adjustRate r true).interval = min (initialRateLimit * 2 ^ (j + 1)) maxRateLimit ∧
      initialRateLimit < (adjustRate r true).interval := by
  have hpos : (0 : Int) < 2 ^ j := by positivity
  have hx : initialRateLimit ≤ initialRateLimit * 2 ^ j :=
    le_mul_of_one_le_right (by decide) (by omega)
  rw [pow_succ, ← mul_assoc]
  generalize initialRateLimit * 2 ^ j = x at *
  unfold initialRateLimit maxRateLimit millisecond at *
  have hi : (100000000 : Int) ≤ r.interval ∧ r.interval ≤ 1000000000 := by
    rw [h]; unfold min; split <;> omega
  have hw : wrapInt64 (r.interval * 2) = r.interval * 2 :=
    wrapInt64_of_inRange _ (by omega) (by omega)
  simp only [adjustRate, if_true, hw, maxRateLimit, millisecond]
  rw [h]
  unfold min
  constructor <;> (repeat' split) <;> omega

/-- The state after `j` consecutive rate-limit errors, `j ≤ 5`, counted from a
state with retry counter 0. -/
theorem iterateLoop_throttled (w : World) (c : ShopCtx) (s0 : LoopState) (k : Nat)
    (hk : k ≤ 5) (hr0 : s0.retryCount = 0)
    (hctx : ∀ i, i < k → w.ctxDone c.shopName (s0.fetches + i) = none)
    (hfail : ∀ i, i < k → ∀ opts, ∃ e,
      w.listWithPagination c.shopName c.token (s0.fetches + i) opts = FetchResult.error e ∧
        stringsContains e "Exceeded" = true) :
    ∀ j, j ≤ k → ∃ sj, iterateLoop w c s0 j = some sj ∧
      sj.retryCount = j ∧ sj.fetches = s0.fetches + j ∧
      sj.ordersSynced = s0.ordersSynced ∧ sj.currentBatch = s0.currentBatch ∧
      sj.options = s0.options ∧ sj.writes = s0.writes ∧
      batchWrites sj.trace = batchWrites s0.trace ∧
      sentResults sj.trace = sentResults s0.trace ∧
      (fetchEvents sj.trace).length = (fetchEvents s0.trace).length + j ∧
      (s0.backoff = second →
        sj.backoff = second ∧ sleeps sj.trace = sleeps s0.trace ++ List.replicate j second) ∧
      (s0.rateLimiter.interval = initialRateLimit →
        sj.rateLimiter.interval = min (initialRateLimit * 2 ^ j) maxRateLimit ∧
        adjustments sj.trace = adjustments s0.trace ++ throttleIntervals j) := by
  intro j
  induction j with
  | zero =>
    intro _
    refine ⟨s0, rfl, by simpa using hr0, rfl, rfl, rfl, rfl, rfl, rfl, rfl, rfl, ?_, ?_⟩
    · intro hb; exact ⟨hb, by simp⟩
    · intro hi; rw [hi]; exact ⟨by decide, by simp [throttleIntervals]⟩
  | succ j ih =>
    intro hj
    obtain ⟨sj, hit, hr, hf, hos, hcb, hopt, hwr, hbw, hsr, hfe, hback, hint⟩ := ih (by omega)
    obtain ⟨e, herr, hc⟩ := hfail j (by omega) sj.options
    have hstep := step_rateLimited w c sj e (by rw [hf]; exact hctx j (by omega))
      (by rw [hf]; exact herr) hc (by rw [hr]; unfold maxRetries; omega)
    refine ⟨sj.throttled, ?_, ?_, ?_, hos, hcb, hopt, hwr, ?_, ?_, ?_, ?_, ?_⟩
    · simp [iterateLoop, hit, hstep]
    · simp [LoopState.throttled, hr]
    · simp [LoopState.throttled, hf]; omega
    · simp [LoopState.throttled, batchWrites, List.filterMap_append] at hbw ⊢
      exact hbw
    · simp [LoopState.throttled, sentResults, List.filterMap_append] at hsr ⊢
      exact hsr
    · simp [LoopState.throttled, fetchEvents, List.filterMap_append] at hfe ⊢
      omega
    · intro hb0
      obtain ⟨hb, hsl⟩ := hback hb0
      refine ⟨throttled_backoff sj hb, ?_⟩
      simp [LoopState.throttled, sleeps, List.filterMap_append] at hsl ⊢
      rw [hsl, hb, List.replicate_succ', List.append_assoc]
    · intro hi0
      obtain ⟨hi, had⟩ := hint hi0
      have hadj := adjustRate_true_pow sj.rateLimiter j hi
      refine ⟨hadj.1, ?_⟩
      simp [LoopState.throttled, adjustments, List.filterMap_append] at had ⊢
      rw [had, hadj.1, throttleIntervals, throttleIntervals, List.range_succ, List.map_append,
        List.append_assoc]
      rfl

/-- Iterations that leave the worker in its loop are a prefix of the run. -/
theorem runLoop_after (w : World) (c : ShopCtx) (s : LoopState) (j : Nat) :
    ∀ sj fuel, iterateLoop w c s j = some sj →
      runLoop w c (j + fuel) s = runLoop w c fuel sj := by
  induction j with
  | zero =>
    intro sj fuel h
    simp [iterateLoop] at h
    subst h
    simp
  | succ j ih =>
    intro sj fuel h
    unfold iterateLoop at h
    split at h
    · rename_i sn hsn
      split at h
      · rename_i s1 hs1
        cases h
        have := ih sn (fuel + 1) hsn
        rw [show j + 1 + fuel = j + (fuel + 1) by omega, this]
        simp [runLoop, hs1]
      · cases h
    · cases h

/-! ## Frame of the second half of an iteration -/

/-- The inner loop leaves the retry counter, the backoff, the governor, the
options and the fetch count as they are. -/
theorem processOrders_control (w : World) (c : ShopCtx) (page : List ShopifyOrder) :
    ∀ s, (processOrders w c page s).state.retryCount = s.retryCount ∧
      (processOrders w c page s).state.backoff = s.backoff ∧
      (processOrders w c page s).state.rateLimiter = s.rateLimiter ∧
      (processOrders w c page s).state.options = s.options ∧
      (processOrders w c page s).state.fetches = s.fetches := by
  induction page with
  | nil => intro s; simp [processOrders, Outcome.state]
  | cons o rest ih =>
    intro s
    unfold processOrders
    split
    · simp [Outcome.state]
    · simp only
      split
      · split
        · simp [sendResult, Outcome.state, LoopState.emit, LoopState.wrote]
        · exact ⟨(ih _).1.trans rfl, (ih _).2.1.trans rfl, (ih _).2.2.1.trans rfl,
            (ih _).2.2.2.1.trans rfl, (ih _).2.2.2.2.trans rfl⟩
      · exact ⟨(ih _).1.trans rfl, (ih _).2.1.trans rfl, (ih _).2.2.1.trans rfl,
          (ih _).2.2.2.1.trans rfl, (ih _).2.2.2.2.trans rfl⟩

/-- The end of the loop body leaves the retry counter and the backoff as they
are. -/
theorem finishPage_control (w : World) (c : ShopCtx) (pagination : Option Pagination)
    (s : LoopState) :
    (finishPage w c pagination s).state.retryCount = s.retryCount ∧
      (finishPage w c pagination s).state.backoff = s.backoff ∧
      (finishPage w c pagination s).state.rateLimiter = s.rateLimiter ∧
      (finishPage w c pagination s).state.fetches = s.fetches := by
  unfold finishPage
  split
  · split
    · split <;> simp [sendResult, Outcome.state, LoopState.emit, LoopState.wrote]
    · simp [sendResult, Outcome.state, LoopState.emit]
  · simp [Outcome.state]

/-- The first half of an iteration whose fetch succeeds. -/
theorem fetchPage_ok (w : World) (c : ShopCtx) (s : LoopState) (orders : List ShopifyOrder)
    (pagination : Option Pagination)
    (hctx : w.ctxDone c.shopName s.fetches = none)
    (hok : w.listWithPagination c.shopName c.token s.fetches s.options
      = FetchResult.ok orders pagination) :
    fetchPage w c s = Fetched.page orders pagination s.fetched := by
  simp only [fetchPage, hctx, hok, LoopState.fetched]

/-- An iteration whose fetch succeeds runs the inner loop on the fetched state
and then the end of the loop body. -/
theorem step_of_fetch_ok (w : World) (c : ShopCtx) (s : LoopState) (orders : List ShopifyOrder)
    (pagination : Option Pagination)
    (hctx : w.ctxDone c.shopName s.fetches = none)
    (hok : w.listWithPagination c.shopName c.token s.fetches s.options
      = FetchResult.ok orders pagination) :
    step w c s =
      match processOrders w c orders s.fetched with
      | Outcome.running s2 => finishPage w c pagination s2
      | o => o := by
  unfold step
  rw [fetchPage_ok w c s orders pagination hctx hok]

/-- An iteration whose fetch succeeded and which leaves the worker in its loop
ends with retry counter 0 and backoff of one second. -/
theorem step_ok_control (w : World) (c : ShopCtx) (s s2 : LoopState)
    (orders : List ShopifyOrder) (pagination : Option Pagination)
    (hctx : w.ctxDone c.shopName s.fetches = none)
    (hok : w.listWithPagination c.shopName c.token s.fetches s.options
      = FetchResult.ok orders pagination)
    (hstep : step w c s = Outcome.running s2) :
    s2.retryCount = 0 ∧ s2.backoff = second := by
  rw [step_of_fetch_ok w c s orders pagination hctx hok] at hstep
  have h1 := processOrders_control w c orders s.fetched
  split at hstep
  · rename_i s1 hp
    rw [hp] at h1
    have h2 := finishPage_control w c pagination s1
    rw [hstep] at h2
    simp only [Outcome.state] at h1 h2
    exact ⟨by rw [h2.1, h1.1]; rfl, by rw [h2.2.1, h1.2.1]; rfl⟩
  · rename_i hne
    exact absurd hstep (by intro h; exact hne _ h)

/-- Every interval set by a throttle signal from the initial interval exceeds the
initial interval. -/
theorem throttleIntervals_gt (k : Nat) (a : Bool × Int) (ha : a ∈ throttleIntervals k) :
    a.1 = true ∧ initialRateLimit < a.2 := by
  simp only [throttleIntervals, List.mem_map, List.mem_range] at ha
  obtain ⟨i, _, rfl⟩ := ha
  refine ⟨rfl, ?_⟩
  have hpos : (0 : Int) < 2 ^ i := by positivity
  have hx : initialRateLimit * 2 ≤ initialRateLimit * 2 ^ (i + 1) := by
    rw [pow_succ, ← mul_assoc, mul_right_comm]
    exact le_mul_of_one_le_right (by decide) (by omega)
  show initialRateLimit < min (initialRateLimit * 2 ^ (i + 1)) maxRateLimit
  generalize initialRateLimit * 2 ^ (i + 1) = x at *
  unfold min initialRateLimit maxRateLimit millisecond at *
  split <;> omega

/-- C5, the backoff scenario, for `k ≤ 5`: the deadline is live at the first
`k + 1` checks, the first `k` fetches are answered by a rate-limit error (a
message containing "Exceeded") and fetch `k + 1` succeeds. Then the worker is
still in its loop after `k` iterations and has sent no result; the governor
interval after failure `i + 1` is `min(200 ms * 2 ^ (i + 1), 1000 ms)`, which is
larger than the initial 200 ms; the next fetch hands a page to the worker with
retry counter 0 and backoff of one second, and if the worker goes on to a later
page it starts it with retry counter 0 and backoff of one second. -/
theorem backoff_scenario (w : World) (c : ShopCtx) (k : Nat) (lastSync : Time) (hk : k ≤ 5)
    (hctx : ∀ i, i ≤ k → w.ctxDone c.shopName i = none)
    (hfail : ∀ i, i < k → ∀ opts, ∃ e,
      w.listWithPagination c.shopName c.token i opts = FetchResult.error e ∧
        stringsContains e "Exceeded" = true)
    (hok : ∀ opts, ∃ orders pagination,
      w.listWithPagination c.shopName c.token k opts = FetchResult.ok orders pagination) :
    ∃ sk orders pagination s1,
      iterateLoop w c (initialState lastSync) k = some sk ∧
      adjustments sk.trace =
        (List.range k).map (fun i => (true, min (initialRateLimit * 2 ^ (i + 1)) maxRateLimit)) ∧
      (∀ a, a ∈ adjustments sk.trace → a.1 = true ∧ initialRateLimit < a.2) ∧
      sentResults sk.trace = [] ∧
      fetchPage w c sk = Fetched.page orders pagination s1 ∧
      s1.retryCount = 0 ∧ s1.backoff = second ∧ sentResults s1.trace = [] ∧
      (∀ s2, step w c sk = Outcome.running s2 → s2.retryCount = 0 ∧ s2.backoff = second) := by
  obtain ⟨sk, hit, _, hf, _, _, _, _, _, hsr, _, _, hint⟩ :=
    iterateLoop_throttled w c (initialState lastSync) k hk rfl
      (fun i hi => by simpa [initialState] using hctx i (by omega))
      (fun i hi opts => by simpa [initialState] using hfail i hi opts) k (le_refl k)
  obtain ⟨_, had⟩ := hint rfl
  have hf0 : sk.fetches = k := by simpa [initialState] using hf
  obtain ⟨orders, pagination, hpage⟩ := hok sk.options
  have hc := hctx k (le_refl k)
  rw [← hf0] at hpage hc
  have had2 : adjustments sk.trace = throttleIntervals k := by
    simpa [initialState, adjustments] using had
  have hsr2 : sentResults sk.trace = [] := by simpa [initialState, sentResults] using hsr
  refine ⟨sk, orders, pagination, _, hit, had2, ?_, hsr2,
    fetchPage_ok w c sk orders pagination hc hpage, rfl, rfl, ?_, ?_⟩
  · intro a ha
    rw [had2] at ha
    exact throttleIntervals_gt k a ha
  · simp [LoopState.fetched, sentResults, List.filterMap_append] at hsr2 ⊢
    exact hsr2
  · intro s2 hs2
    exact step_ok_control w c sk s2 orders pagination hc hpage hs2

/-- C6, the retry budget. From a loop state with retry counter 0 (a worker
about to fetch a page), if the deadline is live at the next six checks and the
remote API answers every call with a rate-limit error, the worker makes
exactly `1 + 5` fetches and returns a failure result that carries the
`ordersSynced` accumulated so far and the message
"failed to list orders after 5 retries: ..."; it writes no batch and sends
nothing else. The worker enters its loop in `initialState`, whose retry counter
is 0. -/
theorem retry_budget (w : World) (c : ShopCtx) (s0 : LoopState) (fuel : Nat)
    (hfuel : 6 ≤ fuel) (hr0 : s0.retryCount = 0)
    (hctx : ∀ i, i ≤ 5 → w.ctxDone c.shopName (s0.fetches + i) = none)
    (hfail : ∀ i opts, ∃ e,
      w.listWithPagination c.shopName c.token (s0.fetches + i) opts = FetchResult.error e ∧
        stringsContains e "Exceeded" = true) :
    ∃ r s e, runLoop w c fuel s0 = some (Outcome.returned r s) ∧
      r.shopName = c.shopName ∧ r.success = false ∧ r.ordersSynced = s0.ordersSynced ∧
      r.errorMessage = "failed to list orders after 5 retries: " ++ e ∧
      (fetchEvents s.trace).length = (fetchEvents s0.trace).length + (1 + 5) ∧
      batchWrites s.trace = batchWrites s0.trace ∧
      sentResults s.trace = sentResults s0.trace ++ [r] := by
  obtain ⟨s5, hit, hr, hf, hos, _, _, _, hbw, hsr, hfe, _, _⟩ :=
    iterateLoop_throttled w c s0 5 (le_refl 5) hr0 (fun i hi => hctx i (by omega))
      (fun i _ opts => hfail i opts) 5 (le_refl 5)
  obtain ⟨e, herr, _⟩ := hfail 5 s5.options
  have hstep := step_fetchFailed w c s5 e (by rw [hf]; exact hctx 5 (le_refl 5))
    (by rw [hf]; exact herr) (Or.inr (by rw [hr]; decide))
  obtain ⟨rest, rfl⟩ : ∃ rest, fuel = 5 + (rest + 1) := ⟨fuel - 6, by omega⟩
  refine ⟨fetchFailure c s5 e,
    { s5 with fetches := s5.fetches + 1
              trace := s5.trace ++ [Event.wait, Event.fetch s5.options,
                Event.send (fetchFailure c s5 e)] },
    e, ?_, rfl, rfl, hos, ?_, ?_, ?_, ?_⟩
  · rw [runLoop_after w c s0 5 s5 (rest + 1) hit]
    simp [runLoop, hstep]
  · have h5 : "failed to list orders after " ++ toString (5 : Int) ++ " retries: "
        = "failed to list orders after 5 retries: " := by decide
    simp only [fetchFailure, hr, Nat.cast_ofNat]
    exact congrArg (fun t => t ++ e) h5
  · simp [fetchEvents, List.filterMap_append] at hfe ⊢
    omega
  · simp [batchWrites, List.filterMap_append] at hbw ⊢
    exact hbw
  · simp [sentResults, List.filterMap_append] at hsr ⊢
    exact hsr

/-- C7: in every loop state, whatever the retry counter, if the deadline is
live and the fetch is answered by an error whose message does not contain
"Exceeded", the worker returns in that iteration: the events added are the
governor wait, that fetch and the sending of the failure result, which carries
the `ordersSynced` accumulated so far. There is no further fetch, no batch
write, no sleep and no governor adjustment, and the governor, the backoff and
the retry counter are unchanged. -/
theorem fetch_error_not_retried (w : World) (c : ShopCtx) (s : LoopState) (e : String)
    (fuel : Nat)
    (hctx : w.ctxDone c.shopName s.fetches = none)
    (herr : w.listWithPagination c.shopName c.token s.fetches s.options = FetchResult.error e)
    (hno : stringsContains e "Exceeded" = false) :
    ∃ r, r.shopName = c.shopName ∧ r.success = false ∧ r.ordersSynced = s.ordersSynced ∧
      r.errorMessage =
        "failed to list orders after " ++ toString s.retryCount ++ " retries: " ++ e ∧
      runLoop w c (fuel + 1) s = some (Outcome.returned r
        { s with fetches := s.fetches + 1
                 trace := s.trace ++ [Event.wait, Event.fetch s.options, Event.send r] }) := by
  refine ⟨fetchFailure c s e, rfl, rfl, rfl, rfl, ?_⟩
  simp [runLoop, step_fetchFailed w c s e hctx herr (Or.inl hno)]

/-- A valid page converts to as many orders as it holds. -/
theorem convertPage_length (page : List ShopifyOrder) (h : ValidPage page) :
    (convertPage page).length = page.length := by
  induction page with
  | nil => rfl
  | cons o rest ih =>
    have ho := h o (List.mem_cons_self o rest)
    obtain ⟨x, hx⟩ := Option.isSome_iff_exists.mp ho
    have := ih (fun o1 h1 => h o1 (List.mem_cons_of_mem o h1))
    simp [convertPage, List.filterMap_cons, hx] at this ⊢
    exact this

/-- A valid page that does not fill the batch is appended to it. -/
theorem processOrders_pending (w : World) (c : ShopCtx) (page : List ShopifyOrder) :
    ∀ s, ValidPage page → s.currentBatch.length + page.length < batchSize →
      processOrders w c page s
        = Outcome.running { s with currentBatch := s.currentBatch ++ convertPage page } := by
  induction page with
  | nil => intro s _ _; simp [processOrders, convertPage]
  | cons o rest ih =>
    intro s hv hlen
    have ho := hv o (List.mem_cons_self o rest)
    obtain ⟨x, hx⟩ := Option.isSome_iff_exists.mp ho
    have hv2 : ValidPage rest := fun o1 h1 => hv o1 (List.mem_cons_of_mem o h1)
    simp only [List.length_cons] at hlen
    have hnot : ¬ (s.currentBatch ++ [x]).length ≥ batchSize := by
      simp only [List.length_append, List.length_singleton]; omega
    unfold processOrders
    simp only [hx, hnot, if_false]
    rw [ih _ hv2 (by simp only [List.length_append, List.length_singleton]; omega)]
    simp [convertPage, List.filterMap_cons, hx]

/-- A valid page that fills the batch exactly is written as one batch. -/
theorem processOrders_fill (w : World) (c : ShopCtx) (page : List ShopifyOrder) :
    ∀ s, ValidPage page → page ≠ [] → s.currentBatch.length + page.length = batchSize →
      syncBatch w c s.writes (s.currentBatch ++ convertPage page) = none →
      processOrders w c page s
        = Outcome.running
          { s.wrote (s.currentBatch ++ convertPage page) true with
            ordersSynced := wrapInt32 (s.ordersSynced +
              wrapInt32 (s.currentBatch ++ convertPage page).length)
            currentBatch := [] } := by
  induction page with
  | nil => intro s _ h; exact absurd rfl h
  | cons o rest ih =>
    intro s hv _ hlen hw
    have ho := hv o (List.mem_cons_self o rest)
    obtain ⟨x, hx⟩ := Option.isSome_iff_exists.mp ho
    have hv2 : ValidPage rest := fun o1 h1 => hv o1 (List.mem_cons_of_mem o h1)
    simp only [List.length_cons] at hlen
    have hcp : convertPage (o :: rest) = x :: convertPage rest := by
      simp [convertPage, List.filterMap_cons, hx]
    rw [hcp] at hw ⊢
    unfold processOrders
    cases rest with
    | nil =>
      have hfull : (s.currentBatch ++ [x]).length ≥ batchSize := by
        simp only [List.length_append, List.length_singleton, List.length_nil] at hlen ⊢; omega
      have hcn : convertPage [] = [] := rfl
      rw [hcn] at hw ⊢
      simp only [hx, hfull, if_true, hw, processOrders]
    | cons o2 rest2 =>
      have hnot : ¬ (s.currentBatch ++ [x]).length ≥ batchSize := by
        simp only [List.length_append, List.length_singleton, List.length_cons, List.length_nil] at hlen ⊢; omega
      simp only [hx, hnot, if_false]
      have := ih { s with currentBatch := s.currentBatch ++ [x] } hv2 (by simp)
        (by simp only [List.length_append, List.length_singleton]; omega)
        (by simpa using hw)
      rw [this]
      simp [LoopState.wrote]
/-- The end of the loop body on a page that is not the last. -/
theorem finishPage_next (w : World) (c : ShopCtx) (pagination : Option Pagination)
    (s : LoopState) (next : ListOptions) (hnext : nextPageOptions pagination = some next) :
    finishPage w c pagination s = Outcome.running
      { s with options := { s.options with
                            listOptions := { s.options.listOptions with page := next.page } } } := by
  simp only [finishPage, hnext]

/-- The end of the loop body on the last page with orders left in the batch and
a successful write. -/
theorem finishPage_flush (w : World) (c : ShopCtx) (pagination : Option Pagination)
    (s : LoopState) (hlast : nextPageOptions pagination = none)
    (hpos : s.currentBatch.length > 0)
    (hw : syncBatch w c s.writes s.currentBatch = none) :
    finishPage w c pagination s = sendResult c
      { s.wrote s.currentBatch true with
        ordersSynced := wrapInt32 (s.ordersSynced + wrapInt32 s.currentBatch.length) }
      true "" := by
  simp only [finishPage, hlast, hpos, if_true, hw]

/-- The end of the loop body on the last page with an empty batch. -/
theorem finishPage_empty (w : World) (c : ShopCtx) (pagination : Option Pagination)
    (s : LoopState) (hlast : nextPageOptions pagination = none)
    (hbatch : s.currentBatch = []) :
    finishPage w c pagination s = sendResult c s true "" := by
  simp [finishPage, hlast, hbatch]

/-- An iteration that fetches a valid page filling the batch exactly, writes it
and moves to the next page. -/
theorem step_fill_next (w : World) (c : ShopCtx) (s : LoopState) (orders : List ShopifyOrder)
    (pagination : Option Pagination) (next : ListOptions)
    (hctx : w.ctxDone c.shopName s.fetches = none)
    (hok : w.listWithPagination c.shopName c.token s.fetches s.options
      = FetchResult.ok orders pagination)
    (hv : ValidPage orders) (hne : orders ≠ [])
    (hlen : s.currentBatch.length + orders.length = batchSize)
    (hw : syncBatch w c s.writes (s.currentBatch ++ convertPage orders) = none)
    (hnext : nextPageOptions pagination = some next) :
    ∃ s1, step w c s = Outcome.running s1 ∧
      s1.fetches = s.fetches + 1 ∧ s1.writes = s.writes + 1 ∧ s1.currentBatch = [] ∧
      s1.ordersSynced = wrapInt32 (s.ordersSynced +
        wrapInt32 (s.currentBatch ++ convertPage orders).length) ∧
      batchWrites s1.trace = batchWrites s.trace ++ [(s.currentBatch ++ convertPage orders, true)] ∧
      sentResults s1.trace = sentResults s.trace := by
  rw [step_of_fetch_ok w c s orders pagination hctx hok,
    processOrders_fill w c orders s.fetched hv hne hlen hw]
  simp only [finishPage_next w c pagination _ next hnext]
  refine ⟨_, rfl, rfl, rfl, rfl, rfl, ?_, ?_⟩
  · simp [LoopState.wrote, LoopState.fetched, batchWrites, List.filterMap_append]
  · simp [LoopState.wrote, LoopState.fetched, sentResults, List.filterMap_append]

/-- An iteration that fetches a valid last page which leaves a non-empty batch
short of `batchSize`: the batch is flushed and success is reported. -/
theorem step_flush_last (w : World) (c : ShopCtx) (s : LoopState) (orders : List ShopifyOrder)
    (pagination : Option Pagination)
    (hctx : w.ctxDone c.shopName s.fetches = none)
    (hok : w.listWithPagination c.shopName c.token s.fetches s.options
      = FetchResult.ok orders pagination)
    (hv : ValidPage orders)
    (hlen : s.currentBatch.length + orders.length < batchSize)
    (hpos : 0 < s.currentBatch.length + orders.length)
    (hw : syncBatch w c s.writes (s.currentBatch ++ convertPage orders) = none)
    (hlast : nextPageOptions pagination = none) :
    ∃ r s1, step w c s = Outcome.returned r s1 ∧
      r = { shopName := c.shopName, success := true, errorMessage := "",
            ordersSynced := wrapInt32 (s.ordersSynced +
              wrapInt32 (s.currentBatch ++ convertPage orders).length) } ∧
      batchWrites s1.trace = batchWrites s.trace ++ [(s.currentBatch ++ convertPage orders, true)] ∧
      sentResults s1.trace = sentResults s.trace ++ [r] := by
  have hcl := convertPage_length orders hv
  rw [step_of_fetch_ok w c s orders pagination hctx hok,
    processOrders_pending w c orders s.fetched hv hlen]
  simp only
  rw [finishPage_flush w c pagination _ hlast
    (by show (s.currentBatch ++ convertPage orders).length > 0
        simp only [List.length_append, hcl]; omega) hw]
  refine ⟨_, _, rfl, rfl, ?_, ?_⟩
  · simp [LoopState.wrote, LoopState.fetched, LoopState.emit, batchWrites,
      List.filterMap_append]
  · simp [LoopState.wrote, LoopState.fetched, LoopState.emit, sentResults,
      List.filterMap_append]

/-- An iteration that fetches an empty last page while the batch is empty
reports success without a write. -/
theorem step_empty_last (w : World) (c : ShopCtx) (s : LoopState)
    (pagination : Option Pagination)
    (hctx : w.ctxDone c.shopName s.fetches = none)
    (hok : w.listWithPagination c.shopName c.token s.fetches s.options
      = FetchResult.ok [] pagination)
    (hbatch : s.currentBatch = [])
    (hlast : nextPageOptions pagination = none) :
    ∃ r s1, step w c s = Outcome.returned r s1 ∧
      r = { shopName := c.shopName, success := true, errorMessage := "",
            ordersSynced := s.ordersSynced } ∧
      batchWrites s1.trace = batchWrites s.trace ∧
      sentResults s1.trace = sentResults s.trace ++ [r] := by
  rw [step_of_fetch_ok w c s [] pagination hctx hok]
  simp only [processOrders]
  rw [finishPage_empty w c pagination _ hlast (by show s.currentBatch = []; exact hbatch)]
  refine ⟨_, _, rfl, rfl, ?_, ?_⟩
  · simp [LoopState.fetched, LoopState.emit, batchWrites, List.filterMap_append]
  · simp [LoopState.fetched, LoopState.emit, sentResults, List.filterMap_append]

/-! ## Exactly one result -/

/-- Sending the result of a worker that has sent nothing yet. -/
theorem sendResult_single (c : ShopCtx) (s : LoopState) (b : Bool) (msg : String)
    (h : sentResults s.trace = []) : OutcomeSingle c (sendResult c s b msg) := by
  simp [OutcomeSingle, sendResult, LoopState.emit, sentResults, List.filterMap_append] at h ⊢
  exact h

/-- The inner loop keeps the send discipline. -/
theorem processOrders_single (w : World) (c : ShopCtx) (page : List ShopifyOrder) :
    ∀ s, sentResults s.trace = [] → OutcomeSingle c (processOrders w c page s) := by
  induction page with
  | nil => intro s h; exact h
  | cons o rest ih =>
    intro s h
    unfold processOrders
    split
    · exact h
    · simp only
      split
      · split
        · refine sendResult_single c _ _ _ ?_
          simp [LoopState.wrote, sentResults, List.filterMap_append] at h ⊢
          exact h
        · refine ih _ ?_
          simp [LoopState.wrote, sentResults, List.filterMap_append] at h ⊢
          exact h
      · exact ih _ h

/-- The end of the loop body keeps the send discipline. -/
theorem finishPage_single (w : World) (c : ShopCtx) (pagination : Option Pagination)
    (s : LoopState) (h : sentResults s.trace = []) :
    OutcomeSingle c (finishPage w c pagination s) := by
  unfold finishPage
  split
  · split
    · split
      · refine sendResult_single c _ _ _ ?_
        simp [LoopState.wrote, sentResults, List.filterMap_append] at h ⊢
        exact h
      · refine sendResult_single c _ _ _ ?_
        simp [LoopState.wrote, sentResults, List.filterMap_append] at h ⊢
        exact h
    · exact sendResult_single c _ _ _ h
  · exact h

/-- One iteration keeps the send discipline. -/
theorem step_single (w : World) (c : ShopCtx) (s : LoopState)
    (h : sentResults s.trace = []) : OutcomeSingle c (step w c s) := by
  unfold step fetchPage
  split
  · rename_i o heq
    split at heq
    · cases heq
      exact sendResult_single c _ _ _ h
    · simp only at heq
      split at heq
      · split at heq
        · cases heq
          simp [OutcomeSingle, sentResults, List.filterMap_append] at h ⊢
          exact h
        · cases heq
          refine sendResult_single c _ _ _ ?_
          simp [sentResults, List.filterMap_append] at h ⊢
          exact h
      · cases heq
  · rename_i orders pagination s1 heq
    have hs1 : sentResults s1.trace = [] := by
      split at heq
      · cases heq
      · simp only at heq
        split at heq
        · split at heq <;> cases heq
        · cases heq
          simp [sentResults, List.filterMap_append] at h ⊢
          exact h
    have hp := processOrders_single w c orders s1 hs1
    split
    · rename_i s2 heq2
      rw [heq2] at hp
      exact finishPage_single w c pagination s2 hp
    · rename_i o hne
      exact hp

/-- The loop keeps the send discipline. -/
theorem runLoop_single (w : World) (c : ShopCtx) (fuel : Nat) :
    ∀ s o, sentResults s.trace = [] → runLoop w c fuel s = some o → OutcomeSingle c o := by
  induction fuel with
  | zero => intro s o _ h; simp [runLoop] at h
  | succ n ih =>
    intro s o hs h
    have hstep := step_single w c s hs
    unfold runLoop at h
    split at h
    · rename_i s1 heq
      rw [heq] at hstep
      exact ih s1 o hstep h
    · cases h
      exact hstep

/-- The loop never ends with the worker still running. -/
theorem runLoop_not_running (w : World) (c : ShopCtx) (fuel : Nat) :
    ∀ s s1, runLoop w c fuel s ≠ some (Outcome.running s1) := by
  induction fuel with
  | zero => intro s s1 h; simp [runLoop] at h
  | succ n ih =>
    intro s s1 h
    unfold runLoop at h
    split at h
    · exact ih _ _ h
    · rename_i hne
      exact hne s1 (Option.some.inj h)

/-- The send discipline holds of every outcome of the worker. -/
theorem syncShopOrders_single (w : World) (c : ShopCtx) (fuel : Nat) (o : Outcome)
    (h : syncShopOrders w c fuel = some o) : OutcomeSingle c o := by
  unfold syncShopOrders at h
  split at h
  · cases h
    exact sendResult_single c _ _ _ rfl
  · exact runLoop_single w c fuel (initialState _) o rfl h

/-- A worker goroutine that is done has put exactly one result on the channel,
under its shop name. -/
theorem goroutineResults_one (w : World) (c : ShopCtx) (fuel : Nat) (rs : List syncResult)
    (h : goroutineResults w c fuel = some rs) :
    ∃ r, rs = [r] ∧ r.shopName = c.shopName := by
  unfold goroutineResults at h
  split at h
  · cases h
  · cases h
  · rename_i r s heq
    cases h
    have := syncShopOrders_single w c fuel _ heq
    exact ⟨r, this.1, this.2⟩
  · rename_i v s heq
    cases h
    have : sentResults s.trace = [] := syncShopOrders_single w c fuel _ heq
    exact ⟨recoverResult c.shopName v, by rw [this]; rfl, rfl⟩

/-- Every credential puts exactly one result on the channel, under its shop name. -/
theorem shopResults_one (w : World) (accountId : String) (fuel : Nat) (cred : String × String)
    (rs : List syncResult) (h : shopResults w accountId fuel cred = some rs) :
    ∃ r, rs = [r] ∧ r.shopName = cred.1 := by
  unfold shopResults at h
  split at h
  · cases h
    exact ⟨_, rfl, rfl⟩
  · exact goroutineResults_one w _ fuel rs h

/-! ## A worker reads only the answers given to its own shop -/

/-- Reading a report after an assignment. -/
theorem Report.get_set (m : Report) (k : String) (v : ShopSyncStatus) (k' : String) :
    (m.set k v).get k' = if k = k' then some v else m.get k' := by
  induction m with
  | nil => simp [Report.set, Report.get]
  | cons p rest ih =>
    obtain ⟨a, b⟩ := p
    unfold Report.set
    by_cases hak : a = k
    · subst hak
      by_cases hk : a = k' <;> simp [Report.get, hk]
    · by_cases hk : k = k'
      · subst hk
        simp [Report.get, hak, ih]
      · simp only [hak, if_false, Report.get, ih, hk]

/-- The collection loop as a fold of `collectOne`. -/
theorem collectResults_eq (rs : List syncResult) : collectResults rs = rs.foldl collectOne [] :=
  rfl

/-- The entry of a shop in the report is decided by the results sent under the
name of that shop. -/
theorem foldl_collect_get (B : String) (rs : List syncResult) :
    ∀ m m' : Report, m.get B = m'.get B →
      (rs.foldl collectOne m).get B
        = ((rs.filter fun r => decide (r.shopName = B)).foldl collectOne m').get B := by
  induction rs with
  | nil => intro m m' h; exact h
  | cons r rest ih =>
    intro m m' h
    by_cases hr : r.shopName = B
    · subst hr
      simp only [List.foldl_cons, List.filter_cons, decide_True, if_true]
      apply ih
      unfold collectOne
      by_cases he : r.shopName = ""
      · simp only [ne_eq, he, not_true_eq_false, if_false]
        rw [← he]
        exact h
      · simp only [ne_eq, he, not_false_eq_true, if_true, Report.get_set]
    · simp only [List.foldl_cons, List.filter_cons, hr, decide_False]
      apply ih
      unfold collectOne
      by_cases he : r.shopName = ""
      · simp [he, h]
      · simp only [ne_eq, he, not_false_eq_true, if_true, Report.get_set, hr, if_false, h]

set_option maxRecDepth 100000 in
/-- C2 at the world `secondWriteFails`: shop-a gets two full pages, the first
batch of 250 is written, the write of the second batch of 250 fails, and the
failure result carries 250. -/
theorem ordersSynced_counts_committed_witness :
    syncShopOrders secondWriteFails shopA 5
        = some (outcomeOf (syncShopOrders secondWriteFails shopA 5)) ∧
      (outcomeOf (syncShopOrders secondWriteFails shopA 5)).result
        = some { shopName := "shop-a", success := false,
                 errorMessage := "failed to sync batch: failed to sync batch: connection reset",
                 ordersSynced := 250 } ∧
      (batchWrites (outcomeOf (syncShopOrders secondWriteFails shopA 5)).state.trace).map
          (fun b => (b.1.length, b.2)) = [(250, true), (250, false)] ∧
      (250 : Int) = committedOrders (outcomeOf (syncShopOrders secondWriteFails shopA 5)).state.trace :=
  ⟨rfl, rfl, rfl,
    ordersSynced_counts_committed secondWriteFails shopA 5
      (outcomeOf (syncShopOrders secondWriteFails shopA 5))
      { shopName := "shop-a", success := false,
        errorMessage := "failed to sync batch: failed to sync batch: connection reset",
        ordersSynced := 250 }
      rfl rfl (by decide)⟩

set_option maxRecDepth 100000 in
/-- C3, the code at the failing input `faultAfterCommit`: the worker of shop-a
writes a batch of 250 orders successfully and then faults in
`convertShopifyOrderToOrder` on an order without `CreatedAt`; the result that
the `recover` handler of `SyncOrdersForAccount` records for the shop has
`ordersSynced = 0`, not 250. -/
theorem recover_reports_zero_after_commit :
    syncShopOrders faultAfterCommit shopA 5
        = some (outcomeOf (syncShopOrders faultAfterCommit shopA 5)) ∧
      (outcomeOf (syncShopOrders faultAfterCommit shopA 5)).faulted = true ∧
      committedOrders (outcomeOf (syncShopOrders faultAfterCommit shopA 5)).state.trace = 250 ∧
      SyncOrdersForAccount faultAfterCommit "acct-1" 5
        = some (Except.ok
            [("shop-a",
              { success := false,
                errorMessage := "panic recovered: " ++ nilDereference,
                ordersSynced := 0 })]) :=
  ⟨rfl, rfl, rfl, rfl⟩

/-- C5 at `k = 3` in the world `throttledThrice`: the governor interval is
400 ms, 800 ms and 1000 ms after the three failures, and the fourth fetch
succeeds with the retry counter back at 0 and the backoff at one second. -/
theorem backoff_scenario_witness :
    ∃ sk orders pagination s1,
      iterateLoop throttledThrice shopA (initialState Time.zero) 3 = some sk ∧
      adjustments sk.trace
        = [(true, 400 * millisecond), (true, 800 * millisecond), (true, 1000 * millisecond)] ∧
      fetchPage throttledThrice shopA sk = Fetched.page orders pagination s1 ∧
      s1.retryCount = 0 ∧ s1.backoff = second :=
  let ⟨sk, orders, pagination, s1, hit, had, _, _, hfp, hrc, hbo, _, _⟩ :=
    backoff_scenario throttledThrice shopA 3 Time.zero (by decide) (fun _ _ => rfl)
      (fun i hi _ => ⟨throttleError,
        (if_pos hi : (if i < 3 then FetchResult.error throttleError
          else FetchResult.ok (List.replicate 10 sampleOrder) none) = _),
        by decide⟩)
      (fun _ => ⟨_, _, rfl⟩)
  ⟨sk, orders, pagination, s1, hit, had.trans (by decide), hfp, hrc, hbo⟩

/-- C6 at the world `alwaysThrottled`, from the initial state: six fetches and a
failure after 5 retries. -/
theorem retry_budget_witness :
    ∃ r s e, runLoop alwaysThrottled shopA 6 (initialState Time.zero) = some (Outcome.returned r s) ∧
      r.shopName = "shop-a" ∧ r.success = false ∧ r.ordersSynced = 0 ∧
      r.errorMessage = "failed to list orders after 5 retries: " ++ e ∧
      (fetchEvents s.trace).length = 6 ∧
      batchWrites s.trace = [] ∧
      sentResults s.trace = [r] :=
  retry_budget alwaysThrottled shopA (initialState Time.zero) 6 (by decide) rfl
    (fun _ _ => rfl) (fun _ _ => ⟨throttleError, rfl, by decide⟩)

/-- C7 at the world `remoteDown`, in a state whose retry counter is 3. -/
theorem fetch_error_not_retried_witness :
    ∃ r, r.shopName = "shop-a" ∧ r.success = false ∧ r.ordersSynced = 0 ∧
      r.errorMessage = "failed to list orders after 3 retries: Internal Server Error" ∧
      runLoop remoteDown shopA 1 { initialState Time.zero with retryCount := 3 }
        = some (Outcome.returned r
          { initialState Time.zero with
            retryCount := 3
            fetches := 1
            trace := [Event.wait, Event.fetch (initialState Time.zero).options, Event.send r] }) :=
  fetch_error_not_retried remoteDown shopA { initialState Time.zero with retryCount := 3 }
    "Internal Server Error" 0 rfl rfl (by decide)

/-! ## Invariants of the loop, in general -/

/-- An invariant of the running states that every iteration carries to its
outcome holds of the outcome of the loop. -/
theorem runLoop_invariant (w : World) (c : ShopCtx) (P : LoopState → Prop)
    (Q : Outcome → Prop) (hstep : ∀ s, P s → Q (step w c s))
    (hrun : ∀ s, Q (Outcome.running s) → P s) (fuel : Nat) :
    ∀ s o, P s → runLoop w c fuel s = some o → Q o := by
  induction fuel with
  | zero => intro s o _ h; simp [runLoop] at h
  | succ n ih =>
    intro s o hs h
    have hq := hstep s hs
    unfold runLoop at h
    split at h
    · rename_i s1 heq
      rw [heq] at hq
      exact ih s1 o (hrun s1 hq) h
    · cases h
      exact hq

/-- An invariant of the running states holds after any number of iterations. -/
theorem iterateLoop_invariant (w : World) (c : ShopCtx) (P : LoopState → Prop)
    (hstep : ∀ s s1, P s → step w c s = Outcome.running s1 → P s1) (s0 : LoopState)
    (h0 : P s0) : ∀ j sj, iterateLoop w c s0 j = some sj → P sj := by
  intro j
  induction j with
  | zero =>
    intro sj h
    simp [iterateLoop] at h
    subst h
    exact h0
  | succ j ih =>
    intro sj h
    unfold iterateLoop at h
    split at h
    · rename_i sn hsn
      split at h
      · rename_i s1 hs1
        cases h
        exact hstep sn sj (ih sn hsn) hs1
      · cases h
    · cases h

/-! ## Batch sizes -/

/-- The batches of a concatenated trace. -/
theorem batchWrites_append (t u : List Event) :
    batchWrites (t ++ u) = batchWrites t ++ batchWrites u := by
  simp [batchWrites, List.filterMap_append]

/-- A trace of full batches has the batch shape. -/
theorem batchShape_of_full (o : Outcome)
    (h : ∀ b, b ∈ batchWrites o.state.trace → b.1.length = batchSize) : BatchShape o :=
  ⟨batchWrites o.state.trace, [], by simp, h, Or.inl rfl⟩

/-- Sending a result writes no batch. -/
theorem sendResult_batches (c : ShopCtx) (s : LoopState) (b : Bool) (msg : String) :
    batchWrites (sendResult c s b msg).state.trace = batchWrites s.trace := by
  simp [sendResult, Outcome.state, LoopState.emit, batchWrites, List.filterMap_append]

/-- A worker that returns after full batches keeps the batch discipline. -/
theorem sendResult_full (c : ShopCtx) (s : LoopState) (b : Bool) (msg : String)
    (h : ∀ x, x ∈ batchWrites s.trace → x.1.length = batchSize) :
    OutcomeBatches (sendResult c s b msg) :=
  batchShape_of_full (sendResult c s b msg) (by rw [sendResult_batches]; exact h)

/-- A full batch written after full batches leaves full batches. -/
theorem full_wrote (s : LoopState) (batch : List Order) (ok : Bool)
    (h : ∀ x, x ∈ batchWrites s.trace → x.1.length = batchSize)
    (hlen : batch.length = batchSize) :
    ∀ x, x ∈ batchWrites (s.wrote batch ok).trace → x.1.length = batchSize := by
  intro b hb
  simp only [LoopState.wrote, batchWrites_append, List.mem_append] at hb
  rcases hb with hb | hb
  · exact h b hb
  · simp [batchWrites] at hb
    rw [hb]
    exact hlen

/-- The conversion loop keeps the batch discipline. -/
theorem processOrders_batches (w : World) (c : ShopCtx) (page : List ShopifyOrder) :
    ∀ s, BatchInv s → OutcomeBatches (processOrders w c page s) := by
  induction page with
  | nil => intro s h; exact h
  | cons o rest ih =>
    intro s h
    unfold processOrders
    split
    · exact batchShape_of_full _ h.1
    · rename_i order _
      simp only
      split
      · rename_i hfull
        have hlen : (s.currentBatch ++ [order]).length = batchSize := by
          have := h.2
          simp only [List.length_append, List.length_singleton, ge_iff_le] at hfull ⊢
          omega
        split
        · exact sendResult_full c _ _ _
            (full_wrote { s with currentBatch := s.currentBatch ++ [order] } _ false h.1 hlen)
        · exact ih _ ⟨full_wrote s _ true h.1 hlen, by simp [batchSize]⟩
      · rename_i hnot
        refine ih _ ⟨h.1, ?_⟩
        simpa using hnot

/-- The end of an iteration keeps the batch discipline. -/
theorem finishPage_batches (w : World) (c : ShopCtx) (pagination : Option Pagination)
    (s : LoopState) (h : BatchInv s) : OutcomeBatches (finishPage w c pagination s) := by
  unfold finishPage
  split
  · split
    · rename_i hpos
      have hshape : ∀ ok msg (s1 : LoopState), batchWrites s1.trace
          = batchWrites s.trace ++ [(s.currentBatch, ok)] →
          BatchShape (sendResult c s1 false msg) ∧ BatchShape (sendResult c s1 true msg) := by
        intro ok msg s1 hs1
        constructor <;>
        · refine ⟨batchWrites s.trace, [(s.currentBatch, ok)], ?_, h.1,
            Or.inr ⟨s.currentBatch, ok, rfl, hpos, h.2, rfl⟩⟩
          rw [sendResult_batches, hs1]
      split
      · exact (hshape false _ (s.wrote s.currentBatch false)
          (by simp [LoopState.wrote, batchWrites, List.filterMap_append])).1
      · exact (hshape true "" _
          (by simp [LoopState.wrote, batchWrites, List.filterMap_append])).2
    · exact sendResult_full c _ _ _ h.1
  · exact h

/-- One iteration keeps the batch discipline. -/
theorem step_batches (w : World) (c : ShopCtx) (s : LoopState) (h : BatchInv s) :
    OutcomeBatches (step w c s) := by
  unfold step fetchPage
  split
  · rename_i o heq
    split at heq
    · cases heq
      exact sendResult_full c _ _ _ h.1
    · simp only at heq
      split at heq
      · split at heq
        · cases heq
          refine ⟨?_, h.2⟩
          intro b hb
          simp [batchWrites, List.filterMap_append] at hb
          exact h.1 b (by simpa [batchWrites] using hb)
        · cases heq
          refine sendResult_full c _ _ _ ?_
          intro b hb
          simp [batchWrites, List.filterMap_append] at hb
          exact h.1 b (by simpa [batchWrites] using hb)
      · cases heq
  · rename_i orders pagination s1 heq
    have hs1 : BatchInv s1 := by
      split at heq
      · cases heq
      · simp only at heq
        split at heq
        · split at heq <;> cases heq
        · cases heq
          refine ⟨?_, h.2⟩
          intro b hb
          simp [batchWrites, List.filterMap_append] at hb
          exact h.1 b (by simpa [batchWrites] using hb)
    have hp := processOrders_batches w c orders s1 hs1
    split
    · rename_i s2 heq2
      rw [heq2] at hp
      exact finishPage_batches w c pagination s2 hp
    · rename_i o hne
      exact hp

/-- The state at loop entry satisfies the batch invariant. -/
theorem initialState_batches (t : Time) : BatchInv (initialState t) := by
  simp [BatchInv, initialState, batchWrites, batchSize]

/-- Every run of the worker that ends has the batch shape. -/
theorem syncShopOrders_batches (w : World) (c : ShopCtx) (fuel : Nat) (o : Outcome)
    (h : syncShopOrders w c fuel = some o) : BatchShape o := by
  unfold syncShopOrders at h
  split at h
  · cases h
    exact sendResult_full c _ _ _ (initialState_batches _).1
  · have := runLoop_invariant w c BatchInv OutcomeBatches (step_batches w c) (fun _ h => h) fuel
      _ o (initialState_batches _) h
    cases o with
    | running s => exact absurd h (runLoop_not_running w c fuel _ s)
    | returned r s => exact this
    | panicked v s => exact this

/-! ## No order lost -/

/-- The fetch events of a concatenated trace. -/
theorem fetchEvents_append (t u : List Event) :
    fetchEvents (t ++ u) = fetchEvents t ++ fetchEvents u := by
  simp [fetchEvents, List.filterMap_append]

/-- Events that are no fetches fetch no page. -/
theorem fetchedPagesFrom_noFetch (w : World) (c : ShopCtx) (u : List Event) :
    ∀ n, NoFetch u → fetchedPagesFrom w c n u = [] := by
  induction u with
  | nil => intro n _; rfl
  | cons e rest ih =>
    intro n h
    cases e with
    | fetch opts => simp [NoFetch, fetchEvents] at h
    | wait => exact ih n (by simpa [NoFetch, fetchEvents] using h)
    | adjust b i => exact ih n (by simpa [NoFetch, fetchEvents] using h)
    | sleep d => exact ih n (by simpa [NoFetch, fetchEvents] using h)
    | write b ok => exact ih n (by simpa [NoFetch, fetchEvents] using h)
    | send r => exact ih n (by simpa [NoFetch, fetchEvents] using h)

/-- The fetched pages of a concatenated trace. -/
theorem fetchedPagesFrom_append (w : World) (c : ShopCtx) (t u : List Event) :
    ∀ n, fetchedPagesFrom w c n (t ++ u)
      = fetchedPagesFrom w c n t ++ fetchedPagesFrom w c (n + (fetchEvents t).length) u := by
  induction t with
  | nil => intro n; simp [fetchedPagesFrom, fetchEvents]
  | cons e rest ih =>
    intro n
    cases e with
    | fetch opts =>
      simp only [List.cons_append, fetchedPagesFrom, ih]
      have : n + (fetchEvents (Event.fetch opts :: rest)).length
          = n + 1 + (fetchEvents rest).length := by
        simp [fetchEvents]; omega
      rw [this]
      split <;> simp [ih]
    | wait => simpa [fetchedPagesFrom, fetchEvents] using ih n
    | adjust b i => simpa [fetchedPagesFrom, fetchEvents] using ih n
    | sleep d => simpa [fetchedPagesFrom, fetchEvents] using ih n
    | write b ok => simpa [fetchedPagesFrom, fetchEvents] using ih n
    | send r => simpa [fetchedPagesFrom, fetchEvents] using ih n

/-- The written orders of a concatenated trace. -/
theorem writtenOrders_append (t u : List Event) :
    writtenOrders (t ++ u) = writtenOrders t ++ writtenOrders u := by
  simp [writtenOrders, batchWrites, List.filterMap_append]

/-- A write is no fetch. -/
theorem noFetch_write (batch : List Order) (ok : Bool) : NoFetch [Event.write batch ok] := rfl

/-- A send is no fetch. -/
theorem noFetch_send (r : syncResult) : NoFetch [Event.send r] := rfl

/-- The fetched orders and fetch events of a trace extended by events that are
no fetches. -/
theorem fetched_append_noFetch (w : World) (c : ShopCtx) (t u : List Event) (h : NoFetch u) :
    fetchedOrders w c (t ++ u) = fetchedOrders w c t ∧
      fetchEvents (t ++ u) = fetchEvents t := by
  constructor
  · simp [fetchedOrders, fetchedPagesFrom_append, fetchedPagesFrom_noFetch w c u _ h]
  · rw [fetchEvents_append, h, List.append_nil]

/-- A failure result claims nothing about the written orders. -/
theorem sendResult_failure (w : World) (c : ShopCtx) (s : LoopState) (msg : String) :
    OutcomeFaithful w c (sendResult c s false msg) := by
  intro h
  simp [sendResult] at h

/-- The conversion loop keeps the written orders faithful to the fetched ones. -/
theorem processOrders_faithful (w : World) (c : ShopCtx) (page : List ShopifyOrder) :
    ∀ s, MidPage w c page s → OutcomeFaithful w c (processOrders w c page s) := by
  induction page with
  | nil =>
    intro s h
    obtain ⟨hf, hok, done, hd, hconv⟩ := h
    refine ⟨hf, hok, ?_⟩
    rw [hd, List.append_nil]
    exact hconv
  | cons o rest ih =>
    intro s h
    obtain ⟨hf, hok, done, hd, hconv⟩ := h
    unfold processOrders
    split
    · trivial
    · rename_i order hx
      simp only
      have hdone : (done ++ [o]).map convertShopifyOrderToOrder
          = (writtenOrders s.trace ++ (s.currentBatch ++ [order])).map some := by
        simp only [List.map_append, List.map_cons, List.map_nil, hx] at hconv ⊢
        rw [hconv, List.append_assoc]
      have hd2 : fetchedOrders w c s.trace = (done ++ [o]) ++ rest := by
        rw [hd, List.append_assoc]; rfl
      split
      · split
        · exact sendResult_failure w c _ _
        · refine ih _ ⟨?_, ?_, done ++ [o], ?_, ?_⟩
          · simp only [LoopState.wrote]
            rw [(fetched_append_noFetch w c s.trace _ (noFetch_write _ true)).2]
            exact hf
          · intro b hb
            simp only [LoopState.wrote, batchWrites, List.filterMap_append,
              List.mem_append] at hb
            rcases hb with hb | hb
            · exact hok b hb
            · simp at hb
              rw [hb]
          · simp only [LoopState.wrote]
            rw [(fetched_append_noFetch w c s.trace _ (noFetch_write _ true)).1]
            exact hd2
          · rw [hdone]
            simp [LoopState.wrote, writtenOrders_append, writtenOrders, batchWrites]
      · exact ih _ ⟨hf, hok, done ++ [o], hd2, hdone⟩

/-- An iteration that finds the deadline exceeded sends the timeout result and
returns. -/
theorem step_timeout (w : World) (c : ShopCtx) (s : LoopState) (err : String)
    (hctx : w.ctxDone c.shopName s.fetches = some err) :
    step w c s = sendResult c s false ("operation cancelled or timed out: " ++ err) := by
  simp only [step, fetchPage, hctx]

/-- The end of an iteration keeps the written orders faithful to the fetched ones. -/
theorem finishPage_faithful (w : World) (c : ShopCtx) (pagination : Option Pagination)
    (s : LoopState) (h : Faithful w c s) : OutcomeFaithful w c (finishPage w c pagination s) := by
  obtain ⟨hf, hok, hconv⟩ := h
  unfold finishPage
  split
  · split
    · split
      · exact sendResult_failure w c _ _
      · intro _
        constructor
        · intro b hb
          simp only [sendResult, LoopState.emit, LoopState.wrote, batchWrites,
            List.filterMap_append, List.mem_append] at hb
          rcases hb with (hb | hb) | hb
          · exact hok b hb
          · simp at hb
            rw [hb]
          · simp at hb
        · simp only [LoopState.emit, LoopState.wrote]
          rw [(fetched_append_noFetch w c _ _ (noFetch_send _)).1,
            (fetched_append_noFetch w c _ _ (noFetch_write _ true)).1, hconv]
          simp [writtenOrders_append, writtenOrders, batchWrites]
    · rename_i hpos
      intro _
      have hnil : s.currentBatch = [] := by
        cases hcb : s.currentBatch with
        | nil => rfl
        | cons a l => rw [hcb] at hpos; simp at hpos
      constructor
      · intro b hb
        simp only [sendResult, LoopState.emit, batchWrites, List.filterMap_append,
          List.mem_append] at hb
        rcases hb with hb | hb
        · exact hok b hb
        · simp at hb
      · simp only [LoopState.emit]
        rw [(fetched_append_noFetch w c _ _ (noFetch_send _)).1, hconv, hnil]
        simp [writtenOrders_append, writtenOrders, batchWrites]
  · exact ⟨hf, hok, hconv⟩

/-- One iteration keeps the written orders faithful to the fetched ones. -/
theorem step_faithful (w : World) (c : ShopCtx) (s : LoopState) (h : Faithful w c s) :
    OutcomeFaithful w c (step w c s) := by
  obtain ⟨hf, hok, hconv⟩ := h
  cases hctx : w.ctxDone c.shopName s.fetches with
  | some err =>
    rw [step_timeout w c s err hctx]
    exact sendResult_failure w c _ _
  | none =>
    have hpages : ∀ extra, fetchedPagesFrom w c 0
        (s.trace ++ [Event.wait, Event.fetch s.options] ++ extra)
        = fetchedPagesFrom w c 0 s.trace
          ++ fetchedPagesFrom w c s.fetches ([Event.wait, Event.fetch s.options] ++ extra) := by
      intro extra
      rw [List.append_assoc, fetchedPagesFrom_append, Nat.zero_add, ← hf]
    cases hres : w.listWithPagination c.shopName c.token s.fetches s.options with
    | error e =>
      by_cases hretry : stringsContains e "Exceeded" = true ∧ s.retryCount < maxRetries
      · rw [step_rateLimited w c s e hctx hres hretry.1 hretry.2]
        refine ⟨?_, ?_, ?_⟩
        · simp [LoopState.throttled, fetchEvents, List.filterMap_append] at hf ⊢
          exact hf
        · intro b hb
          simp [LoopState.throttled, batchWrites, List.filterMap_append] at hb
          exact hok b (by simpa [batchWrites] using hb)
        · have hw : writtenOrders s.throttled.trace = writtenOrders s.trace := by
            simp [LoopState.throttled, writtenOrders, batchWrites, List.filterMap_append]
          have hfo : fetchedOrders w c s.throttled.trace = fetchedOrders w c s.trace := by
            simp only [fetchedOrders, LoopState.throttled, hpages]
            simp [fetchedPagesFrom, hres, fetchedPagesFrom_noFetch]
          rw [hw, hfo]
          exact hconv
      · rw [step_fetchFailed w c s e hctx hres (by
          by_cases h1 : stringsContains e "Exceeded" = true
          · exact Or.inr (fun h2 => hretry ⟨h1, h2⟩)
          · exact Or.inl (by simpa using h1))]
        intro hs
        simp [fetchFailure] at hs
    | ok orders pagination =>
      rw [step_of_fetch_ok w c s orders pagination hctx hres]
      have hmid : MidPage w c orders s.fetched := by
        refine ⟨?_, ?_, fetchedOrders w c s.trace, ?_, ?_⟩
        · simp [LoopState.fetched, fetchEvents, List.filterMap_append] at hf ⊢
          exact hf
        · intro b hb
          simp [LoopState.fetched, batchWrites, List.filterMap_append] at hb
          exact hok b (by simpa [batchWrites] using hb)
        · simp only [fetchedOrders, LoopState.fetched, hpages]
          simp [fetchedPagesFrom, hres]
        · have hw : writtenOrders s.fetched.trace = writtenOrders s.trace := by
            simp [LoopState.fetched, writtenOrders, batchWrites, List.filterMap_append]
          rw [hw]
          exact hconv
      have hp := processOrders_faithful w c orders s.fetched hmid
      split
      · rename_i s2 heq2
        rw [heq2] at hp
        exact finishPage_faithful w c pagination s2 hp
      · exact hp

/-- The state at loop entry is faithful. -/
theorem initialState_faithful (w : World) (c : ShopCtx) (t : Time) :
    Faithful w c (initialState t) := by
  simp [Faithful, initialState, fetchEvents, batchWrites, fetchedOrders, fetchedPagesFrom,
    writtenOrders]

/-- Every run of the worker that ends is faithful to the fetched orders. -/
theorem syncShopOrders_faithful (w : World) (c : ShopCtx) (fuel : Nat) (o : Outcome)
    (h : syncShopOrders w c fuel = some o) : OutcomeFaithful w c o := by
  unfold syncShopOrders at h
  split at h
  · cases h
    exact sendResult_failure w c _ _
  · exact runLoop_invariant w c (Faithful w c) (OutcomeFaithful w c) (step_faithful w c)
      (fun _ h => h) fuel _ o (initialState_faithful w c _) h

/-- C11, batch-size bound: whatever pages the remote returns, every batch that
a run of the worker hands to `syncBatch` holds between 1 and `batchSize` = 250
orders; the batches are full batches of exactly 250 followed by at most one
shorter batch, which is the flush of a worker that returned; and every batch
written while the worker is in its loop holds exactly 250. -/
theorem batch_size_bound (w : World) (c : ShopCtx) (fuel : Nat) (o : Outcome)
    (hrun : syncShopOrders w c fuel = some o) :
    (∀ b, b ∈ batchWrites o.state.trace → 1 ≤ b.1.length ∧ b.1.length ≤ batchSize) ∧
      (∃ full last, batchWrites o.state.trace = full ++ last ∧
        (∀ b, b ∈ full → b.1.length = batchSize) ∧
        (last = [] ∨ ∃ b ok, last = [(b, ok)] ∧ 1 ≤ b.length ∧ b.length < batchSize ∧
          o.result.isSome = true)) ∧
      (∀ j sj, iterateLoop w c
          (initialState (w.getLatestOrderTimestamp c.shopName c.accountId).1) j = some sj →
        ∀ b, b ∈ batchWrites sj.trace → b.1.length = batchSize) := by
  have hshape := syncShopOrders_batches w c fuel o hrun
  refine ⟨?_, hshape, ?_⟩
  · obtain ⟨full, last, heq, hfull, hlast⟩ := hshape
    intro b hb
    rw [heq, List.mem_append] at hb
    rcases hb with hb | hb
    · rw [hfull b hb]; decide
    · rcases hlast with hl | ⟨x, ok, hl, h1, h2, _⟩
      · rw [hl] at hb; simp at hb
      · rw [hl] at hb
        simp at hb
        rw [hb]
        exact ⟨h1, Nat.le_of_lt h2⟩
  · intro j sj hj
    exact (iterateLoop_invariant w c BatchInv
      (fun s s1 hs h1 => by
        have := step_batches w c s hs
        rw [h1] at this
        exact this)
      _ (initialState_batches _) j sj hj).1

set_option maxRecDepth 100000 in
/-- C11 at the world `oddPages`, whose pages hold 300, 0 and 210 orders: the
run ends, its batches hold 250, 250 and 10 orders, and each holds between 1 and
250. -/
theorem batch_size_bound_witness :
    syncShopOrders oddPages shopA 5 = some (outcomeOf (syncShopOrders oddPages shopA 5)) ∧
      (batchWrites (outcomeOf (syncShopOrders oddPages shopA 5)).state.trace).map
          (fun b => b.1.length) = [250, 250, 10] ∧
      (∀ b, b ∈ batchWrites (outcomeOf (syncShopOrders oddPages shopA 5)).state.trace →
        1 ≤ b.1.length ∧ b.1.length ≤ batchSize) :=
  ⟨rfl, rfl,
    (batch_size_bound oddPages shopA 5 (outcomeOf (syncShopOrders oddPages shopA 5)) rfl).1⟩

/-- C12, no order lost, duplicated or reordered: for every run of the worker
that ends in success, the orders of the batches handed to `syncBatch`, in
invocation order, are the conversions of the orders of the fetched pages, in
page order and in-page order, and every write succeeded; between iterations the
converted fetched orders are the written orders followed by the batch in memory,
so the rest of a page is carried into the next batch. -/
theorem no_order_lost (w : World) (c : ShopCtx) (fuel : Nat) (o : Outcome)
    (hrun : syncShopOrders w c fuel = some o)
    (hsucc : o.result.map (fun r => r.success) = some true) :
    (fetchedOrders w c o.state.trace).map convertShopifyOrderToOrder
        = (writtenOrders o.state.trace).map some ∧
      (∀ b, b ∈ batchWrites o.state.trace → b.2 = true) ∧
      (∀ j sj, iterateLoop w c
          (initialState (w.getLatestOrderTimestamp c.shopName c.accountId).1) j = some sj →
        (fetchedOrders w c sj.trace).map convertShopifyOrderToOrder
          = (writtenOrders sj.trace ++ sj.currentBatch).map some) := by
  have h := syncShopOrders_faithful w c fuel o hrun
  refine ⟨?_, ?_, ?_⟩
  · cases o with
    | running s => simp [Outcome.result] at hsucc
    | panicked v s => simp [Outcome.result] at hsucc
    | returned r s =>
      simp only [Outcome.result, Option.map_some', Option.some.injEq] at hsucc
      exact (h hsucc).2
  · cases o with
    | running s => simp [Outcome.result] at hsucc
    | panicked v s => simp [Outcome.result] at hsucc
    | returned r s =>
      simp only [Outcome.result, Option.map_some', Option.some.injEq] at hsucc
      exact (h hsucc).1
  · intro j sj hj
    exact (iterateLoop_invariant w c (Faithful w c)
      (fun s s1 hs h1 => by
        have := step_faithful w c s hs
        rw [h1] at this
        exact this)
      _ (initialState_faithful w c _) j sj hj).2.2

set_option maxRecDepth 100000 in
/-- C12 at the world `oddPages`: the run ends in success, 510 orders are
fetched and 510 written, and the written orders are the conversions of the
fetched ones, in order. -/
theorem no_order_lost_witness :
    syncShopOrders oddPages shopA 5 = some (outcomeOf (syncShopOrders oddPages shopA 5)) ∧
      (fetchedOrders oddPages shopA (outcomeOf (syncShopOrders oddPages shopA 5)).state.trace).length
        = 510 ∧
      (writtenOrders (outcomeOf (syncShopOrders oddPages shopA 5)).state.trace).length = 510 ∧
      (fetchedOrders oddPages shopA
          (outcomeOf (syncShopOrders oddPages shopA 5)).state.trace).map convertShopifyOrderToOrder
        = (writtenOrders (outcomeOf (syncShopOrders oddPages shopA 5)).state.trace).map some :=
  ⟨rfl, rfl, rfl,
    (no_order_lost oddPages shopA 5 (outcomeOf (syncShopOrders oddPages shopA 5)) rfl rfl).1⟩

/-! ## Termination under a deadline -/

/-- An iteration that leaves the worker in its loop has made one fetch. -/
theorem step_fetches (w : World) (c : ShopCtx) (s s1 : LoopState)
    (h : step w c s = Outcome.running s1) : s1.fetches = s.fetches + 1 := by
  cases hctx : w.ctxDone c.shopName s.fetches with
  | some err =>
    rw [step_timeout w c s err hctx] at h
    simp [sendResult] at h
  | none =>
    cases hres : w.listWithPagination c.shopName c.token s.fetches s.options with
    | error e =>
      by_cases hretry : stringsContains e "Exceeded" = true ∧ s.retryCount < maxRetries
      · rw [step_rateLimited w c s e hctx hres hretry.1 hretry.2] at h
        cases h
        rfl
      · rw [step_fetchFailed w c s e hctx hres (by
          by_cases h1 : stringsContains e "Exceeded" = true
          · exact Or.inr (fun h2 => hretry ⟨h1, h2⟩)
          · exact Or.inl (by simpa using h1))] at h
        cases h
    | ok orders pagination =>
      rw [step_of_fetch_ok w c s orders pagination hctx hres] at h
      have h1 := processOrders_control w c orders s.fetched
      split at h
      · rename_i s2 hp
        rw [hp] at h1
        have h2 := finishPage_control w c pagination s2
        rw [h] at h2
        simp only [Outcome.state] at h1 h2
        rw [h2.2.2.2, h1.2.2.2.2]
        rfl
      · rename_i hne
        exact absurd h (by intro h3; exact hne _ h3)

/-- A loop whose deadline is exceeded at check `n` ends within `n + 1` fetches. -/
theorem runLoop_terminates (w : World) (c : ShopCtx) (n : Nat)
    (hdone : (w.ctxDone c.shopName n).isSome = true) :
    ∀ d s fuel, s.fetches + d = n → d + 1 ≤ fuel → ∃ o, runLoop w c fuel s = some o := by
  intro d
  induction d with
  | zero =>
    intro s fuel hs hfuel
    obtain ⟨f, rfl⟩ : ∃ f, fuel = f + 1 := ⟨fuel - 1, by omega⟩
    obtain ⟨err, herr⟩ := Option.isSome_iff_exists.mp hdone
    have hs2 : s.fetches = n := by omega
    rw [← hs2] at herr
    exact ⟨sendResult c s false ("operation cancelled or timed out: " ++ err),
      by simp only [runLoop, step_timeout w c s err herr, sendResult]⟩
  | succ d ih =>
    intro s fuel hs hfuel
    obtain ⟨f, rfl⟩ : ∃ f, fuel = f + 1 := ⟨fuel - 1, by omega⟩
    cases hstep : step w c s with
    | running s1 =>
      obtain ⟨o, ho⟩ := ih s1 f (by rw [step_fetches w c s s1 hstep]; omega) (by omega)
      exact ⟨o, by simp only [runLoop, hstep]; exact ho⟩
    | returned r s1 => exact ⟨Outcome.returned r s1, by simp only [runLoop, hstep]⟩
    | panicked v s1 => exact ⟨Outcome.panicked v s1, by simp only [runLoop, hstep]⟩

/-- A worker goroutine whose deadline is exceeded at check `n` is done within
`n + 1` iterations, having put exactly one result on the channel, under its
shop name. -/
theorem goroutineResults_done (w : World) (c : ShopCtx) (n fuel : Nat)
    (hdone : (w.ctxDone c.shopName n).isSome = true) (hfuel : n + 1 ≤ fuel) :
    ∃ r, goroutineResults w c fuel = some [r] ∧ r.shopName = c.shopName := by
  have hrun : ∃ o, syncShopOrders w c fuel = some o := by
    unfold syncShopOrders
    split
    · exact ⟨_, rfl⟩
    · exact runLoop_terminates w c n hdone n _ fuel (by simp [initialState]) hfuel
  obtain ⟨o, ho⟩ := hrun
  have hsome : ∃ rs, goroutineResults w c fuel = some rs := by
    unfold goroutineResults
    rw [ho]
    cases o with
    | running s =>
      unfold syncShopOrders at ho
      split at ho
      · simp [sendResult] at ho
      · exact absurd ho (runLoop_not_running w c fuel _ s)
    | returned r s => exact ⟨_, rfl⟩
    | panicked v s => exact ⟨_, rfl⟩
  obtain ⟨rs, hrs⟩ := hsome
  obtain ⟨r, hr, hn⟩ := goroutineResults_one w c fuel rs hrs
  exact ⟨r, by rw [hrs, hr], hn⟩

/-- The results on the channel, one per credential, when every worker is done. -/
theorem channelResults_length (w : World) (accountId : String) (fuel : Nat)
    (creds : List (String × String)) :
    ∀ rs, channelResults w accountId fuel creds = some rs →
      rs.length = creds.length ∧ rs.map (fun r => r.shopName) = creds.map (fun cred => cred.1) := by
  induction creds with
  | nil =>
    intro rs h
    simp [channelResults] at h
    subst h
    exact ⟨rfl, rfl⟩
  | cons cred rest ih =>
    intro rs h
    unfold channelResults at h
    split at h
    · rename_i a more ha hmore
      cases h
      obtain ⟨r, hr, hn⟩ := shopResults_one w accountId fuel cred a ha
      obtain ⟨h1, h2⟩ := ih more hmore
      subst hr
      simp [h1, h2, hn]
    · cases h

/-- Every worker is done within the fuel when every deadline is exceeded at
some check up to `N`. -/
theorem channelResults_done (w : World) (accountId : String) (fuel N : Nat)
    (hfuel : N + 1 ≤ fuel) (creds : List (String × String))
    (hdeadline : ∀ cred, cred ∈ creds → ∃ n, n ≤ N ∧ (w.ctxDone cred.1 n).isSome = true) :
    (∀ cred, cred ∈ creds → ∃ r, shopResults w accountId fuel cred = some [r] ∧
      r.shopName = cred.1) ∧
      ∃ rs, channelResults w accountId fuel creds = some rs := by
  have hshop : ∀ cred, cred ∈ creds → ∃ r, shopResults w accountId fuel cred = some [r] ∧
      r.shopName = cred.1 := by
    intro cred hc
    unfold shopResults
    split
    · exact ⟨_, rfl, rfl⟩
    · obtain ⟨n, hn, hd⟩ := hdeadline cred hc
      exact goroutineResults_done w _ n fuel hd (by omega)
  refine ⟨hshop, ?_⟩
  induction creds with
  | nil => exact ⟨[], rfl⟩
  | cons cred rest ih =>
    obtain ⟨r, hr, _⟩ := hshop cred (List.mem_cons_self cred rest)
    obtain ⟨more, hmore⟩ := ih
      (fun c hc => hdeadline c (List.mem_cons_of_mem cred hc))
      (fun c hc => hshop c (List.mem_cons_of_mem cred hc))
    exact ⟨[r] ++ more, by simp only [channelResults, hr, hmore]⟩

/-- C13, exactly one result per shop: every execution of a worker goroutine
that ends, on any path, sends exactly one result, under the name of its shop;
when the deadline of every shop is exceeded at one of its first `N + 1` checks,
every goroutine ends within `N + 1` iterations, and the results sent in one call
of `SyncOrdersForAccount` are one per credential, in number equal to the number
of credentials, which is the capacity of the channel. -/
theorem exactly_one_result (w : World) (accountId : String) (creds : List (String × String))
    (fuel N : Nat) (hfuel : N + 1 ≤ fuel)
    (hdeadline : ∀ cred, cred ∈ creds → ∃ n, n ≤ N ∧ (w.ctxDone cred.1 n).isSome = true) :
    (∀ (c : ShopCtx) (f : Nat) (rs : List syncResult),
        goroutineResults w c f = some rs → ∃ r, rs = [r] ∧ r.shopName = c.shopName) ∧
      (∀ cred, cred ∈ creds → ∃ r, shopResults w accountId fuel cred = some [r] ∧
        r.shopName = cred.1) ∧
      (∃ rs, channelResults w accountId fuel creds = some rs ∧ rs.length = creds.length ∧
        rs.length ≤ creds.length ∧
        rs.map (fun r => r.shopName) = creds.map (fun cred => cred.1)) := by
  obtain ⟨hshop, rs, hrs⟩ := channelResults_done w accountId fuel N hfuel creds hdeadline
  obtain ⟨h1, h2⟩ := channelResults_length w accountId fuel creds rs hrs
  exact ⟨fun c f rs h => goroutineResults_one w c f rs h, hshop, rs, hrs, h1, le_of_eq h1, h2⟩

/-- C17, deadline check: an iteration entered with the deadline exceeded at its
check, which precedes the fetch, ends the run with one failure result under the
name of the shop, with the message "operation cancelled or timed out: " followed
by the context error and with the count of orders synced so far; the trace grows
by that send alone, so there is no further fetch and no further write. The same
holds for the iteration that follows any iteration, a retry after a rate-limit
error included. -/
theorem deadline_check (w : World) (c : ShopCtx) (s : LoopState) (err : String) (fuel : Nat)
    (hctx : w.ctxDone c.shopName s.fetches = some err) :
    ∃ r, r.shopName = c.shopName ∧ r.success = false ∧ r.ordersSynced = s.ordersSynced ∧
      r.errorMessage = "operation cancelled or timed out: " ++ err ∧
      runLoop w c (fuel + 1) s
        = some (Outcome.returned r { s with trace := s.trace ++ [Event.send r] }) ∧
      (∀ s0, step w c s0 = Outcome.running s →
        runLoop w c (fuel + 2) s0
          = some (Outcome.returned r { s with trace := s.trace ++ [Event.send r] })) := by
  have hrun : runLoop w c (fuel + 1) s
      = some (sendResult c s false ("operation cancelled or timed out: " ++ err)) := by
    simp only [runLoop, step_timeout w c s err hctx, sendResult]
  refine ⟨_, rfl, rfl, rfl, rfl, hrun, ?_⟩
  intro s0 h0
  have hnext : runLoop w c (fuel + 2) s0 = runLoop w c (fuel + 1) s := by
    simp only [runLoop, h0]
  rw [hnext]
  exact hrun

set_option maxRecDepth 100000 in
/-- C13 at the world `deadlineAtThird` with the credentials of shop-a and
shop-b: the deadline of each shop is exceeded at its third check, and the
channel receives two results, one per credential. -/
theorem exactly_one_result_witness :
    ∃ rs, channelResults deadlineAtThird "acct-1" 3 [("shop-a", "token-a"), ("shop-b", "token-b")]
        = some rs ∧
      rs.length = [("shop-a", "token-a"), ("shop-b", "token-b")].length ∧
      rs.length ≤ [("shop-a", "token-a"), ("shop-b", "token-b")].length ∧
      rs.map (fun r => r.shopName)
        = [("shop-a", "token-a"), ("shop-b", "token-b")].map (fun cred => cred.1) :=
  (exactly_one_result deadlineAtThird "acct-1" [("shop-a", "token-a"), ("shop-b", "token-b")]
    3 2 (by decide) (fun _ _ => ⟨2, le_refl 2, rfl⟩)).2.2

set_option maxRecDepth 100000 in
/-- C17 at the world `deadlineAtThird`: after two iterations, with two fetches
made and 500 orders synced, the deadline is exceeded at the third check and the
run ends with the failure result and no further event but its send. -/
theorem deadline_check_witness :
    (stateOf (iterateLoop deadlineAtThird shopA (initialState Time.zero) 2)).fetches = 2 ∧
      (stateOf (iterateLoop deadlineAtThird shopA (initialState Time.zero) 2)).ordersSynced = 500 ∧
      ∃ r, r.shopName = "shop-a" ∧ r.success = false ∧
        r.errorMessage = "operation cancelled or timed out: context deadline exceeded" ∧
        runLoop deadlineAtThird shopA 1
            (stateOf (iterateLoop deadlineAtThird shopA (initialState Time.zero) 2))
          = some (Outcome.returned r
              { stateOf (iterateLoop deadlineAtThird shopA (initialState Time.zero) 2) with
                trace := (stateOf (iterateLoop deadlineAtThird shopA
                  (initialState Time.zero) 2)).trace ++ [Event.send r] }) :=
  ⟨rfl, rfl,
    let ⟨r, h1, h2, _, h4, h5, _⟩ :=
      deadline_check deadlineAtThird shopA
        (stateOf (iterateLoop deadlineAtThird shopA (initialState Time.zero) 2))
        "context deadline exceeded" 0 rfl
    ⟨r, h1, h2, h4, h5⟩⟩

/-! ## Malformed credentials and coordinator errors -/

/-- The report never has an entry under the empty shop name. -/
theorem foldl_collect_get_empty (rs : List syncResult) :
    ∀ m : Report, m.get "" = none → (rs.foldl collectOne m).get "" = none := by
  induction rs with
  | nil => intro m h; exact h
  | cons r rest ih =>
    intro m h
    simp only [List.foldl_cons]
    apply ih
    unfold collectOne
    by_cases he : r.shopName = ""
    · simp only [ne_eq, he, not_true_eq_false, if_false]
      exact h
    · simp only [ne_eq, he, not_false_eq_true, if_true, Report.get_set, if_false, h]

/-- With distinct shop names, the results sent under the name of a credential
are those of that credential. -/
theorem channelResults_filter_own (w : World) (accountId : String) (fuel : Nat)
    (creds : List (String × String)) :
    ∀ rs cred a, (creds.map fun x => x.1).Nodup →
      channelResults w accountId fuel creds = some rs → cred ∈ creds →
      shopResults w accountId fuel cred = some a →
      (rs.filter fun r => decide (r.shopName = cred.1)) = a := by
  induction creds with
  | nil => intro rs cred a _ _ hmem; simp at hmem
  | cons c0 rest ih =>
    intro rs cred a hnd h hmem ha
    simp only [List.map_cons, List.nodup_cons, List.mem_map, not_exists, not_and] at hnd
    unfold channelResults at h
    split at h
    · rename_i a0 more ha0 hmore
      cases h
      obtain ⟨r0, hr0, hn0⟩ := shopResults_one w accountId fuel c0 a0 ha0
      have hnames := (channelResults_length w accountId fuel rest more hmore).2
      rw [List.filter_append]
      rcases List.mem_cons.mp hmem with hc | hc
      · subst hc
        rw [ha] at ha0
        cases ha0
        have hmore0 : (more.filter fun r => decide (r.shopName = cred.1)) = [] := by
          rw [List.filter_eq_nil_iff]
          intro r hr
          have : r.shopName ∈ more.map (fun r => r.shopName) := List.mem_map_of_mem _ hr
          rw [hnames, List.mem_map] at this
          obtain ⟨x, hx, hxn⟩ := this
          intro heq
          simp only [decide_eq_true_eq] at heq
          exact hnd.1 x hx (by rw [hxn, heq])
        rw [hmore0, hr0]
        simp [hn0]
      · have hne : c0.1 ≠ cred.1 := fun heq => hnd.1 cred hc heq.symm
        rw [ih more cred a hnd.2 hmore hc ha, hr0]
        simp [hn0, hne]
    · cases h

/-- C14, amended: for every credential entry whose shop name or token is empty,
`SyncOrdersForAccount` sends the failure result "invalid shop name or token"
with `ordersSynced` 0 to the channel without starting a worker or making a
remote call (the result does not depend on the world or the fuel); the returned
report has that result under the shop name when the name is not empty, and has
no entry for an empty shop name. -/
theorem malformed_credentials (w : World) (accountId : String) (fuel : Nat)
    (creds : List (String × String)) (rep : Report) (cred : String × String)
    (hcreds : w.getShopTokens accountId = Except.ok creds)
    (hnodup : (creds.map fun x => x.1).Nodup)
    (hrun : SyncOrdersForAccount w accountId fuel = some (Except.ok rep))
    (hmem : cred ∈ creds) (hbad : cred.1 = "" ∨ cred.2 = "") :
    (∀ (w2 : World) (fuel2 : Nat),
        shopResults w2 accountId fuel2 cred = some [invalidCredential cred.1]) ∧
      (cred.1 ≠ "" →
        rep.get cred.1 = some { success := false, errorMessage := "invalid shop name or token",
                                ordersSynced := 0 }) ∧
      (cred.1 = "" → rep.get cred.1 = none) := by
  have hshop : ∀ (w2 : World) (fuel2 : Nat),
      shopResults w2 accountId fuel2 cred = some [invalidCredential cred.1] := by
    intro w2 fuel2
    simp [shopResults, hbad, invalidCredential]
  unfold SyncOrdersForAccount at hrun
  cases hsr : w.serviceReady with
  | false => simp [hsr] at hrun
  | true =>
    simp only [hsr, hcreds, Bool.not_true, Bool.false_eq_true, if_false] at hrun
    by_cases hz : creds.length = 0
    · rw [List.length_eq_zero] at hz
      rw [hz] at hmem
      simp at hmem
    · simp only [hz, if_false] at hrun
      cases hrs : channelResults w accountId fuel creds with
      | none => simp [hrs] at hrun
      | some rs =>
        simp only [hrs, Option.some.injEq, Except.ok.injEq] at hrun
        subst hrun
        refine ⟨hshop, ?_, ?_⟩
        · intro hne
          rw [collectResults_eq, foldl_collect_get cred.1 rs [] [] rfl,
            channelResults_filter_own w accountId fuel creds rs cred _ hnodup hrs hmem
              (hshop w fuel)]
          simp [collectOne, invalidCredential, hne, Report.set, Report.get]
        · intro he
          rw [he, collectResults_eq]
          exact foldl_collect_get_empty rs [] rfl

set_option maxRecDepth 100000 in
/-- C14, counterexample to the claim as written: the account has the one
credential with the empty shop name and the token "token-x"; the failure result
is sent, and the report returned is empty, with no entry for that credential. -/
theorem nameless_credential_unreported :
    namelessCredential.getShopTokens "acct-1" = Except.ok [("", "token-x")] ∧
      shopResults namelessCredential "acct-1" 1 ("", "token-x") = some [invalidCredential ""] ∧
      SyncOrdersForAccount namelessCredential "acct-1" 1 = some (Except.ok []) ∧
      Report.get [] "" = none :=
  ⟨rfl, rfl, rfl, rfl⟩

set_option maxRecDepth 100000 in
/-- C14 amended, at the world `tokenlessCredential`, where shop-a has an empty
token: the call returns a report, and the entry of shop-a is the failure result
"invalid shop name or token". -/
theorem malformed_credentials_witness :
    SyncOrdersForAccount tokenlessCredential "acct-1" 1
        = some (Except.ok
            [("shop-a", { success := false, errorMessage := "invalid shop name or token",
                          ordersSynced := 0 }),
             ("shop-b", { success := true, errorMessage := "", ordersSynced := 0 })]) ∧
      (∀ (w2 : World) (fuel2 : Nat),
        shopResults w2 "acct-1" fuel2 ("shop-a", "") = some [invalidCredential "shop-a"]) ∧
      ("shop-a" ≠ "" →
        Report.get
            [("shop-a", { success := false, errorMessage := "invalid shop name or token",
                          ordersSynced := 0 }),
             ("shop-b", { success := true, errorMessage := "", ordersSynced := 0 })] "shop-a"
          = some { success := false, errorMessage := "invalid shop name or token",
                   ordersSynced := 0 }) :=
  ⟨rfl,
    (malformed_credentials tokenlessCredential "acct-1" 1 [("shop-a", ""), ("shop-b", "token-b")]
      _ ("shop-a", "") rfl (by decide) rfl (by decide) (Or.inr rfl)).1,
    (malformed_credentials tokenlessCredential "acct-1" 1 [("shop-a", ""), ("shop-b", "token-b")]
      _ ("shop-a", "") rfl (by decide) rfl (by decide) (Or.inr rfl)).2.1⟩

/-- C15: a call of `SyncOrdersForAccount` that returns gives an error exactly
when the service or its repository is uninitialised or `GetShopTokens` fails,
and in those cases it does return an error; for an empty credential set it
returns the empty report; and with credentials, whatever the fetches, writes,
deadlines and faults of the shops, it returns a report with a nil error once
every worker ends (the deadline of each shop is exceeded within the fuel). -/
theorem coordinator_error_iff (w : World) (accountId : String) (fuel : Nat) :
    (∀ res, SyncOrdersForAccount w accountId fuel = some res →
        ((∃ e, res = Except.error e) ↔
          (w.serviceReady = false ∨ ∃ e, w.getShopTokens accountId = Except.error e))) ∧
      ((w.serviceReady = false ∨ ∃ e, w.getShopTokens accountId = Except.error e) →
        ∃ e, SyncOrdersForAccount w accountId fuel = some (Except.error e)) ∧
      (w.serviceReady = true → w.getShopTokens accountId = Except.ok [] →
        SyncOrdersForAccount w accountId fuel = some (Except.ok [])) ∧
      (∀ (creds : List (String × String)) (N : Nat),
        w.serviceReady = true → w.getShopTokens accountId = Except.ok creds → N + 1 ≤ fuel →
        (∀ cred, cred ∈ creds → ∃ n, n ≤ N ∧ (w.ctxDone cred.1 n).isSome = true) →
        ∃ rep, SyncOrdersForAccount w accountId fuel = some (Except.ok rep)) := by
  refine ⟨?_, ?_, ?_, ?_⟩
  · intro res hres
    unfold SyncOrdersForAccount at hres
    cases hsr : w.serviceReady with
    | false =>
      simp only [hsr, Bool.not_false, if_true, Option.some.injEq] at hres
      subst hres
      simp
    | true =>
      cases htok : w.getShopTokens accountId with
      | error e =>
        simp only [hsr, htok, Bool.not_true, Bool.false_eq_true, if_false,
          Option.some.injEq] at hres
        subst hres
        simp
      | ok creds =>
        simp only [hsr, htok, Bool.not_true, Bool.false_eq_true, if_false] at hres
        by_cases hz : creds.length = 0
        · simp only [hz, if_true, Option.some.injEq] at hres
          subst hres
          simp
        · simp only [hz, if_false] at hres
          cases hrs : channelResults w accountId fuel creds with
          | none => simp [hrs] at hres
          | some rs =>
            simp only [hrs, Option.some.injEq] at hres
            subst hres
            simp
  · intro h
    unfold SyncOrdersForAccount
    rcases h with h | ⟨e, h⟩
    · exact ⟨"shopify service not properly initialized",
        by simp only [h, Bool.not_false, if_true]⟩
    · cases hsr : w.serviceReady with
      | false =>
        exact ⟨"shopify service not properly initialized",
          by simp only [Bool.not_false, if_true]⟩
      | true =>
        exact ⟨"failed to get shop tokens: " ++ e,
          by simp only [h, Bool.not_true, Bool.false_eq_true, if_false]⟩
  · intro hsr htok
    simp [SyncOrdersForAccount, hsr, htok]
  · intro creds N hsr htok hfuel hdeadline
    obtain ⟨_, rs, hrs⟩ := channelResults_done w accountId fuel N hfuel creds hdeadline
    unfold SyncOrdersForAccount
    simp only [hsr, htok, Bool.not_true, Bool.false_eq_true, if_false, hrs]
    by_cases hz : creds.length = 0
    · exact ⟨[], by simp only [hz, if_true]⟩
    · exact ⟨collectResults rs, by simp only [hz, if_false]⟩

set_option maxRecDepth 100000 in
/-- C16, the behaviour of the code against the claim: at the world
`isolationWorld`, where the remote of shop-a is down, the gRPC handler
`SyncOrders` answers with `OverallSuccess` true although the entry of shop-a in
`ShopResults` has `Success` false. -/
theorem grpc_overall_success_ignores_failures :
    grpcServer.SyncOrders isolationWorld "acct-1" 2
      = some ({ overallSuccess := true,
                shopResults :=
                  [("shop-a", { success := false,
                                errorMessage := "failed to list orders after 0 retries: Internal Server Error",
                                ordersSynced := 0 }),
                   ("shop-b", { success := true, errorMessage := "", ordersSynced := 260 })] },
              none) :=
  rfl

/-! ## The repository -/

/-- The first insert of a batch is fatal exactly when its outcome is. -/
theorem fatalAt_zero (exec : Nat → OrderRow → ExecResult) (shopName accountId : String)
    (n : Nat) (order : Order) (rest : List Order) :
    FatalAt exec shopName accountId n (order :: rest) 0
      ↔ (exec n (insertArgs order shopName accountId)).fatal = true := by
  simp [FatalAt]

/-- A fatal insert after the first is a fatal insert of the rest of the batch. -/
theorem fatalAt_succ (exec : Nat → OrderRow → ExecResult) (shopName accountId : String)
    (n : Nat) (order : Order) (rest : List Order) (i : Nat) :
    FatalAt exec shopName accountId n (order :: rest) (i + 1)
      ↔ FatalAt exec shopName accountId (n + 1) rest i := by
  simp only [FatalAt, List.getElem?_cons_succ]
  rw [show n + (i + 1) = n + 1 + i by omega]

/-- The run of `processBatch` when the first insert does not stop it. -/
theorem processBatch_continue (exec : Nat → OrderRow → ExecResult) (shopName accountId : String)
    (n : Nat) (order : Order) (rest : List Order)
    (h : (exec n (insertArgs order shopName accountId)).fatal = false) :
    (processBatch exec shopName accountId n (order :: rest)).err
        = (processBatch exec shopName accountId (n + 1) rest).err ∧
      (processBatch exec shopName accountId n (order :: rest)).executed
        = insertArgs order shopName accountId
          :: (processBatch exec shopName accountId (n + 1) rest).executed := by
  cases hr : exec n (insertArgs order shopName accountId) with
  | ok => simp [processBatch, hr]
  | pqError code text =>
    rw [hr] at h
    simp [ExecResult.fatal] at h
    simp [processBatch, hr, h]
  | otherError text =>
    rw [hr] at h
    simp [ExecResult.fatal] at h

/-- The run of `processBatch` when the first insert stops it. -/
theorem processBatch_stop (exec : Nat → OrderRow → ExecResult) (shopName accountId : String)
    (n : Nat) (order : Order) (rest : List Order)
    (h : (exec n (insertArgs order shopName accountId)).fatal = true) :
    (processBatch exec shopName accountId n (order :: rest)).err.isSome = true ∧
      (processBatch exec shopName accountId n (order :: rest)).executed
        = [insertArgs order shopName accountId] := by
  cases hr : exec n (insertArgs order shopName accountId) with
  | ok =>
    rw [hr] at h
    simp [ExecResult.fatal] at h
  | pqError code text =>
    rw [hr] at h
    simp [ExecResult.fatal] at h
    simp [processBatch, hr, h]
  | otherError text => simp [processBatch, hr]

/-- C18, duplicate handling: for every list of orders and every outcome of the
inserts, `processBatch` returns an error exactly when some insert, were it
executed, fails with an error other than a unique violation (code 23505); it
executes the orders up to and including the first such insert, in order, and no
later one; and when there is none, unique violations included, it returns nil
and executes every order of the batch, in order. -/
theorem processBatch_duplicates (exec : Nat → OrderRow → ExecResult)
    (shopName accountId : String) (n : Nat) (orders : List Order) :
    ((processBatch exec shopName accountId n orders).err.isSome = true
        ↔ ∃ i, FatalAt exec shopName accountId n orders i) ∧
      (∀ i, FatalAt exec shopName accountId n orders i →
        (∀ j, j < i → ¬ FatalAt exec shopName accountId n orders j) →
        (processBatch exec shopName accountId n orders).executed
          = (orders.take (i + 1)).map fun order => insertArgs order shopName accountId) ∧
      ((∀ i, ¬ FatalAt exec shopName accountId n orders i) →
        (processBatch exec shopName accountId n orders).err = none ∧
        (processBatch exec shopName accountId n orders).executed
          = orders.map fun order => insertArgs order shopName accountId) := by
  induction orders generalizing n with
  | nil =>
    refine ⟨?_, ?_, ?_⟩
    · simp [processBatch, FatalAt]
    · intro i hi
      simp [FatalAt] at hi
    · intro _
      simp [processBatch]
  | cons order rest ih =>
    obtain ⟨ih1, ih2, ih3⟩ := ih (n + 1)
    cases hf : (exec n (insertArgs order shopName accountId)).fatal with
    | true =>
      obtain ⟨he, hx⟩ := processBatch_stop exec shopName accountId n order rest hf
      refine ⟨?_, ?_, ?_⟩
      · rw [he]
        simp only [true_iff]
        exact ⟨0, (fatalAt_zero exec shopName accountId n order rest).mpr hf⟩
      · intro i _ hfirst
        cases i with
        | zero => rw [hx]; rfl
        | succ i =>
          exact absurd ((fatalAt_zero exec shopName accountId n order rest).mpr hf)
            (hfirst 0 (by omega))
      · intro hnone
        exact absurd ((fatalAt_zero exec shopName accountId n order rest).mpr hf) (hnone 0)
    | false =>
      obtain ⟨he, hx⟩ := processBatch_continue exec shopName accountId n order rest hf
      have h0 : ¬ FatalAt exec shopName accountId n (order :: rest) 0 := by
        rw [fatalAt_zero, hf]
        simp
      refine ⟨?_, ?_, ?_⟩
      · rw [he, ih1]
        constructor
        · rintro ⟨i, hi⟩
          exact ⟨i + 1, (fatalAt_succ exec shopName accountId n order rest i).mpr hi⟩
        · rintro ⟨i, hi⟩
          cases i with
          | zero => exact absurd hi h0
          | succ i => exact ⟨i, (fatalAt_succ exec shopName accountId n order rest i).mp hi⟩
      · intro i hi hfirst
        cases i with
        | zero => exact absurd hi h0
        | succ i =>
          rw [hx, ih2 i ((fatalAt_succ exec shopName accountId n order rest i).mp hi)
            (fun j hj hfj => hfirst (j + 1) (by omega)
              ((fatalAt_succ exec shopName accountId n order rest j).mpr hfj))]
          rfl
      · intro hnone
        obtain ⟨h1, h2⟩ := ih3 (fun i hi =>
          hnone (i + 1) ((fatalAt_succ exec shopName accountId n order rest i).mpr hi))
        rw [he, hx, h1, h2]
        exact ⟨rfl, rfl⟩

/-! ## The upsert -/

/-- The row found under an id after an upsert on that id, when one was stored. -/
theorem lookup_upsert_conflict (store : Store) (row old : OrderRow)
    (h : store.lookup row.id = some old) :
    (upsert store row).lookup row.id = some (conflictUpdate old row) := by
  induction store with
  | nil => simp [Store.lookup] at h
  | cons r rest ih =>
    unfold Store.lookup at h
    unfold upsert
    by_cases hr : r.id = row.id
    · simp only [hr, if_true, Option.some.injEq] at h
      subst h
      simp [hr, Store.lookup, conflictUpdate]
    · simp only [hr, if_false] at h
      simp only [hr, if_false, Store.lookup]
      exact ih h

/-! ## Written orders come from fetched pages -/

/-- Sending a result keeps the origin of the written orders. -/
theorem sendResult_sourced (w : World) (c : ShopCtx) (s : LoopState) (b : Bool) (msg : String)
    (h : Sourced w c s) : Sourced w c (sendResult c s b msg).state := by
  obtain ⟨hf, hx⟩ := h
  simp only [sendResult, Outcome.state, LoopState.emit]
  refine ⟨?_, ?_⟩
  · rw [(fetched_append_noFetch w c s.trace _ (noFetch_send _)).2]
    exact hf
  · intro x hxm
    rw [(fetched_append_noFetch w c s.trace _ (noFetch_send _)).1]
    apply hx x
    rcases hxm with hxm | hxm
    · left
      simpa [writtenOrders_append, writtenOrders, batchWrites] using hxm
    · exact Or.inr hxm

/-- Writing the batch in memory, extended or not, keeps the origin of the
written orders. -/
theorem wrote_sourced (w : World) (c : ShopCtx) (s : LoopState) (ok : Bool)
    (h : Sourced w c s) : Sourced w c (s.wrote s.currentBatch ok) := by
  obtain ⟨hf, hx⟩ := h
  simp only [LoopState.wrote]
  refine ⟨?_, ?_⟩
  · rw [(fetched_append_noFetch w c s.trace _ (noFetch_write _ ok)).2]
    exact hf
  · intro x hxm
    rw [(fetched_append_noFetch w c s.trace _ (noFetch_write _ ok)).1]
    apply hx x
    rcases hxm with hxm | hxm
    · simp only [writtenOrders_append, List.mem_append] at hxm
      rcases hxm with hxm | hxm
      · exact Or.inl hxm
      · right
        simpa [writtenOrders, batchWrites] using hxm
    · exact Or.inr hxm

/-- The inner loop on orders of a fetched page keeps the origin of the written
orders. -/
theorem processOrders_sourced (w : World) (c : ShopCtx) (page : List ShopifyOrder) :
    ∀ s, (∀ o, o ∈ page → o ∈ fetchedOrders w c s.trace) → Sourced w c s →
      Sourced w c (processOrders w c page s).state := by
  induction page with
  | nil => intro s _ h; exact h
  | cons o rest ih =>
    intro s hpage h
    unfold processOrders
    split
    · exact h
    · rename_i order hx
      simp only
      have happ : Sourced w c { s with currentBatch := s.currentBatch ++ [order] } := by
        refine ⟨h.1, ?_⟩
        intro x hxm
        rcases hxm with hxm | hxm
        · exact h.2 x (Or.inl hxm)
        · simp only [List.mem_append, List.mem_singleton] at hxm
          rcases hxm with hxm | hxm
          · exact h.2 x (Or.inr hxm)
          · exact ⟨o, hpage o (List.mem_cons_self o rest), by rw [hxm]; exact hx⟩
      have hrest : ∀ o1, o1 ∈ rest → o1 ∈ fetchedOrders w c s.trace :=
        fun o1 h1 => hpage o1 (List.mem_cons_of_mem o h1)
      split
      · split
        · exact sendResult_sourced w c _ _ _ (wrote_sourced w c _ false happ)
        · have hw := wrote_sourced w c _ true happ
          refine ih _ ?_ ⟨hw.1, ?_⟩
          · intro o1 h1
            simp only [LoopState.wrote]
            rw [(fetched_append_noFetch w c s.trace _ (noFetch_write _ true)).1]
            exact hrest o1 h1
          · intro x hxm
            rcases hxm with hxm | hxm
            · exact hw.2 x (Or.inl hxm)
            · simp at hxm
      · exact ih _ hrest happ

/-- The end of the loop body keeps the origin of the written orders. -/
theorem finishPage_sourced (w : World) (c : ShopCtx) (pagination : Option Pagination)
    (s : LoopState) (h : Sourced w c s) : Sourced w c (finishPage w c pagination s).state := by
  unfold finishPage
  split
  · split
    · split
      · exact sendResult_sourced w c _ _ _ (wrote_sourced w c s false h)
      · have hw := wrote_sourced w c s true h
        exact sendResult_sourced w c _ _ _ ⟨hw.1, hw.2⟩
    · exact sendResult_sourced w c _ _ _ h
  · exact h

/-- One iteration keeps the origin of the written orders. -/
theorem step_sourced (w : World) (c : ShopCtx) (s : LoopState) (h : Sourced w c s) :
    Sourced w c (step w c s).state := by
  obtain ⟨hf, hx⟩ := h
  cases hctx : w.ctxDone c.shopName s.fetches with
  | some err =>
    rw [step_timeout w c s err hctx]
    exact sendResult_sourced w c _ _ _ ⟨hf, hx⟩
  | none =>
    have hpages : ∀ extra, fetchedPagesFrom w c 0
        (s.trace ++ [Event.wait, Event.fetch s.options] ++ extra)
        = fetchedPagesFrom w c 0 s.trace
          ++ fetchedPagesFrom w c s.fetches ([Event.wait, Event.fetch s.options] ++ extra) := by
      intro extra
      rw [List.append_assoc, fetchedPagesFrom_append, Nat.zero_add, ← hf]
    cases hres : w.listWithPagination c.shopName c.token s.fetches s.options with
    | error e =>
      have hfo : ∀ extra, NoFetch extra → fetchedOrders w c
          (s.trace ++ [Event.wait, Event.fetch s.options] ++ extra) = fetchedOrders w c s.trace := by
        intro extra hextra
        simp only [fetchedOrders, hpages]
        simp [fetchedPagesFrom, hres, fetchedPagesFrom_noFetch w c extra _ hextra]
      by_cases hretry : stringsContains e "Exceeded" = true ∧ s.retryCount < maxRetries
      · rw [step_rateLimited w c s e hctx hres hretry.1 hretry.2]
        refine ⟨?_, ?_⟩
        · simp [Outcome.state, LoopState.throttled, fetchEvents, List.filterMap_append] at hf ⊢
          exact hf
        · intro x hxm
          simp only [Outcome.state, LoopState.throttled]
          rw [hfo [Event.adjust true (adjustRate s.rateLimiter true).interval,
            Event.sleep s.backoff] rfl]
          apply hx x
          rcases hxm with hxm | hxm
          · left
            simpa [Outcome.state, LoopState.throttled, writtenOrders, batchWrites,
              List.filterMap_append] using hxm
          · exact Or.inr hxm
      · rw [step_fetchFailed w c s e hctx hres (by
          by_cases h1 : stringsContains e "Exceeded" = true
          · exact Or.inr (fun h2 => hretry ⟨h1, h2⟩)
          · exact Or.inl (by simpa using h1))]
        refine ⟨?_, ?_⟩
        · simp [Outcome.state, fetchEvents, List.filterMap_append] at hf ⊢
          exact hf
        · intro x hxm
          simp only [Outcome.state]
          have := hfo [Event.send (fetchFailure c s e)] rfl
          simp only [List.append_assoc, List.cons_append, List.nil_append] at this ⊢
          rw [this]
          apply hx x
          rcases hxm with hxm | hxm
          · left
            simpa [Outcome.state, writtenOrders, batchWrites, List.filterMap_append] using hxm
          · exact Or.inr hxm
    | ok orders pagination =>
      rw [step_of_fetch_ok w c s orders pagination hctx hres]
      have hfetched : fetchedOrders w c s.fetched.trace = fetchedOrders w c s.trace ++ orders := by
        simp only [fetchedOrders, LoopState.fetched, hpages]
        simp [fetchedPagesFrom, hres]
      have hs1 : Sourced w c s.fetched := by
        refine ⟨?_, ?_⟩
        · simp [LoopState.fetched, fetchEvents, List.filterMap_append] at hf ⊢
          exact hf
        · intro x hxm
          rw [hfetched]
          have : x ∈ writtenOrders s.trace ∨ x ∈ s.currentBatch := by
            rcases hxm with hxm | hxm
            · left
              simpa [LoopState.fetched, writtenOrders, batchWrites, List.filterMap_append]
                using hxm
            · exact Or.inr hxm
          obtain ⟨o, ho, hc⟩ := hx x this
          exact ⟨o, List.mem_append_left _ ho, hc⟩
      have hp := processOrders_sourced w c orders s.fetched
        (fun o ho => by rw [hfetched]; exact List.mem_append_right _ ho) hs1
      split
      · rename_i s2 heq2
        rw [heq2] at hp
        exact finishPage_sourced w c pagination s2 hp
      · exact hp

/-- The initial state has written nothing. -/
theorem initialState_sourced (w : World) (c : ShopCtx) (t : Time) :
    Sourced w c (initialState t) := by
  simp [Sourced, initialState, fetchEvents, writtenOrders, batchWrites]

/-- Every order that a run of the worker hands to `syncBatch` is the conversion
of a remote order of a fetched page. -/
theorem syncShopOrders_sourced (w : World) (c : ShopCtx) (fuel : Nat) (o : Outcome)
    (h : syncShopOrders w c fuel = some o) : Sourced w c o.state := by
  unfold syncShopOrders at h
  split at h
  · cases h
    exact sendResult_sourced w c _ _ _ (initialState_sourced w c _)
  · exact runLoop_invariant w c (Sourced w c) (fun o => Sourced w c o.state) (step_sourced w c)
      (fun _ h => h) fuel _ o (initialState_sourced w c _) h

/-! ## The watermark -/

/-- The aggregate `MAX(updated_at)` is NULL exactly on no rows. -/
theorem maxUpdatedAt_none (rows : List OrderRow) : maxUpdatedAt rows = none ↔ rows = [] := by
  cases rows with
  | nil => simp [maxUpdatedAt]
  | cons r rest =>
    simp only [maxUpdatedAt]
    split
    · simp
    · split <;> simp

/-- The aggregate `MAX(updated_at)` is the timestamp of a row and bounds the
timestamp of every row. -/
theorem maxUpdatedAt_some (rows : List OrderRow) :
    ∀ m, maxUpdatedAt rows = some m →
      (∃ r, r ∈ rows ∧ r.updatedAt = m) ∧
        ∀ r, r ∈ rows → r.updatedAt.unixNano ≤ m.unixNano := by
  induction rows with
  | nil => intro m h; simp [maxUpdatedAt] at h
  | cons r rest ih =>
    intro m h
    simp only [maxUpdatedAt] at h
    split at h
    · rename_i hnone
      rw [maxUpdatedAt_none] at hnone
      simp only [Option.some.injEq] at h
      subst h hnone
      simp
    · rename_i m1 hsome
      obtain ⟨⟨x, hx, hxe⟩, hle⟩ := ih m1 hsome
      split at h
      · rename_i hlt
        simp only [Option.some.injEq] at h
        subst h
        refine ⟨⟨r, List.mem_cons_self r rest, rfl⟩, ?_⟩
        intro y hy
        rcases List.mem_cons.mp hy with hy | hy
        · rw [hy]
        · have := hle y hy
          omega
      · rename_i hnlt
        simp only [Option.some.injEq] at h
        subst h
        refine ⟨⟨x, List.mem_cons_of_mem r hx, hxe⟩, ?_⟩
        intro y hy
        rcases List.mem_cons.mp hy with hy | hy
        · rw [hy]; omega
        · exact hle y hy

/-- The watermark read from a store is at least `t` exactly when
`WatermarkAtLeast` holds. -/
theorem le_watermark_iff (t : Int) (store : Store) (shopName accountId : String) :
    t ≤ (PostgresRepository.GetLatestOrderTimestamp store shopName accountId).unixNano
      ↔ WatermarkAtLeast t store shopName accountId := by
  unfold PostgresRepository.GetLatestOrderTimestamp WatermarkAtLeast
  cases hm : maxUpdatedAt (shopRows store shopName accountId) with
  | none =>
    have hnil := (maxUpdatedAt_none _).mp hm
    simp [hnil]
  | some m =>
    obtain ⟨⟨x, hx, hxe⟩, hle⟩ := maxUpdatedAt_some _ m hm
    simp only
    constructor
    · intro h
      exact Or.inr ⟨x, hx, by rw [hxe]; exact h⟩
    · rintro (⟨hnil, _⟩ | ⟨r, hr, hrt⟩)
      · rw [hnil] at hx
        simp at hx
      · have := hle r hr
        omega

/-- The rows of a shop and account are the stored rows with that shop and account. -/
theorem mem_shopRows (store : Store) (shopName accountId : String) (r : OrderRow) :
    r ∈ shopRows store shopName accountId
      ↔ r ∈ store ∧ r.shopName = shopName ∧ r.accountId = accountId := by
  simp [shopRows, List.mem_filter]

/-- An upsert of a row of the shop, updated at `t` or later, keeps a row of the
shop that is updated at `t` or later. -/
theorem upsert_keeps_witness (t : Int) (shopName accountId : String) (row : OrderRow)
    (ht : t ≤ row.updatedAt.unixNano) (store : Store)
    (h : ∃ r, r ∈ shopRows store shopName accountId ∧ t ≤ r.updatedAt.unixNano) :
    ∃ r, r ∈ shopRows (upsert store row) shopName accountId ∧ t ≤ r.updatedAt.unixNano := by
  induction store with
  | nil =>
    obtain ⟨r, hr, _⟩ := h
    simp [shopRows] at hr
  | cons r0 rest ih =>
    obtain ⟨r, hr, hrt⟩ := h
    rw [mem_shopRows] at hr
    obtain ⟨hmem, hs, ha⟩ := hr
    unfold upsert
    by_cases hid : r0.id = row.id
    · simp only [hid, if_true]
      rcases List.mem_cons.mp hmem with hm | hm
      · subst hm
        exact ⟨conflictUpdate r row,
          (mem_shopRows _ _ _ _).mpr ⟨List.mem_cons_self _ _, hs, ha⟩, ht⟩
      · exact ⟨r, (mem_shopRows _ _ _ _).mpr ⟨List.mem_cons_of_mem _ hm, hs, ha⟩, hrt⟩
    · simp only [hid, if_false]
      rcases List.mem_cons.mp hmem with hm | hm
      · subst hm
        exact ⟨r, (mem_shopRows _ _ _ _).mpr ⟨List.mem_cons_self _ _, hs, ha⟩, hrt⟩
      · obtain ⟨y, hy, hyt⟩ := ih ⟨r, (mem_shopRows _ _ _ _).mpr ⟨hm, hs, ha⟩, hrt⟩
        rw [mem_shopRows] at hy
        exact ⟨y, (mem_shopRows _ _ _ _).mpr ⟨List.mem_cons_of_mem _ hy.1, hy.2.1, hy.2.2⟩, hyt⟩

/-- An upsert of a row of the shop, updated at `t` or later, into a store
without rows of the shop leaves none, or one updated at `t` or later. -/
theorem upsert_from_empty (t : Int) (shopName accountId : String) (row : OrderRow)
    (hshop : row.shopName = shopName) (hacct : row.accountId = accountId)
    (ht : t ≤ row.updatedAt.unixNano) (store : Store)
    (h : shopRows store shopName accountId = []) :
    shopRows (upsert store row) shopName accountId = [] ∨
      ∃ r, r ∈ shopRows (upsert store row) shopName accountId ∧ t ≤ r.updatedAt.unixNano := by
  induction store with
  | nil =>
    exact Or.inr ⟨row, (mem_shopRows _ _ _ _).mpr ⟨by simp [upsert], hshop, hacct⟩, ht⟩
  | cons r0 rest ih =>
    have hr0 : ¬ (r0.shopName = shopName ∧ r0.accountId = accountId) := by
      intro hr
      have : r0 ∈ shopRows (r0 :: rest) shopName accountId :=
        (mem_shopRows _ _ _ _).mpr ⟨List.mem_cons_self _ _, hr.1, hr.2⟩
      rw [h] at this
      simp at this
    have hrest : shopRows rest shopName accountId = [] := by
      simpa [shopRows, List.filter_cons, hr0] using h
    unfold upsert
    by_cases hid : r0.id = row.id
    · simp only [hid, if_true]
      left
      have hcu : ¬ ((conflictUpdate r0 row).shopName = shopName ∧
          (conflictUpdate r0 row).accountId = accountId) := hr0
      simpa [shopRows, List.filter_cons, hcu] using hrest
    · simp only [hid, if_false]
      rcases ih hrest with h1 | ⟨y, hy, hyt⟩
      · left
        simpa [shopRows, List.filter_cons, hr0] using h1
      · right
        rw [mem_shopRows] at hy
        exact ⟨y, (mem_shopRows _ _ _ _).mpr ⟨List.mem_cons_of_mem _ hy.1, hy.2.1, hy.2.2⟩, hyt⟩

/-- An upsert of a row of the shop, updated at `t` or later, keeps the watermark
of the shop at `t` or later. -/
theorem upsert_watermark (t : Int) (shopName accountId : String) (row : OrderRow)
    (hshop : row.shopName = shopName) (hacct : row.accountId = accountId)
    (ht : t ≤ row.updatedAt.unixNano) (store : Store)
    (h : WatermarkAtLeast t store shopName accountId) :
    WatermarkAtLeast t (upsert store row) shopName accountId := by
  rcases h with ⟨hnil, hep⟩ | hw
  · rcases upsert_from_empty t shopName accountId row hshop hacct ht store hnil with h1 | h1
    · exact Or.inl ⟨h1, hep⟩
    · exact Or.inr h1
  · exact Or.inr (upsert_keeps_witness t shopName accountId row ht store hw)

/-- Upserts of rows of the shop, each updated at `t` or later, keep the
watermark of the shop at `t` or later. -/
theorem foldl_upsert_watermark (t : Int) (shopName accountId : String) (rows : List OrderRow) :
    ∀ store, (∀ r, r ∈ rows → r.shopName = shopName ∧ r.accountId = accountId ∧
        t ≤ r.updatedAt.unixNano) →
      WatermarkAtLeast t store shopName accountId →
      WatermarkAtLeast t (rows.foldl upsert store) shopName accountId := by
  induction rows with
  | nil => intro store _ h; exact h
  | cons r rest ih =>
    intro store hrows h
    obtain ⟨h1, h2, h3⟩ := hrows r (List.mem_cons_self r rest)
    exact ih _ (fun x hx => hrows x (List.mem_cons_of_mem r hx))
      (upsert_watermark t shopName accountId r h1 h2 h3 store h)

/-- The rows that `processBatch` writes are rows of its orders. -/
theorem processBatch_written (exec : Nat → OrderRow → ExecResult) (shopName accountId : String)
    (orders : List Order) :
    ∀ n r, r ∈ (processBatch exec shopName accountId n orders).written →
      ∃ order, order ∈ orders ∧ r = insertArgs order shopName accountId := by
  induction orders with
  | nil => intro n r h; simp [processBatch] at h
  | cons order rest ih =>
    intro n r h
    simp only [processBatch] at h
    split at h
    · simp only [List.mem_cons] at h
      rcases h with h | h
      · exact ⟨order, List.mem_cons_self _ _, h⟩
      · obtain ⟨o, ho, hr⟩ := ih (n + 1) r h
        exact ⟨o, List.mem_cons_of_mem _ ho, hr⟩
    · split at h
      · obtain ⟨o, ho, hr⟩ := ih (n + 1) r h
        exact ⟨o, List.mem_cons_of_mem _ ho, hr⟩
      · simp at h
    · simp at h

/-- The rows that the chunk loop of `SyncOrders` writes are rows of its orders. -/
theorem processChunks_written (tx : TxOracle) (shopName accountId : String) (fuel : Nat) :
    ∀ i remaining r, r ∈ (processChunks tx shopName accountId fuel i remaining).2 →
      ∃ order, order ∈ remaining ∧ r = insertArgs order shopName accountId := by
  induction fuel with
  | zero => intro i remaining r h; simp [processChunks] at h
  | succ fuel ih =>
    intro i remaining r h
    simp only [processChunks] at h
    split at h
    · simp at h
    · have hbatch : ∀ x, x ∈ (processBatch tx.exec shopName accountId i
          (remaining.take 100)).written →
          ∃ order, order ∈ remaining ∧ x = insertArgs order shopName accountId := by
        intro x hx
        obtain ⟨o, ho, hr⟩ := processBatch_written tx.exec shopName accountId _ i x hx
        exact ⟨o, List.mem_of_mem_take ho, hr⟩
      split at h
      · exact hbatch r h
      · simp only [List.mem_append] at h
        rcases h with h | h
        · exact hbatch r h
        · obtain ⟨o, ho, hr⟩ := ih _ _ r h
          exact ⟨o, List.mem_of_mem_drop ho, hr⟩

/-- One call of `SyncOrders` with orders updated at `t` or later keeps the
watermark of its shop at `t` or later. -/
theorem syncOrders_watermark (t : Int) (tx : TxOracle) (store : Store) (orders : List Order)
    (shopName accountId : String)
    (hfresh : ∀ order, order ∈ orders → t ≤ order.updatedAt.unixNano)
    (h : WatermarkAtLeast t store shopName accountId) :
    WatermarkAtLeast t
      (PostgresRepository.SyncOrders tx store orders shopName accountId).2
      shopName accountId := by
  unfold PostgresRepository.SyncOrders
  split
  · exact h
  · split
    · exact h
    · split
      · exact h
      · rename_i written hchunks
        split
        · exact h
        · refine foldl_upsert_watermark t shopName accountId written store ?_ h
          intro r hr
          have hmem : r ∈ (processChunks tx shopName accountId orders.length 0 orders).2 := by
            rw [hchunks]; exact hr
          obtain ⟨o, ho, hro⟩ := processChunks_written tx shopName accountId _ 0 orders r hmem
          subst hro
          exact ⟨rfl, rfl, hfresh o ho⟩

/-- The batches of a run, each with orders updated at `t` or later, keep the
watermark of the shop at `t` or later. -/
theorem storeAfterWrites_watermark (t : Int) (txs : Nat → TxOracle) (shopName accountId : String)
    (batches : List (List Order)) :
    ∀ n store, (∀ b, b ∈ batches → ∀ order, order ∈ b → t ≤ order.updatedAt.unixNano) →
      WatermarkAtLeast t store shopName accountId →
      WatermarkAtLeast t (storeAfterWrites txs shopName accountId n store batches)
        shopName accountId := by
  induction batches with
  | nil => intro n store _ h; exact h
  | cons b rest ih =>
    intro n store hfresh h
    simp only [storeAfterWrites]
    exact ih (n + 1) _ (fun b1 hb1 => hfresh b1 (List.mem_cons_of_mem b hb1))
      (syncOrders_watermark t (txs n) store b shopName accountId
        (hfresh b (List.mem_cons_self b rest)) h)

/-- A converted order carries the `UpdatedAt` of the remote order. -/
theorem convert_updatedAt (o : ShopifyOrder) (x : Order)
    (h : convertShopifyOrderToOrder o = some x) : o.updatedAt = some x.updatedAt := by
  unfold convertShopifyOrderToOrder at h
  split at h
  · rename_i created updated hc hu
    simp only [Option.some.injEq] at h
    subst h
    exact hu
  · cases h

/-! ## The upsert and the watermark: the claims -/

/-- The literal `sampleConverted` is the conversion of `sampleOrder`. -/
theorem convert_sampleOrder : convertShopifyOrderToOrder sampleOrder = some sampleConverted := by
  rfl

/-- C19, counterexample to the claim as written: the store holds order 1001
with `updated_at` 1800000000000000000; `SyncOrders` is called with the same
order at `UpdatedAt` 1700000600000000000 and succeeds; the stored row then
carries 1700000600000000000, which is earlier than before the write. -/
theorem upsert_regresses_updatedAt :
    (staleStore.lookup 1001).map (fun r => r.updatedAt.unixNano) = some 1800000000000000000 ∧
      (PostgresRepository.SyncOrders healthyDatabase staleStore [sampleConverted]
          "shop-a" "acct-1").1 = (true, none) ∧
      ((PostgresRepository.SyncOrders healthyDatabase staleStore [sampleConverted]
          "shop-a" "acct-1").2.lookup 1001).map (fun r => r.updatedAt.unixNano)
        = some 1700000600000000000 ∧
      ((upsert staleStore (insertArgs sampleConverted "shop-a" "acct-1")).lookup 1001).map
          (fun r => r.updatedAt.unixNano) = some 1700000600000000000 := by
  refine ⟨rfl, rfl, rfl, rfl⟩

/-- C19, amended: when a row with the id of the incoming order is stored, the
statement of `SyncOrders` leaves under that id a row with the same `id`,
`shop_name` and `account_id` as before and with the `updated_at` of the incoming
order, whatever the stored one was; so `updated_at` does not go back exactly
when the incoming order is not older than the stored row. -/
theorem upsert_conflict (store : Store) (order : Order) (shopName accountId : String)
    (old : OrderRow) (h : store.lookup order.id = some old) :
    ∃ new, (upsert store (insertArgs order shopName accountId)).lookup order.id = some new ∧
      new.id = old.id ∧ new.shopName = old.shopName ∧ new.accountId = old.accountId ∧
      new.updatedAt = order.updatedAt ∧
      (old.updatedAt.unixNano ≤ new.updatedAt.unixNano
        ↔ old.updatedAt.unixNano ≤ order.updatedAt.unixNano) := by
  have hrow : (insertArgs order shopName accountId).id = order.id := rfl
  have hl := lookup_upsert_conflict store (insertArgs order shopName accountId) old
    (by rw [hrow]; exact h)
  rw [hrow] at hl
  exact ⟨_, hl, rfl, rfl, rfl, rfl, Iff.rfl⟩

/-- C19 amended, at the store `earlierStore` and the order `sampleConverted`:
the row of order 1001 is stored, and after the upsert it keeps its identity
columns and carries the `updated_at` of the incoming order. -/
theorem upsert_conflict_witness :
    earlierStore.lookup sampleConverted.id = some (insertArgs editedEarlier "shop-a" "acct-1") ∧
      ∃ new, (upsert earlierStore (insertArgs sampleConverted "shop-a" "acct-1")).lookup
          sampleConverted.id = some new ∧
        new.id = (insertArgs editedEarlier "shop-a" "acct-1").id ∧
        new.shopName = (insertArgs editedEarlier "shop-a" "acct-1").shopName ∧
        new.accountId = (insertArgs editedEarlier "shop-a" "acct-1").accountId ∧
        new.updatedAt = sampleConverted.updatedAt ∧
        ((insertArgs editedEarlier "shop-a" "acct-1").updatedAt.unixNano ≤ new.updatedAt.unixNano
          ↔ (insertArgs editedEarlier "shop-a" "acct-1").updatedAt.unixNano
              ≤ sampleConverted.updatedAt.unixNano) :=
  ⟨rfl, upsert_conflict earlierStore sampleConverted "shop-a" "acct-1" _ rfl⟩

/-- C20, counterexample to the claim as written: the store holds order 1001 of
shop-a with `updated_at` 1800000000000000000, which is the watermark; the
remote serves order 1001 with `UpdatedAt` 1700000600000000000; the run ends in
success with one order synced, and the watermark read after the run is
1700000600000000000, earlier than before the run. -/
theorem watermark_regresses :
    (PostgresRepository.GetLatestOrderTimestamp staleStore "shop-a" "acct-1").unixNano
        = 1800000000000000000 ∧
      ∃ s, syncShopOrders (servingSample staleStore) shopA 1
          = some (Outcome.returned
              { shopName := "shop-a", success := true, errorMessage := "", ordersSynced := 1 } s) ∧
        batchWrites s.trace = [([sampleConverted], true)] ∧
        (PostgresRepository.GetLatestOrderTimestamp
            (storeAfterRun (fun _ => healthyDatabase) shopA staleStore s.trace)
            "shop-a" "acct-1").unixNano = 1700000600000000000 := by
  refine ⟨rfl, _, rfl, rfl, rfl⟩

/-- C20, amended: for every run of the worker that ends, in success, failure,
timeout or fault, and whatever the database answers to each write, the
watermark of the shop of the run read after the run is at or after the
watermark read before it, provided every order of every page fetched in the run
carries an `UpdatedAt` at or after the watermark before the run. -/
theorem watermark_monotone (w : World) (c : ShopCtx) (fuel : Nat) (o : Outcome)
    (txs : Nat → TxOracle) (store : Store)
    (hrun : syncShopOrders w c fuel = some o)
    (hremote : ∀ order, order ∈ fetchedOrders w c o.state.trace → ∀ t, order.updatedAt = some t →
      (PostgresRepository.GetLatestOrderTimestamp store c.shopName c.accountId).unixNano
        ≤ t.unixNano) :
    (PostgresRepository.GetLatestOrderTimestamp store c.shopName c.accountId).unixNano
      ≤ (PostgresRepository.GetLatestOrderTimestamp
          (storeAfterRun txs c store o.state.trace) c.shopName c.accountId).unixNano := by
  rw [le_watermark_iff]
  unfold storeAfterRun
  refine storeAfterWrites_watermark _ txs c.shopName c.accountId _ 0 store ?_
    ((le_watermark_iff _ store c.shopName c.accountId).mp (le_refl _))
  intro b hb x hx
  have hw : x ∈ writtenOrders o.state.trace := by
    unfold writtenOrders
    exact List.mem_flatten.mpr ⟨b, hb, hx⟩
  obtain ⟨r, hr, hconv⟩ := (syncShopOrders_sourced w c fuel o hrun).2 x (Or.inl hw)
  exact hremote r hr x.updatedAt (convert_updatedAt r x hconv)

/-- C20 amended, at the store `earlierStore`, whose watermark is
1600000000000000000, and the world around it: the run ends in success, the one
order it fetches is updated after the watermark, and the watermark after the
run is not earlier than before. -/
theorem watermark_monotone_witness :
    ∃ s, syncShopOrders (servingSample earlierStore) shopA 1
        = some (Outcome.returned
            { shopName := "shop-a", success := true, errorMessage := "", ordersSynced := 1 } s) ∧
      fetchedOrders (servingSample earlierStore) shopA s.trace = [sampleOrder] ∧
      (PostgresRepository.GetLatestOrderTimestamp earlierStore "shop-a" "acct-1").unixNano
        = 1600000000000000000 ∧
      (PostgresRepository.GetLatestOrderTimestamp earlierStore shopA.shopName
          shopA.accountId).unixNano
        ≤ (PostgresRepository.GetLatestOrderTimestamp
            (storeAfterRun (fun _ => healthyDatabase) shopA earlierStore s.trace)
            shopA.shopName shopA.accountId).unixNano :=
  ⟨_, rfl, rfl, rfl,
    watermark_monotone (servingSample earlierStore) shopA 1 (Outcome.returned _ _)
      (fun _ => healthyDatabase) earlierStore rfl
      (by
        intro order horder t ht
        have hf : fetchedOrders (servingSample earlierStore) shopA
            (outcomeOf (syncShopOrders (servingSample earlierStore) shopA 1)).state.trace
            = [sampleOrder] := rfl
        have horder1 : order ∈ [sampleOrder] := hf ▸ horder
        rw [List.mem_singleton] at horder1
        subst horder1
        cases ht
        decide)⟩

/-! ## Convergence of the rate governor -/

/-- Inside the band a throttle signal doubles the interval up to the ceiling
and a success signal lowers it by 50 ms down to the floor. -/
theorem adjustRate_in_band (r : adaptiveRateLimiter)
    (hlo : minRateLimit ≤ r.interval) (hhi : r.interval ≤ maxRateLimit) :
    (adjustRate r true).interval = min (r.interval * 2) maxRateLimit ∧
      (adjustRate r false).interval = max (r.interval - 50 * millisecond) minRateLimit := by
  unfold minRateLimit millisecond at hlo
  unfold maxRateLimit millisecond at hhi
  have h1 : wrapInt64 (r.interval * 2) = r.interval * 2 :=
    wrapInt64_of_inRange _ (by omega) (by omega)
  have h2 : wrapInt64 (r.interval - 50 * millisecond) = r.interval - 50 * millisecond := by
    unfold millisecond
    exact wrapInt64_of_inRange _ (by omega) (by omega)
  simp [adjustRate, h1, h2]

/-- The governor after one more signal of a run of equal signals. -/
theorem adjustMany_replicate_succ (r : adaptiveRateLimiter) (b : Bool) (k : Nat) :
    adjustMany r (List.replicate (k + 1) b) = adjustRate (adjustMany r (List.replicate k b)) b := by
  unfold adjustMany
  rw [List.replicate_succ', List.foldl_append]
  rfl

/-- The interval after `k` consecutive throttle signals, from inside the band. -/
theorem adjustMany_throttled (r : adaptiveRateLimiter)
    (hlo : minRateLimit ≤ r.interval) (hhi : r.interval ≤ maxRateLimit) (k : Nat) :
    (adjustMany r (List.replicate k true)).interval = min (r.interval * 2 ^ k) maxRateLimit := by
  induction k with
  | zero =>
    unfold maxRateLimit millisecond at hhi
    simp only [List.replicate_zero, adjustMany, List.foldl_nil, pow_zero, mul_one, min,
      maxRateLimit, millisecond]
    split <;> omega
  | succ k ih =>
    have hb := adjustMany_bounds (List.replicate k true) r hlo hhi
    rw [adjustMany_replicate_succ, (adjustRate_in_band _ hb.1 hb.2).1, ih, pow_succ, ← mul_assoc]
    have hpos : (0 : Int) < 2 ^ k := by positivity
    have hx : r.interval ≤ r.interval * 2 ^ k := by
      unfold minRateLimit millisecond at hlo
      exact le_mul_of_one_le_right (by omega) (by omega)
    generalize r.interval * 2 ^ k = x at *
    unfold min maxRateLimit millisecond
    (repeat' split) <;> omega

/-- The interval after `k` consecutive success signals, from inside the band. -/
theorem adjustMany_relaxed (r : adaptiveRateLimiter)
    (hlo : minRateLimit ≤ r.interval) (hhi : r.interval ≤ maxRateLimit) (k : Nat) :
    (adjustMany r (List.replicate k false)).interval
      = max (r.interval - 50 * millisecond * k) minRateLimit := by
  induction k with
  | zero =>
    unfold minRateLimit millisecond at hlo
    simp only [List.replicate_zero, adjustMany, List.foldl_nil, max, minRateLimit, millisecond,
      Nat.cast_zero, mul_zero, sub_zero]
    split <;> omega
  | succ k ih =>
    have hb := adjustMany_bounds (List.replicate k false) r hlo hhi
    rw [adjustMany_replicate_succ, (adjustRate_in_band _ hb.1 hb.2).2, ih]
    push_cast
    unfold max minRateLimit millisecond
    (repeat' split) <;> omega

/-- C24, convergence of the rate governor: from every interval between 100 ms
and 1000 ms, 4 consecutive `adjustRate(true)` calls, and any number of them from
4 on, leave the interval at the ceiling of 1000 ms, and 18 consecutive
`adjustRate(false)` calls, and any number of them from 18 on, leave it at the
floor of 100 ms; the ceiling is a fixed point of `adjustRate(true)` and the
floor is a fixed point of `adjustRate(false)`. -/
theorem governor_converges (r : adaptiveRateLimiter)
    (hlo : minRateLimit ≤ r.interval) (hhi : r.interval ≤ maxRateLimit) :
    (∀ k, 4 ≤ k → (adjustMany r (List.replicate k true)).interval = maxRateLimit) ∧
      (∀ k, 18 ≤ k → (adjustMany r (List.replicate k false)).interval = minRateLimit) ∧
      (adjustRate { interval := maxRateLimit } true).interval = maxRateLimit ∧
      (adjustRate { interval := minRateLimit } false).interval = minRateLimit := by
  refine ⟨?_, ?_, by decide, by decide⟩
  · intro k hk
    rw [adjustMany_throttled r hlo hhi k]
    have hpow : (2 : Int) ^ 4 ≤ 2 ^ k := pow_le_pow_right₀ (by norm_num) hk
    have hx : r.interval * 2 ^ 4 ≤ r.interval * 2 ^ k := by
      unfold minRateLimit millisecond at hlo
      exact mul_le_mul_of_nonneg_left hpow (by omega)
    generalize r.interval * 2 ^ k = x at *
    unfold min minRateLimit maxRateLimit millisecond at *
    split <;> omega
  · intro k hk
    rw [adjustMany_relaxed r hlo hhi k]
    have hk1 : (18 : Int) ≤ (k : Int) := by exact_mod_cast hk
    unfold max minRateLimit maxRateLimit millisecond at *
    split <;> omega

set_option maxRecDepth 100000 in
/-- C24 at the two ends of the band: from the floor of 100 ms three throttle
signals give 800 ms and the fourth reaches the ceiling; from the ceiling of
1000 ms seventeen success signals give 150 ms and the eighteenth reaches the
floor. -/
theorem governor_converges_witness :
    (adjustMany { interval := minRateLimit } (List.replicate 3 true)).interval
        = 800 * millisecond ∧
      (adjustMany { interval := minRateLimit } (List.replicate 4 true)).interval
        = maxRateLimit ∧
      (adjustMany { interval := maxRateLimit } (List.replicate 17 false)).interval
        = 150 * millisecond ∧
      (adjustMany { interval := maxRateLimit } (List.replicate 18 false)).interval
        = minRateLimit :=
  ⟨by decide,
    (governor_converges { interval := minRateLimit } (by decide) (by decide)).1 4 (le_refl 4),
    by decide,
    (governor_converges { interval := maxRateLimit } (by decide) (by decide)).2.1 18
      (le_refl 18)⟩

/-! ## Order conversion -/

/-- C25, counterexample to the claim as written: the remote order
`largeIdOrder` carries both timestamps and the id `2 ^ 63`, a value of the
`uint64` field `Id`; the conversion `int64(shopifyOrder.Id)` gives it the id
`-(2 ^ 63)`, so the id is not copied unchanged. -/
theorem convert_wraps_large_id :
    largeIdOrder.createdAt.isSome = true ∧ largeIdOrder.updatedAt.isSome = true ∧
      (largeIdOrder.id : Int) = 2 ^ 63 ∧
      (convertShopifyOrderToOrder largeIdOrder).map (fun x => x.id) = some (-(2 ^ 63)) ∧
      (convertShopifyOrderToOrder largeIdOrder).map (fun x => x.id)
        ≠ some (largeIdOrder.id : Int) := by
  refine ⟨rfl, rfl, rfl, rfl, ?_⟩
  decide

/-- C25, amended: for every remote order whose `CreatedAt` and `UpdatedAt` are
present, `convertShopifyOrderToOrder` returns an order whose id is the `int64`
conversion of the remote id, equal to it when the remote id is below `2 ^ 63`;
name, email, currency, the status fields, the flags, the free-text fields, the
order number and the two timestamps are copied unchanged; `CancelledAt`,
`ClosedAt` and `ProcessedAt` are copied as they are, absent when absent; the
customer is the remote customer, or the zero value when there is none; each
monetary total that is absent is 0, and one that is present is its `Float64()`
value; and the fields the conversion does not set are zero. -/
theorem convert_copies (o : ShopifyOrder) (created updated : Time)
    (hc : o.createdAt = some created) (hu : o.updatedAt = some updated) :
    ∃ x, convertShopifyOrderToOrder o = some x ∧
      x.id = wrapInt64 o.id ∧ ((o.id : Int) < 2 ^ 63 → x.id = o.id) ∧
      x.name = o.name ∧ x.email = o.email ∧ x.currency = o.currency ∧
      x.financialStatus = o.financialStatus ∧ x.fulfillmentStatus = o.fulfillmentStatus ∧
      x.cancelReason = o.cancelReason ∧
      x.taxesIncluded = o.taxesIncluded ∧ x.test = o.test ∧ x.confirmed = o.confirmed ∧
      x.browserIp = o.browserIp ∧ x.tags = o.tags ∧ x.gateway = o.gateway ∧
      x.contactEmail = o.contactEmail ∧ x.phone = o.phone ∧ x.orderNumber = o.orderNumber ∧
      x.createdAt = created ∧ x.updatedAt = updated ∧
      x.cancelledAt = o.cancelledAt ∧ x.closedAt = o.closedAt ∧
      x.processedAt = o.processedAt ∧
      (o.customer = none → x.customer = Customer.zero) ∧
      (∀ customer, o.customer = some customer → x.customer = customer) ∧
      (o.totalPrice = none → x.totalPrice = Float64.zero) ∧
      (o.subtotalPrice = none → x.subtotalPrice = Float64.zero) ∧
      (o.totalDiscounts = none → x.totalDiscounts = Float64.zero) ∧
      (o.totalTax = none → x.totalTax = Float64.zero) ∧
      (∀ d, o.totalPrice = some d → x.totalPrice = Float64.ofDecimal d) ∧
      (∀ d, o.subtotalPrice = some d → x.subtotalPrice = Float64.ofDecimal d) ∧
      (∀ d, o.totalDiscounts = some d → x.totalDiscounts = Float64.ofDecimal d) ∧
      (∀ d, o.totalTax = some d → x.totalTax = Float64.ofDecimal d) ∧
      x.totalWeight = 0 ∧ x.number = 0 ∧ x.locationId = 0 := by
  have hnat : (0 : Int) ≤ (o.id : Int) := Int.ofNat_nonneg _
  simp only [convertShopifyOrderToOrder, hc, hu]
  refine ⟨_, rfl, rfl, ?_, rfl, rfl, rfl, rfl, rfl,
    rfl, rfl, rfl, rfl, rfl, rfl, rfl, rfl, rfl, rfl, rfl, rfl, rfl, rfl, rfl, ?_, ?_, ?_, ?_, ?_,
    ?_, ?_, ?_, ?_, ?_, rfl, rfl, rfl⟩
  · intro hlt
    exact wrapInt64_of_inRange _ (by omega) hlt
  · intro h; simp only [h]
  · intro customer h; simp only [h]
  · intro h; simp only [h, convertDecimalToFloat]
  · intro h; simp only [h, convertDecimalToFloat]
  · intro h; simp only [h, convertDecimalToFloat]
  · intro h; simp only [h, convertDecimalToFloat]
  · intro d h; simp only [h, convertDecimalToFloat]
  · intro d h; simp only [h, convertDecimalToFloat]
  · intro d h; simp only [h, convertDecimalToFloat]
  · intro d h; simp only [h, convertDecimalToFloat]

/-- C25 amended, at the remote order `sampleOrder`, which carries both
timestamps, the id 1001, a total price and no customer: the converted order
keeps the id and the timestamps, has the zero customer and 0 for the absent
subtotal. -/
theorem convert_copies_witness :
    sampleOrder.createdAt = some { unixNano := 1700000000000000000 } ∧
      sampleOrder.updatedAt = some { unixNano := 1700000600000000000 } ∧
      ∃ x, convertShopifyOrderToOrder sampleOrder = some x ∧ x.id = 1001 ∧
        x.createdAt = { unixNano := 1700000000000000000 } ∧
        x.updatedAt = { unixNano := 1700000600000000000 } ∧
        x.customer = Customer.zero ∧ x.subtotalPrice = Float64.zero ∧
        x.totalPrice = Float64.ofDecimal { coeff := 1999, exp := -2 } :=
  ⟨rfl, rfl,
    let ⟨x, h0, _, h2, _, _, _, _, _, _, _, _, _, _, _, _, _, _, _, h18, h19, _, _, _, h23, _, _,
        h26, _, _, h29, _⟩ :=
      convert_copies sampleOrder { unixNano := 1700000000000000000 }
        { unixNano := 1700000600000000000 } rfl rfl
    ⟨x, h0, (h2 (by decide)).trans rfl, h18, h19, h23 rfl, h26 rfl, h29 _ rfl⟩⟩

/-! ## How an iteration extends the trace -/

/-- Events that are no fetches, one after the other. -/
theorem noFetch_append (t u : List Event) (ht : NoFetch t) (hu : NoFetch u) :
    NoFetch (t ++ u) := by
  unfold NoFetch at *
  rw [fetchEvents_append, ht, hu]
  rfl

/-- Sending a result extends the trace by that send. -/
theorem sendResult_extends (c : ShopCtx) (s : LoopState) (b : Bool) (msg : String) :
    ∃ extra, (sendResult c s b msg).state.trace = s.trace ++ extra ∧ NoFetch extra :=
  ⟨[Event.send { shopName := c.shopName, success := b, errorMessage := msg,
                 ordersSynced := s.ordersSynced }], rfl, rfl⟩

/-- The inner loop extends the trace by events that are no fetches. -/
theorem processOrders_extends (w : World) (c : ShopCtx) (page : List ShopifyOrder) :
    ∀ s, ∃ extra, (processOrders w c page s).state.trace = s.trace ++ extra ∧ NoFetch extra := by
  induction page with
  | nil => intro s; exact ⟨[], by simp [processOrders, Outcome.state], rfl⟩
  | cons o rest ih =>
    intro s
    unfold processOrders
    split
    · exact ⟨[], by simp [Outcome.state], rfl⟩
    · rename_i order _
      simp only
      split
      · split
        · rename_i err _
          exact ⟨[Event.write (s.currentBatch ++ [order]) false,
            Event.send { shopName := c.shopName, success := false,
                         errorMessage := "failed to sync batch: " ++ err,
                         ordersSynced := s.ordersSynced }],
            by simp [sendResult, Outcome.state, LoopState.emit, LoopState.wrote], rfl⟩
        · obtain ⟨extra, he, hn⟩ := ih
            { s.wrote (s.currentBatch ++ [order]) true with
              ordersSynced := wrapInt32 (s.ordersSynced
                + wrapInt32 (s.currentBatch ++ [order]).length)
              currentBatch := [] }
          exact ⟨[Event.write (s.currentBatch ++ [order]) true] ++ extra,
            by rw [he]; simp [LoopState.wrote],
            noFetch_append _ _ rfl hn⟩
      · obtain ⟨extra, he, hn⟩ := ih { s with currentBatch := s.currentBatch ++ [order] }
        exact ⟨extra, he, hn⟩

/-- The end of the loop body extends the trace by events that are no fetches. -/
theorem finishPage_extends (w : World) (c : ShopCtx) (pagination : Option Pagination)
    (s : LoopState) :
    ∃ extra, (finishPage w c pagination s).state.trace = s.trace ++ extra ∧ NoFetch extra := by
  unfold finishPage
  split
  · split
    · split
      · rename_i err _
        exact ⟨[Event.write s.currentBatch false,
            Event.send { shopName := c.shopName, success := false,
                         errorMessage := "failed to sync final batch: " ++ err,
                         ordersSynced := s.ordersSynced }],
          by simp [sendResult, Outcome.state, LoopState.emit, LoopState.wrote], rfl⟩
      · exact ⟨[Event.write s.currentBatch true,
            Event.send { shopName := c.shopName, success := true, errorMessage := "",
                         ordersSynced := wrapInt32 (s.ordersSynced
                           + wrapInt32 s.currentBatch.length) }],
          by simp [sendResult, Outcome.state, LoopState.emit, LoopState.wrote], rfl⟩
    · exact sendResult_extends c s true ""
  · exact ⟨[], by simp [Outcome.state], rfl⟩

/-- An iteration entered with the deadline live extends the trace by the wait,
the fetch with the options of the state, and events that are no fetches. -/
theorem step_extends (w : World) (c : ShopCtx) (s : LoopState)
    (hctx : w.ctxDone c.shopName s.fetches = none) :
    ∃ rest, (step w c s).state.trace = s.trace ++ [Event.wait, Event.fetch s.options] ++ rest ∧
      NoFetch rest := by
  cases hres : w.listWithPagination c.shopName c.token s.fetches s.options with
  | error e =>
    by_cases hretry : stringsContains e "Exceeded" = true ∧ s.retryCount < maxRetries
    · rw [step_rateLimited w c s e hctx hres hretry.1 hretry.2]
      exact ⟨_, rfl, rfl⟩
    · rw [step_fetchFailed w c s e hctx hres (by
        by_cases h1 : stringsContains e "Exceeded" = true
        · exact Or.inr (fun h2 => hretry ⟨h1, h2⟩)
        · exact Or.inl (by simpa using h1))]
      exact ⟨[Event.send (fetchFailure c s e)], by simp [Outcome.state], rfl⟩
  | ok orders pagination =>
    rw [step_of_fetch_ok w c s orders pagination hctx hres]
    obtain ⟨e1, h1, n1⟩ := processOrders_extends w c orders s.fetched
    have hadj : NoFetch [Event.adjust false (adjustRate s.rateLimiter false).interval] := rfl
    split
    · rename_i s2 heq
      rw [heq] at h1
      obtain ⟨e2, h2, n2⟩ := finishPage_extends w c pagination s2
      refine ⟨[Event.adjust false (adjustRate s.rateLimiter false).interval] ++ e1 ++ e2, ?_,
        noFetch_append _ _ (noFetch_append _ _ hadj n1) n2⟩
      rw [h2]
      simp only [Outcome.state] at h1
      rw [h1]
      simp [LoopState.fetched]
    · refine ⟨[Event.adjust false (adjustRate s.rateLimiter false).interval] ++ e1, ?_,
        noFetch_append _ _ hadj n1⟩
      rw [h1]
      simp [LoopState.fetched]

/-- The fetches of the trace after an iteration: one more, with the options of
the state, unless the deadline was exceeded at the check. -/
theorem step_fetchEvents (w : World) (c : ShopCtx) (s : LoopState) :
    fetchEvents (step w c s).state.trace
      = fetchEvents s.trace
        ++ (if (w.ctxDone c.shopName s.fetches).isSome then [] else [s.options]) := by
  cases hctx : w.ctxDone c.shopName s.fetches with
  | some err =>
    rw [step_timeout w c s err hctx]
    simp [sendResult, Outcome.state, LoopState.emit, fetchEvents, List.filterMap_append]
  | none =>
    obtain ⟨rest, h, hn⟩ := step_extends w c s hctx
    rw [h, fetchEvents_append, fetchEvents_append, hn]
    simp [fetchEvents]

/-- The options after an iteration that leaves the worker in its loop: those
before it, but for the page number. -/
theorem step_options (w : World) (c : ShopCtx) (s s1 : LoopState)
    (h : step w c s = Outcome.running s1) :
    s1.options.status = s.options.status ∧ s1.options.updatedAtMin = s.options.updatedAtMin ∧
      s1.options.listOptions.limit = s.options.listOptions.limit ∧
      s1.options.listOptions.pageInfo = s.options.listOptions.pageInfo := by
  cases hctx : w.ctxDone c.shopName s.fetches with
  | some err =>
    rw [step_timeout w c s err hctx] at h
    simp [sendResult] at h
  | none =>
    cases hres : w.listWithPagination c.shopName c.token s.fetches s.options with
    | error e =>
      by_cases hretry : stringsContains e "Exceeded" = true ∧ s.retryCount < maxRetries
      · rw [step_rateLimited w c s e hctx hres hretry.1 hretry.2] at h
        cases h
        exact ⟨rfl, rfl, rfl, rfl⟩
      · rw [step_fetchFailed w c s e hctx hres (by
          by_cases h1 : stringsContains e "Exceeded" = true
          · exact Or.inr (fun h2 => hretry ⟨h1, h2⟩)
          · exact Or.inl (by simpa using h1))] at h
        cases h
    | ok orders pagination =>
      rw [step_of_fetch_ok w c s orders pagination hctx hres] at h
      have h1 := (processOrders_control w c orders s.fetched).2.2.2.1
      split at h
      · rename_i s2 heq
        rw [heq] at h1
        simp only [Outcome.state, LoopState.fetched] at h1
        unfold finishPage at h
        split at h
        · split at h
          · split at h <;> simp [sendResult] at h
          · simp [sendResult] at h
        · cases h
          simp [h1]
      · rename_i hne
        exact absurd h (by
          intro hh
          exact hne s1 hh)

/-! ## Fetch options -/

/-- The options at loop entry are the fetch options of the run at page 0. -/
theorem initialState_options (lastSync : Time) :
    (initialState lastSync).options = fetchOptions lastSync 0 := by
  unfold initialState fetchOptions
  cases h : lastSync.IsZero <;> simp

/-- The state at loop entry keeps the options. -/
theorem initialState_optionsKept (lastSync : Time) : OptionsKept lastSync (initialState lastSync) := by
  refine ⟨?_, ?_, fun _ => initialState_options lastSync, ?_⟩
  · rw [initialState_options]
    rfl
  · intro opts h
    simp [initialState, fetchEvents] at h
  · intro first h
    simp [initialState, fetchEvents] at h

/-- Fetch options are determined by their page number. -/
theorem fetchOptions_of_fields (lastSync : Time) (opts opts1 : OrderListOptions)
    (h : opts = fetchOptions lastSync opts.listOptions.page)
    (h1 : opts1.status = opts.status) (h2 : opts1.updatedAtMin = opts.updatedAtMin)
    (h3 : opts1.listOptions.limit = opts.listOptions.limit)
    (h4 : opts1.listOptions.pageInfo = opts.listOptions.pageInfo) :
    opts1 = fetchOptions lastSync opts1.listOptions.page := by
  rw [h] at h1 h2 h3 h4
  cases opts1 with
  | mk lo st um =>
    cases lo with
    | mk pi pg lm =>
      simp only [fetchOptions] at h1 h2 h3 h4 ⊢
      simp only [h1, h2, h3, h4]

/-- One iteration keeps the options. -/
theorem step_optionsKept (w : World) (c : ShopCtx) (lastSync : Time) (s : LoopState)
    (h : OptionsKept lastSync s) : OutcomeOptionsKept lastSync (step w c s) := by
  obtain ⟨hopt, hall, hnil, hhead⟩ := h
  have hev := step_fetchEvents w c s
  have hall1 : ∀ opts, opts ∈ fetchEvents (step w c s).state.trace →
      opts = fetchOptions lastSync opts.listOptions.page := by
    intro opts hm
    rw [hev, List.mem_append] at hm
    rcases hm with hm | hm
    · exact hall opts hm
    · split at hm
      · simp at hm
      · rw [List.mem_singleton] at hm
        rw [hm]
        exact hopt
  have hhead1 : ∀ first, (fetchEvents (step w c s).state.trace).head? = some first →
      first = fetchOptions lastSync 0 := by
    intro first hf
    rw [hev] at hf
    cases hfe : fetchEvents s.trace with
    | nil =>
      rw [hfe, List.nil_append] at hf
      split at hf
      · simp at hf
      · simp only [List.head?_cons, Option.some.injEq] at hf
        rw [← hf]
        exact hnil hfe
    | cons a rest =>
      rw [hfe] at hf hhead
      simp only [List.cons_append, List.head?_cons, Option.some.injEq] at hf
      exact hhead first (by simp [hf])
  cases hs : step w c s with
  | running s1 =>
    rw [hs] at hall1 hhead1 hev
    simp only [Outcome.state] at hall1 hhead1 hev
    obtain ⟨h1, h2, h3, h4⟩ := step_options w c s s1 hs
    refine ⟨fetchOptions_of_fields lastSync s.options s1.options hopt h1 h2 h3 h4, hall1, ?_,
      hhead1⟩
    intro hnil1
    cases hctx : w.ctxDone c.shopName s.fetches with
    | some err =>
      rw [step_timeout w c s err hctx] at hs
      simp [sendResult] at hs
    | none =>
      rw [hev, hctx] at hnil1
      simp at hnil1
  | returned r s1 =>
    rw [hs] at hall1 hhead1
    exact ⟨hall1, hhead1⟩
  | panicked v s1 =>
    rw [hs] at hall1 hhead1
    exact ⟨hall1, hhead1⟩

/-- Every run of the worker fetches with the fetch options of its watermark. -/
theorem syncShopOrders_optionsKept (w : World) (c : ShopCtx) (fuel : Nat) (o : Outcome)
    (h : syncShopOrders w c fuel = some o) :
    OutcomeOptionsKept (w.getLatestOrderTimestamp c.shopName c.accountId).1 o := by
  unfold syncShopOrders at h
  split at h
  · cases h
    refine ⟨?_, ?_⟩
    · intro opts hm
      simp [sendResult, Outcome.state, LoopState.emit, initialState, fetchEvents] at hm
    · intro first hm
      simp [sendResult, Outcome.state, LoopState.emit, initialState, fetchEvents] at hm
  · exact runLoop_invariant w c (OptionsKept _) (OutcomeOptionsKept _)
      (step_optionsKept w c _) (fun _ h => h) fuel _ o (initialState_optionsKept _) h

/-- C23, fetch options: in every run of the worker that ends, and after any
number of iterations of a run, every page fetch carries page size 250, the
status filter "any", no cursor text, and `UpdatedAtMin` equal to the watermark
exactly when the watermark is not the zero time (the zero value, which is no
filter, otherwise); the first fetch carries page number 0; so the fetches of a
run, retries and following pages alike, differ in the page number alone. -/
theorem fetch_options (w : World) (c : ShopCtx) (fuel : Nat) (o : Outcome)
    (hrun : syncShopOrders w c fuel = some o) :
    (∀ opts, opts ∈ fetchEvents o.state.trace →
        opts.listOptions.limit = 250 ∧ opts.status = "any" ∧ opts.listOptions.pageInfo = "" ∧
        ((w.getLatestOrderTimestamp c.shopName c.accountId).1.IsZero = false →
          opts.updatedAtMin = (w.getLatestOrderTimestamp c.shopName c.accountId).1) ∧
        ((w.getLatestOrderTimestamp c.shopName c.accountId).1.IsZero = true →
          opts.updatedAtMin = Time.zero)) ∧
      (∀ first, (fetchEvents o.state.trace).head? = some first →
        first.listOptions.page = 0 ∧
        first = fetchOptions (w.getLatestOrderTimestamp c.shopName c.accountId).1 0) ∧
      (∀ opts opts1, opts ∈ fetchEvents o.state.trace → opts1 ∈ fetchEvents o.state.trace →
        opts1 = { opts with listOptions :=
                    { opts.listOptions with page := opts1.listOptions.page } }) ∧
      (∀ j sj, iterateLoop w c
          (initialState (w.getLatestOrderTimestamp c.shopName c.accountId).1) j = some sj →
        ∀ opts, opts ∈ fetchEvents sj.trace →
          opts = fetchOptions (w.getLatestOrderTimestamp c.shopName c.accountId).1
            opts.listOptions.page) := by
  have hkept := syncShopOrders_optionsKept w c fuel o hrun
  have hboth : (∀ opts, opts ∈ fetchEvents o.state.trace →
        opts = fetchOptions (w.getLatestOrderTimestamp c.shopName c.accountId).1
          opts.listOptions.page) ∧
      (∀ first, (fetchEvents o.state.trace).head? = some first →
        first = fetchOptions (w.getLatestOrderTimestamp c.shopName c.accountId).1 0) := by
    cases o with
    | running s => exact ⟨hkept.2.1, hkept.2.2.2⟩
    | returned r s => exact hkept
    | panicked v s => exact hkept
  obtain ⟨hall, hhead⟩ := hboth
  refine ⟨?_, ?_, ?_, ?_⟩
  · intro opts hm
    have h := hall opts hm
    refine ⟨by rw [h]; rfl, by rw [h]; rfl, by rw [h]; rfl, ?_, ?_⟩
    · intro hz
      rw [h]
      simp [fetchOptions, hz]
    · intro hz
      rw [h]
      simp [fetchOptions, hz]
  · intro first hf
    have h := hhead first hf
    exact ⟨by rw [h]; rfl, h⟩
  · intro opts opts1 hm hm1
    have h := hall opts hm
    have h1 := hall opts1 hm1
    rw [h1, h]
    rfl
  · intro j sj hj
    exact (iterateLoop_invariant w c (OptionsKept _)
      (fun s s1 hs h1 => by
        have := step_optionsKept w c _ s hs
        rw [h1] at this
        exact this)
      _ (initialState_optionsKept _) j sj hj).2.1

set_option maxRecDepth 100000 in
/-- C23 at the world `servingSample earlierStore`, whose watermark is
1600000000000000000: the run ends with one fetch, which carries page size 250,
status "any", no cursor, page number 0 and that watermark as `UpdatedAtMin`. -/
theorem fetch_options_witness :
    ∃ s, syncShopOrders (servingSample earlierStore) shopA 1
        = some (Outcome.returned
            { shopName := "shop-a", success := true, errorMessage := "", ordersSynced := 1 } s) ∧
      fetchEvents s.trace
        = [{ listOptions := { pageInfo := "", page := 0, limit := 250 }, status := "any",
             updatedAtMin := { unixNano := 1600000000000000000 } }] ∧
      ∀ opts, opts ∈ fetchEvents s.trace →
        opts.listOptions.limit = 250 ∧ opts.status = "any" ∧ opts.listOptions.pageInfo = "" :=
  ⟨_, rfl, rfl, fun opts hm =>
    let ⟨h1, h2, h3, _⟩ :=
      (fetch_options (servingSample earlierStore) shopA 1 (Outcome.returned _ _) rfl).1 opts hm
    ⟨h1, h2, h3⟩⟩

/-! ## A failing watermark read -/

/-- The inner loop does not read the watermark. -/
theorem processOrders_withoutWatermark (w : World) (c : ShopCtx) (page : List ShopifyOrder) :
    ∀ s, processOrders (withoutWatermark w) c page s = processOrders w c page s := by
  have hsync : ∀ n batch, syncBatch (withoutWatermark w) c n batch = syncBatch w c n batch :=
    fun _ _ => rfl
  induction page with
  | nil => intro s; rfl
  | cons o rest ih =>
    intro s
    unfold processOrders
    simp only [hsync, ih]

/-- The loop does not read the watermark. -/
theorem runLoop_withoutWatermark (w : World) (c : ShopCtx) (fuel : Nat) :
    ∀ s, runLoop (withoutWatermark w) c fuel s = runLoop w c fuel s := by
  have hfinish : ∀ p s, finishPage (withoutWatermark w) c p s = finishPage w c p s :=
    fun _ _ => rfl
  have hfetch : ∀ s, fetchPage (withoutWatermark w) c s = fetchPage w c s := fun _ => rfl
  have hstep : ∀ s, step (withoutWatermark w) c s = step w c s := by
    intro s
    unfold step
    simp only [hfetch, processOrders_withoutWatermark, hfinish]
  induction fuel with
  | zero => intro s; rfl
  | succ n ih =>
    intro s
    unfold runLoop
    simp only [hstep, ih]

/-- C28: when the client is created and `GetLatestOrderTimestamp` returns an
error with the zero timestamp, the worker enters its loop all the same, with
options that carry no `UpdatedAtMin`; its run is the run it would make had the
watermark been read without error as the zero time, so the error decides
nothing of the result; and when the deadline is live at the first check the
first iteration waits and fetches with those options. -/
theorem watermark_error_ignored (w : World) (c : ShopCtx) (fuel : Nat) (err : String)
    (hclient : w.newClient c.shopName c.token = none)
    (hread : w.getLatestOrderTimestamp c.shopName c.accountId = (Time.zero, some err)) :
    syncShopOrders w c fuel = runLoop w c fuel (initialState Time.zero) ∧
      (initialState Time.zero).options
        = { listOptions := { pageInfo := "", page := 0, limit := 250 }, status := "any",
            updatedAtMin := Time.zero } ∧
      syncShopOrders w c fuel = syncShopOrders (withoutWatermark w) c fuel ∧
      (w.ctxDone c.shopName 0 = none →
        ∃ rest, (step w c (initialState Time.zero)).state.trace
          = [Event.wait, Event.fetch (initialState Time.zero).options] ++ rest ∧
          NoFetch rest) := by
  refine ⟨?_, rfl, ?_, ?_⟩
  · simp only [syncShopOrders, hclient, hread]
  · have hc2 : (withoutWatermark w).newClient c.shopName c.token = none := hclient
    have hr2 : (withoutWatermark w).getLatestOrderTimestamp c.shopName c.accountId
        = (Time.zero, none) := rfl
    simp only [syncShopOrders, hclient, hread, hc2, hr2, runLoop_withoutWatermark]
  · intro hctx
    obtain ⟨rest, h, hn⟩ := step_extends w c (initialState Time.zero) hctx
    exact ⟨rest, by rw [h]; rfl, hn⟩

set_option maxRecDepth 100000 in
/-- C28 at the world `watermarkDown`, the literal scenario with a failing
watermark read: the worker of shop-a still ends in success with 260 orders
synced, as it does when the watermark is read as the zero time. -/
theorem watermark_error_ignored_witness :
    watermarkDown.getLatestOrderTimestamp "shop-a" "acct-1"
        = (Time.zero, some "connection refused") ∧
      (outcomeOf (syncShopOrders watermarkDown shopA 2)).result
        = some { shopName := "shop-a", success := true, errorMessage := "", ordersSynced := 260 } ∧
      syncShopOrders watermarkDown shopA 2 = syncShopOrders (withoutWatermark watermarkDown) shopA 2 :=
  ⟨rfl, rfl,
    (watermark_error_ignored watermarkDown shopA 2 "connection refused" rfl rfl).2.2.1⟩

/-! ## Faults of the conversion -/

/-- The conversion faults exactly on an order without `CreatedAt` or without
`UpdatedAt`. -/
theorem convert_none_iff (o : ShopifyOrder) :
    convertShopifyOrderToOrder o = none ↔ (o.createdAt = none ∨ o.updatedAt = none) := by
  unfold convertShopifyOrderToOrder
  cases hc : o.createdAt <;> cases hu : o.updatedAt <;> simp

/-- The inner loop faults on the first order that lacks a timestamp, when the
orders before it leave the worker in its loop. -/
theorem processOrders_fault (w : World) (c : ShopCtx) (bad : ShopifyOrder)
    (post : List ShopifyOrder) (hbad : convertShopifyOrderToOrder bad = none)
    (pre : List ShopifyOrder) :
    ∀ s s2, processOrders w c pre s = Outcome.running s2 →
      processOrders w c (pre ++ bad :: post) s = Outcome.panicked nilDereference s2 := by
  induction pre with
  | nil =>
    intro s s2 h
    simp only [processOrders, Outcome.running.injEq] at h
    subst h
    simp only [List.nil_append, processOrders, hbad]
  | cons o rest ih =>
    intro s s2 h
    unfold processOrders at h
    rw [List.cons_append]
    unfold processOrders
    split at h
    · cases h
    · rename_i order hx
      simp only [hx] at h ⊢
      split at h
      · rename_i hlen
        simp only [hlen, if_true]
        split at h
        · unfold sendResult at h
          cases h
        · exact ih _ s2 h
      · rename_i hlen
        simp only [hlen, if_false]
        exact ih _ s2 h

/-- A fault of the inner loop is the nil dereference, raised on an order of the
page that lacks a timestamp. -/
theorem processOrders_panicked (w : World) (c : ShopCtx) (page : List ShopifyOrder) :
    ∀ s v s2, processOrders w c page s = Outcome.panicked v s2 →
      v = nilDereference ∧ ∃ order, order ∈ page ∧ convertShopifyOrderToOrder order = none := by
  induction page with
  | nil => intro s v s2 h; simp [processOrders] at h
  | cons o rest ih =>
    intro s v s2 h
    unfold processOrders at h
    split at h
    · rename_i hx
      cases h
      exact ⟨rfl, o, List.mem_cons_self o rest, hx⟩
    · simp only at h
      split at h
      · split at h
        · simp [sendResult] at h
        · obtain ⟨hv, x, hx, hc⟩ := ih _ v s2 h
          exact ⟨hv, x, List.mem_cons_of_mem o hx, hc⟩
      · obtain ⟨hv, x, hx, hc⟩ := ih _ v s2 h
        exact ⟨hv, x, List.mem_cons_of_mem o hx, hc⟩

/-- The end of the loop body raises no fault. -/
theorem finishPage_not_panicked (w : World) (c : ShopCtx) (pagination : Option Pagination)
    (s : LoopState) (v : String) (s2 : LoopState) :
    finishPage w c pagination s ≠ Outcome.panicked v s2 := by
  unfold finishPage
  split
  · split
    · split <;> simp [sendResult]
    · simp [sendResult]
  · simp

/-- One iteration keeps the origin of faults. -/
theorem step_faultTraced (w : World) (c : ShopCtx) (s : LoopState)
    (hf : s.fetches = (fetchEvents s.trace).length) : FaultTraced w c (step w c s) := by
  cases hs : step w c s with
  | returned r s1 => exact True.intro
  | running s1 =>
    have hev := step_fetchEvents w c s
    have hfe := step_fetches w c s s1 hs
    cases hctx : w.ctxDone c.shopName s.fetches with
    | some err =>
      rw [step_timeout w c s err hctx] at hs
      simp [sendResult] at hs
    | none =>
      rw [hs, hctx] at hev
      simp only [Outcome.state, Option.isSome_none, Bool.false_eq_true, if_false] at hev
      show s1.fetches = (fetchEvents s1.trace).length
      rw [hev, hfe, hf]
      simp
  | panicked v s1 =>
    cases hctx : w.ctxDone c.shopName s.fetches with
    | some err =>
      rw [step_timeout w c s err hctx] at hs
      simp [sendResult] at hs
    | none =>
      cases hres : w.listWithPagination c.shopName c.token s.fetches s.options with
      | error e =>
        by_cases hretry : stringsContains e "Exceeded" = true ∧ s.retryCount < maxRetries
        · rw [step_rateLimited w c s e hctx hres hretry.1 hretry.2] at hs
          cases hs
        · rw [step_fetchFailed w c s e hctx hres (by
            by_cases h1 : stringsContains e "Exceeded" = true
            · exact Or.inr (fun h2 => hretry ⟨h1, h2⟩)
            · exact Or.inl (by simpa using h1))] at hs
          cases hs
      | ok orders pagination =>
        rw [step_of_fetch_ok w c s orders pagination hctx hres] at hs
        have hfetched : fetchedOrders w c s.fetched.trace = fetchedOrders w c s.trace ++ orders := by
          simp only [fetchedOrders, LoopState.fetched]
          rw [List.append_assoc, fetchedPagesFrom_append, Nat.zero_add, ← hf]
          simp [fetchedPagesFrom, hres]
        obtain ⟨extra, hext, hno⟩ := processOrders_extends w c orders s.fetched
        split at hs
        · exact absurd hs (finishPage_not_panicked w c pagination _ v s1)
        · obtain ⟨hv, x, hx, hc⟩ := processOrders_panicked w c orders s.fetched v s1 hs
          rw [hs] at hext
          simp only [Outcome.state] at hext
          refine ⟨hv, x, ?_, hc⟩
          rw [hext, (fetched_append_noFetch w c _ extra hno).1, hfetched]
          exact List.mem_append_right _ hx

/-- A fault of a run of the worker is the nil dereference of the conversion,
raised on an order of a fetched page that lacks a timestamp. -/
theorem syncShopOrders_faultTraced (w : World) (c : ShopCtx) (fuel : Nat) (o : Outcome)
    (h : syncShopOrders w c fuel = some o) : FaultTraced w c o := by
  unfold syncShopOrders at h
  split at h
  · cases h
    exact True.intro
  · exact runLoop_invariant w c (fun s => s.fetches = (fetchEvents s.trace).length)
      (FaultTraced w c) (step_faultTraced w c) (fun _ h => h) fuel _ o
      (by simp [initialState, fetchEvents]) h

/-! ## The report entry of a shop -/

/-- The channel is filled once every credential has its results. -/
theorem channelResults_of_all (w : World) (accountId : String) (fuel : Nat)
    (creds : List (String × String))
    (h : ∀ cred, cred ∈ creds → ∃ rs, shopResults w accountId fuel cred = some rs) :
    ∃ rs, channelResults w accountId fuel creds = some rs := by
  induction creds with
  | nil => exact ⟨[], rfl⟩
  | cons cred rest ih =>
    obtain ⟨r, hr⟩ := h cred (List.mem_cons_self cred rest)
    obtain ⟨more, hmore⟩ := ih (fun x hx => h x (List.mem_cons_of_mem cred hx))
    exact ⟨r ++ more, by simp only [channelResults, hr, hmore]⟩

/-- The report of a call whose workers all end holds, under the name of a shop
with a non-empty name, the status of the one result of that shop. -/
theorem report_entry (w : World) (accountId : String) (fuel : Nat)
    (creds : List (String × String)) (cred : String × String) (r : syncResult)
    (hready : w.serviceReady = true)
    (hcreds : w.getShopTokens accountId = Except.ok creds)
    (hnodup : (creds.map fun x => x.1).Nodup)
    (hmem : cred ∈ creds) (hname : cred.1 ≠ "")
    (hall : ∀ other, other ∈ creds → ∃ rs, shopResults w accountId fuel other = some rs)
    (hr : shopResults w accountId fuel cred = some [r]) :
    ∃ rep, SyncOrdersForAccount w accountId fuel = some (Except.ok rep) ∧
      rep.get cred.1 = some (statusOf r) := by
  obtain ⟨rs, hrs⟩ := channelResults_of_all w accountId fuel creds hall
  have hz : creds.length ≠ 0 := by
    intro hz
    rw [List.length_eq_zero] at hz
    rw [hz] at hmem
    simp at hmem
  refine ⟨collectResults rs, ?_, ?_⟩
  · simp only [SyncOrdersForAccount, hready, hcreds, Bool.not_true, Bool.false_eq_true, if_false,
      hz, hrs]
  · obtain ⟨r1, hr1, hn1⟩ := shopResults_one w accountId fuel cred [r] hr
    simp only [List.cons.injEq, and_true] at hr1
    subst hr1
    rw [collectResults_eq, foldl_collect_get cred.1 rs [] [] rfl,
      channelResults_filter_own w accountId fuel creds rs cred _ hnodup hrs hmem hr]
    simp [collectOne, hn1, hname, Report.set, Report.get, statusOf]

/-- C27: `convertShopifyOrderToOrder` faults exactly on an order whose
`CreatedAt` or `UpdatedAt` is absent, and the inner loop of the worker faults
on the first such order of a page. When the worker of a shop faults, the fault
is that nil dereference, raised on an order of a fetched page that lacks a
timestamp; the goroutine sends the single failure result of the `recover`
handler, with the message "panic recovered: " followed by the fault; and, every
worker of the account ending, `SyncOrdersForAccount` returns a report with a
nil error whose entry for the shop is that failure. -/
theorem conversion_fault_recovered (w : World) (accountId : String) (fuel : Nat)
    (creds : List (String × String)) (cred : String × String) (v : String) (s : LoopState)
    (hready : w.serviceReady = true)
    (hcreds : w.getShopTokens accountId = Except.ok creds)
    (hnodup : (creds.map fun x => x.1).Nodup)
    (hmem : cred ∈ creds) (hname : cred.1 ≠ "") (htoken : cred.2 ≠ "")
    (hall : ∀ other, other ∈ creds → ∃ rs, shopResults w accountId fuel other = some rs)
    (hfault : syncShopOrders w { shopName := cred.1, token := cred.2, accountId := accountId } fuel
      = some (Outcome.panicked v s)) :
    (∀ o, convertShopifyOrderToOrder o = none ↔ (o.createdAt = none ∨ o.updatedAt = none)) ∧
      (∀ (c : ShopCtx) (pre post : List ShopifyOrder) (bad : ShopifyOrder) (s0 s2 : LoopState),
        processOrders w c pre s0 = Outcome.running s2 →
        (bad.createdAt = none ∨ bad.updatedAt = none) →
        processOrders w c (pre ++ bad :: post) s0 = Outcome.panicked nilDereference s2) ∧
      v = nilDereference ∧
      (∃ order, order ∈ fetchedOrders w
          { shopName := cred.1, token := cred.2, accountId := accountId } s.trace ∧
        (order.createdAt = none ∨ order.updatedAt = none)) ∧
      goroutineResults w { shopName := cred.1, token := cred.2, accountId := accountId } fuel
        = some [recoverResult cred.1 nilDereference] ∧
      ∃ rep, SyncOrdersForAccount w accountId fuel = some (Except.ok rep) ∧
        rep.get cred.1
          = some { success := false,
                   errorMessage := "panic recovered: " ++ nilDereference,
                   ordersSynced := 0 } := by
  obtain ⟨hv, order, horder, hconv⟩ := syncShopOrders_faultTraced w _ fuel _ hfault
  have hsingle := syncShopOrders_single w _ fuel _ hfault
  have hgo : goroutineResults w { shopName := cred.1, token := cred.2, accountId := accountId } fuel
      = some [recoverResult cred.1 nilDereference] := by
    simp only [goroutineResults, hfault]
    rw [hv]
    simp only [OutcomeSingle] at hsingle
    rw [hsingle]
    rfl
  have hshop : shopResults w accountId fuel cred = some [recoverResult cred.1 nilDereference] := by
    simp only [shopResults, hname, htoken, or_self, if_false]
    exact hgo
  refine ⟨convert_none_iff, ?_, hv, ⟨order, horder, (convert_none_iff order).mp hconv⟩, hgo, ?_⟩
  · intro c pre post bad s0 s2 hpre hbad
    exact processOrders_fault w c bad post ((convert_none_iff bad).mpr hbad) pre s0 s2 hpre
  · obtain ⟨rep, hrep, hget⟩ := report_entry w accountId fuel creds cred _ hready hcreds hnodup
      hmem hname hall hshop
    exact ⟨rep, hrep, hget⟩

set_option maxRecDepth 100000 in
/-- C27 at the world `faultAfterCommit`, where the second page of shop-a holds
an order without `CreatedAt`: the worker faults, and the report returned has
the failure "panic recovered" for shop-a. -/
theorem conversion_fault_recovered_witness :
    syncShopOrders faultAfterCommit
        { shopName := "shop-a", token := "token-a", accountId := "acct-1" } 2
        = some (Outcome.panicked nilDereference
            (outcomeOf (syncShopOrders faultAfterCommit shopA 2)).state) ∧
      brokenOrder.createdAt = none ∧
      ∃ rep, SyncOrdersForAccount faultAfterCommit "acct-1" 2 = some (Except.ok rep) ∧
        rep.get "shop-a"
          = some { success := false,
                   errorMessage := "panic recovered: " ++ nilDereference,
                   ordersSynced := 0 } :=
  ⟨rfl, rfl,
    (conversion_fault_recovered faultAfterCommit "acct-1" 2 [("shop-a", "token-a")]
      ("shop-a", "token-a") nilDereference
      (outcomeOf (syncShopOrders faultAfterCommit shopA 2)).state
      rfl rfl (by decide) (by decide) (by decide) (by decide)
      (fun other hother => by
        rw [List.mem_singleton] at hother
        subst hother
        exact ⟨[recoverResult "shop-a" nilDereference], rfl⟩)
      rfl).2.2.2.2.2⟩

/-! ## The next-page cursor -/

set_option maxRecDepth 100000 in
/-- C22, the behaviour of the code against the claim: at the world
`cursorPaged` the remote returns the cursor "cursor-2" with the first page, and
the fetch that follows carries no cursor, like the first; the first page is
fetched and written twice, the last page never, until the deadline ends the
run with a failure and 500 orders counted. -/
theorem next_page_cursor_dropped :
    cursorPaged.listWithPagination "shop-a" "token-a" 0 firstPageOptions
        = FetchResult.ok (List.replicate 250 sampleOrder)
            (some { nextPageOptions := some { pageInfo := "cursor-2", page := 0, limit := 250 },
                    previousPageOptions := none }) ∧
      (outcomeOf (syncShopOrders cursorPaged shopA 3)).result
        = some { shopName := "shop-a", success := false,
                 errorMessage := "operation cancelled or timed out: context deadline exceeded",
                 ordersSynced := 500 } ∧
      fetchEvents (outcomeOf (syncShopOrders cursorPaged shopA 3)).state.trace
        = [firstPageOptions, firstPageOptions] ∧
      fetchedOrders cursorPaged shopA (outcomeOf (syncShopOrders cursorPaged shopA 3)).state.trace
        = List.replicate 500 sampleOrder ∧
      (batchWrites (outcomeOf (syncShopOrders cursorPaged shopA 3)).state.trace).map
          (fun b => (b.1.map (fun x => x.id), b.2))
        = [(List.replicate 250 1001, true), (List.replicate 250 1001, true)] :=
  ⟨rfl, rfl, rfl, rfl, rfl⟩

/-! ## The GraphQL mutation -/

/-- The loop of the mutation appends the details of each entry and clears the
flag on an entry without success. -/
theorem foldl_collectDetails (rep : Report) :
    ∀ acc : List models.ShopSyncDetails × Bool,
      (rep.foldl collectDetails acc).1 = acc.1 ++ rep.map detailsOf ∧
        ((rep.foldl collectDetails acc).2 = true
          ↔ (acc.2 = true ∧ ∀ entry, entry ∈ rep → entry.2.success = true)) := by
  induction rep with
  | nil => intro acc; simp
  | cons e rest ih =>
    intro acc
    obtain ⟨h1, h2⟩ := ih (collectDetails acc e)
    simp only [List.foldl_cons, h1, h2]
    constructor
    · simp [collectDetails, detailsOf]
    · cases hs : e.2.success <;> simp [collectDetails, hs]

set_option maxRecDepth 100000 in
/-- C26: the mutation `SyncOrders` returns `OverallSuccess` true exactly when
the client call succeeded and every shop status it returned has `Success`
true, so also for an empty report; its `ShopResults` hold one entry per entry
of the report, in order, with the name, success flag, error message and order
count of that shop; when the client call fails it returns `OverallSuccess`
false with nil shop results; and its error is nil in every case. At the world
`isolationWorld`, through the gRPC handler and client, it reports false. -/
theorem graphql_overall_success (client : Except String Report) :
    ((mutationResolver.SyncOrders client).1.overallSuccess = true
        ↔ ∃ rep, client = Except.ok rep ∧ ∀ entry, entry ∈ rep → entry.2.success = true) ∧
      (mutationResolver.SyncOrders client).2 = none ∧
      (∀ rep, client = Except.ok rep →
        (mutationResolver.SyncOrders client).1.shopResults
          = some (rep.map fun entry =>
              { shopName := entry.1,
                status := { success := entry.2.success, errorMessage := entry.2.errorMessage,
                            ordersCount := entry.2.ordersSynced } }) ∧
        (mutationResolver.SyncOrders client).1.message = "Order synchronization completed") ∧
      (∀ err, client = Except.error err →
        (mutationResolver.SyncOrders client).1
          = { overallSuccess := false, message := "Failed to sync orders: " ++ err,
              shopResults := none }) ∧
      (mutationResolver.SyncOrders (Except.ok [])).1.overallSuccess = true ∧
      ((grpcServer.SyncOrders isolationWorld "acct-1" 2).map fun answer =>
          (mutationResolver.SyncOrders (Client.SyncOrders (Except.ok answer.1))).1.overallSuccess)
        = some false := by
  refine ⟨?_, ?_, ?_, ?_, rfl, rfl⟩
  · cases client with
    | error err => simp [mutationResolver.SyncOrders]
    | ok rep =>
      simp only [mutationResolver.SyncOrders, (foldl_collectDetails rep ([], true)).2, true_and,
        Except.ok.injEq, exists_eq_left']
  · cases client <;> rfl
  · intro rep h
    subst h
    simp only [mutationResolver.SyncOrders, (foldl_collectDetails rep ([], true)).1,
      List.nil_append, and_true]
    rfl
  · intro err h
    subst h
    rfl

/-! ## Order ids through the RPC layer -/

/-- A decimal digit character has the value of its digit. -/
theorem digitValue_digitChar (d : Nat) (h : d < 10) : digitValue (Nat.digitChar d) = some d := by
  interval_cases d <;> rfl

/-- The digits written onto an accumulator are the digits written onto nothing,
followed by the accumulator. -/
theorem toDigitsCore_acc (fuel : Nat) :
    ∀ n ds, Nat.toDigitsCore 10 fuel n ds = Nat.toDigitsCore 10 fuel n [] ++ ds := by
  induction fuel with
  | zero => intro n ds; rfl
  | succ fuel ih =>
    intro n ds
    simp only [Nat.toDigitsCore]
    split
    · rfl
    · rw [ih (n / 10) ((n % 10).digitChar :: ds), ih (n / 10) [(n % 10).digitChar]]
      simp

/-- Parsing digits after digits. -/
theorem parseDigits_append (xs ys : List Char) :
    ∀ acc, parseDigits (xs ++ ys) acc = (parseDigits xs acc).bind (parseDigits ys) := by
  induction xs with
  | nil => intro acc; rfl
  | cons ch rest ih =>
    intro acc
    simp only [List.cons_append, parseDigits]
    cases digitValue ch with
    | none => rfl
    | some d =>
      simp only
      split
      · rfl
      · split
        · rfl
        · exact ih _

/-- The digits written for a number below `2 ^ 64` are not empty and parse back
to it. -/
theorem parseDigits_toDigitsCore (fuel : Nat) :
    ∀ n, n < fuel → n < 2 ^ 64 → Nat.toDigitsCore 10 fuel n [] ≠ [] ∧
      parseDigits (Nat.toDigitsCore 10 fuel n []) 0 = Except.ok n := by
  induction fuel with
  | zero => intro n h; omega
  | succ fuel ih =>
    intro n h hb
    simp only [Nat.toDigitsCore]
    split
    · rename_i hz
      have hn : n % 10 = n := by omega
      refine ⟨by simp, ?_⟩
      simp only [parseDigits, digitValue_digitChar (n % 10) (Nat.mod_lt n (by decide))]
      rw [if_neg (by omega), if_neg (by omega)]
      simp [hn]
    · rename_i hz
      rw [toDigitsCore_acc]
      obtain ⟨_, hp⟩ := ih (n / 10) (by omega) (by omega)
      refine ⟨by simp, ?_⟩
      rw [parseDigits_append, hp]
      simp only [Except.bind, parseDigits,
        digitValue_digitChar (n % 10) (Nat.mod_lt n (by decide))]
      rw [if_neg (by omega), if_neg (by omega)]
      congr 1
      omega

/-- The decimal text of a natural number below `2 ^ 64` is not empty and parses
back to it. -/
theorem parseDigits_repr (m : Nat) (hb : m < 2 ^ 64) :
    (Nat.repr m).data ≠ [] ∧ parseDigits (Nat.repr m).data 0 = Except.ok m :=
  parseDigits_toDigitsCore (m + 1) m (Nat.lt_succ_self m) hb

/-- A character that starts a run of digits is no sign. -/
theorem digit_not_sign (ch : Char) (rest : List Char) (acc m : Nat)
    (h : parseDigits (ch :: rest) acc = Except.ok m) : ch ≠ '-' ∧ ch ≠ '+' := by
  constructor
  · intro hc
    subst hc
    simp [parseDigits, digitValue] at h
  · intro hc
    subst hc
    simp [parseDigits, digitValue] at h

/-- The path of `GetOrdersForAccount`: the text `fmt.Sprintf("%d", n)` of an
`int64` is parsed back to it by `strconv.ParseInt`. -/
theorem parseInt_sprintfDecimal (n : Int) (hlo : -(2 ^ 63) ≤ n) (hhi : n < 2 ^ 63) :
    strconv.ParseInt (sprintfDecimal n) = Except.ok n := by
  cases n with
  | ofNat m =>
    have hm : m ≤ 2 ^ 63 - 1 := by
      have : (m : Int) < 2 ^ 63 := hhi
      omega
    obtain ⟨hne, hp⟩ := parseDigits_repr m (by omega)
    have hdata : (sprintfDecimal (Int.ofNat m)).data = (Nat.repr m).data := rfl
    unfold strconv.ParseInt
    rw [hdata]
    cases hd : (Nat.repr m).data with
    | nil => exact absurd hd hne
    | cons ch rest =>
      rw [hd] at hp
      obtain ⟨h1, h2⟩ := digit_not_sign ch rest 0 m hp
      simp only [h1, h2, or_self, if_false, strconv.ParseUint, List.cons_ne_nil, hp, signedValue,
        decide_False, Bool.not_false, Bool.true_and, Bool.false_and]
      rw [if_neg (by simp; omega)]
      rfl
  | negSucc m =>
    have hm : m + 1 ≤ 2 ^ 63 := by
      have : -(2 ^ 63 : Int) ≤ Int.negSucc m := hlo
      rw [Int.negSucc_eq] at this
      omega
    obtain ⟨hne, hp⟩ := parseDigits_repr (m + 1) (by omega)
    have hdata : (sprintfDecimal (Int.negSucc m)).data = '-' :: (Nat.repr (m + 1)).data := rfl
    unfold strconv.ParseInt
    rw [hdata]
    simp only [or_true, if_true, strconv.ParseUint, hne, if_false, hp, signedValue, decide_True,
      Bool.not_true, Bool.false_and, Bool.true_and]
    rw [if_neg (by simp), if_neg (by simp; omega)]
    rw [Int.negSucc_eq]
    rfl

/-- The path of `GetOrdersForAccount`: for every stored order the client reads
back the id of the order. -/
theorem getOrdersForAccount_id (order : Order)
    (hlo : -(2 ^ 63) ≤ order.id) (hhi : order.id < 2 ^ 63) :
    ∃ x, Client.GetOrder (grpcServer.GetOrdersForAccount.order order) = Except.ok x ∧
      x.id = order.id := by
  have h := parseInt_sprintfDecimal order.id hlo hhi
  simp only [Client.GetOrder, grpcServer.GetOrdersForAccount.order, h]
  exact ⟨_, rfl, rfl⟩

set_option maxRecDepth 100000 in
/-- C29, the behaviour of the code against the claim: for the stored order of
id 1001 the handler `GetOrder` sends as `Id` the one character U+03E9, not the
text "1001", and the client fails to parse it; for the stored order of id 53
it sends "5", and the client returns an order of id 5. The handler
`GetOrdersForAccount` sends "1001" and "53", and the client reads back 1001
and 53. -/
theorem getOrder_id_not_decimal :
    (grpcServer.GetOrder sampleConverted).id = String.singleton (Char.ofNat 0x3E9) ∧
      (grpcServer.GetOrder sampleConverted).id ≠ "1001" ∧
      Client.GetOrder (grpcServer.GetOrder sampleConverted)
        = Except.error strconv.NumError.errSyntax ∧
      (grpcServer.GetOrder order53).id = "5" ∧
      Client.GetOrder (grpcServer.GetOrder order53)
        = Except.ok { id := 5, name := "#1001", currency := "USD", financialStatus := "paid",
                      fulfillmentStatus := "", customerEmail := "" } ∧
      (grpcServer.GetOrdersForAccount.order sampleConverted).id = "1001" ∧
      Client.GetOrder (grpcServer.GetOrdersForAccount.order sampleConverted)
        = Except.ok { id := 1001, name := "#1001", currency := "USD", financialStatus := "paid",
                      fulfillmentStatus := "", customerEmail := "" } ∧
      Client.GetOrder (grpcServer.GetOrdersForAccount.order order53)
        = Except.ok { id := 53, name := "#1001", currency := "USD", financialStatus := "paid",
                      fulfillmentStatus := "", customerEmail := "" } :=
  ⟨by decide, by decide, rfl, by decide, rfl, by decide, rfl, rfl⟩

/-! ## Page arithmetic -/

/-- The query of the handler is made with the effective page size and page. -/
theorem getOrdersForAccount_query (repo : Int → Int → Except String (List Order × Int))
    (reqPage reqPageSize : Int)
    (hp : -(2 ^ 31) ≤ reqPage ∧ reqPage < 2 ^ 31)
    (hs : -(2 ^ 31) ≤ reqPageSize ∧ reqPageSize < 2 ^ 31) :
    0 ≤ (effectivePage reqPage - 1) * effectivePageSize reqPageSize ∧
      ShopifyService.GetAccountOrders repo (if reqPage = 0 then 1 else reqPage)
          (if reqPageSize = 0 then 20 else reqPageSize)
        = repo (effectivePageSize reqPageSize)
            ((effectivePage reqPage - 1) * effectivePageSize reqPageSize) := by
  have hp0 : 0 ≤ effectivePage reqPage - 1 ∧ effectivePage reqPage - 1 < 2 ^ 31 := by
    unfold effectivePage
    split <;> omega
  have hs0 : 0 < effectivePageSize reqPageSize ∧ effectivePageSize reqPageSize < 2 ^ 31 := by
    unfold effectivePageSize
    split
    · omega
    · split <;> omega
  have hnn : 0 ≤ (effectivePage reqPage - 1) * effectivePageSize reqPageSize :=
    mul_nonneg hp0.1 (le_of_lt hs0.1)
  have hlt : (effectivePage reqPage - 1) * effectivePageSize reqPageSize < 2 ^ 63 := by
    have h1 : (effectivePage reqPage - 1) * effectivePageSize reqPageSize
        ≤ 2 ^ 31 * 2 ^ 31 :=
      mul_le_mul (le_of_lt hp0.2) (le_of_lt hs0.2) (le_of_lt hs0.1) (by norm_num)
    have h2 : (2 : Int) ^ 31 * 2 ^ 31 < 2 ^ 63 := by norm_num
    omega
  refine ⟨hnn, ?_⟩
  have hpage : (if (if reqPage = 0 then 1 else reqPage) < 1 then 1
      else (if reqPage = 0 then 1 else reqPage)) = effectivePage reqPage := by
    unfold effectivePage
    by_cases h0 : reqPage = 0
    · simp [h0]
    · simp only [h0, if_false]
  have hsize : (if (if reqPageSize = 0 then 20 else reqPageSize) < 1 then 50
      else (if reqPageSize = 0 then 20 else reqPageSize)) = effectivePageSize reqPageSize := by
    unfold effectivePageSize
    by_cases h0 : reqPageSize = 0
    · simp [h0]
    · simp only [h0, if_false]
      by_cases h1 : reqPageSize < 0
      · have : reqPageSize < 1 := by omega
        simp [h1, this]
      · have : ¬ reqPageSize < 1 := by omega
        simp [h1, this]
  simp only [ShopifyService.GetAccountOrders, hpage, hsize]
  rw [wrapInt64_of_inRange _ (by omega) hlt]

/-- The total pages of the handler for a page size that is not negative and a
total count whose pages fit the `int32` field: the ceiling of the count over the
effective page size. -/
theorem totalPages_ceiling (total reqPageSize : Int)
    (hs : 0 ≤ reqPageSize ∧ reqPageSize < 2 ^ 31) (ht : 0 ≤ total)
    (hfit : total ≤ (2 ^ 31 - 1) * effectivePageSize reqPageSize) :
    (if reqPageSize = 0 then 20 else reqPageSize) = effectivePageSize reqPageSize ∧
      wrapInt32 (wrapInt64 (Int.tdiv
          (wrapInt64 (total + effectivePageSize reqPageSize - 1))
          (effectivePageSize reqPageSize)))
        = (total + effectivePageSize reqPageSize - 1) / effectivePageSize reqPageSize ∧
      ((total + effectivePageSize reqPageSize - 1) / effectivePageSize reqPageSize - 1)
          * effectivePageSize reqPageSize < total ∧
      total ≤ (total + effectivePageSize reqPageSize - 1) / effectivePageSize reqPageSize
          * effectivePageSize reqPageSize := by
  have hs0 : 0 < effectivePageSize reqPageSize ∧ effectivePageSize reqPageSize < 2 ^ 31 := by
    unfold effectivePageSize
    split
    · omega
    · split <;> omega
  have heq : (if reqPageSize = 0 then 20 else reqPageSize) = effectivePageSize reqPageSize := by
    unfold effectivePageSize
    by_cases h0 : reqPageSize = 0
    · simp [h0]
    · have : ¬ reqPageSize < 0 := by omega
      simp [h0, this]
  generalize effectivePageSize reqPageSize = s at *
  have hprod : (2 ^ 31 - 1) * s ≤ (2 ^ 31 - 1) * 2 ^ 31 :=
    mul_le_mul_of_nonneg_left (le_of_lt hs0.2) (by norm_num)
  have hsmall : ((2 : Int) ^ 31 - 1) * 2 ^ 31 < 2 ^ 62 := by norm_num
  have ha : 0 ≤ total + s - 1 := by omega
  have h1 := Int.ediv_mul_le (total + s - 1) (ne_of_gt hs0.1)
  have h2 := Int.lt_ediv_add_one_mul_self (total + s - 1) hs0.1
  have hk0 : 0 ≤ (total + s - 1) / s := Int.ediv_nonneg ha (le_of_lt hs0.1)
  generalize hk : (total + s - 1) / s = k at *
  have h3 : (k - 1) * s = k * s - s := by ring
  have h4 : (k + 1) * s = k * s + s := by ring
  have hlow : (k - 1) * s < total := by omega
  have hup : total ≤ k * s := by omega
  have hk31 : k < 2 ^ 31 := by
    have : (k - 1) * s < (2 ^ 31 - 1) * s := lt_of_lt_of_le hlow hfit
    have := lt_of_mul_lt_mul_right this (le_of_lt hs0.1)
    omega
  refine ⟨heq, ?_, hlow, hup⟩
  rw [wrapInt64_of_inRange (total + s - 1) (by omega) (by omega),
    Int.tdiv_eq_ediv ha (le_of_lt hs0.1), hk,
    wrapInt64_of_inRange k (by omega) (by omega),
    wrapInt32_of_inRange k (by omega) hk31]

set_option maxRecDepth 100000 in
/-- C30, counterexample to the claim as written: for the request with page 1
and page size -5 and 100 stored orders, the query uses the page size 50 and the
offset 0, and the handler reports -18 total pages, not the 2 pages of 100 orders
at 50 a page; and for the request with page size 1 and `2 ^ 31` stored orders
the handler reports `-(2 ^ 31)` total pages, the `int32` field being too
narrow. -/
theorem totalPages_not_ceiling :
    effectivePageSize (-5) = 50 ∧ effectivePage 1 = 1 ∧
      ShopifyService.GetAccountOrders (fun limit offset => Except.ok ([], limit * 1000 + offset))
          1 (-5) = Except.ok ([], 50 * 1000 + 0) ∧
      grpcServer.GetOrdersForAccount (countingRepo 100) 1 (-5)
        = Except.ok { orders := [], totalCount := 100, totalPages := -18, currentPage := 1 } ∧
      (100 + 50 - 1) / 50 = (2 : Int) ∧
      grpcServer.GetOrdersForAccount (countingRepo (2 ^ 31)) 1 1
        = Except.ok { orders := [], totalCount := -(2 ^ 31), totalPages := -(2 ^ 31),
                      currentPage := 1 } := by
  refine ⟨by decide, by decide, rfl, rfl, by decide, rfl⟩

/-- C30, amended: for every request, with `int32` page and page size, the page
size `s` and the page `p` used for the query are `s` = 20 when the request says
0, 50 when it is negative, else the requested size, and `p` = 1 when the
requested page is below 1, else the requested page; the query offset is
`(p - 1) * s`, which is not negative; an error of the query is returned as
"failed to get orders"; and when the requested page size is not negative and
the total count is between 0 and `(2 ^ 31 - 1) * s`, the `TotalPages` of the
response is the ceiling of the total count over `s`. -/
theorem page_arithmetic (repo : Int → Int → Except String (List Order × Int))
    (reqPage reqPageSize : Int)
    (hp : -(2 ^ 31) ≤ reqPage ∧ reqPage < 2 ^ 31)
    (hs : -(2 ^ 31) ≤ reqPageSize ∧ reqPageSize < 2 ^ 31) :
    effectivePageSize reqPageSize
        = (if reqPageSize = 0 then 20 else if reqPageSize < 0 then 50 else reqPageSize) ∧
      effectivePage reqPage = (if reqPage < 1 then 1 else reqPage) ∧
      0 ≤ (effectivePage reqPage - 1) * effectivePageSize reqPageSize ∧
      ShopifyService.GetAccountOrders repo (if reqPage = 0 then 1 else reqPage)
          (if reqPageSize = 0 then 20 else reqPageSize)
        = repo (effectivePageSize reqPageSize)
            ((effectivePage reqPage - 1) * effectivePageSize reqPageSize) ∧
      (∀ err, repo (effectivePageSize reqPageSize)
            ((effectivePage reqPage - 1) * effectivePageSize reqPageSize) = Except.error err →
        grpcServer.GetOrdersForAccount repo reqPage reqPageSize
          = Except.error ("failed to get orders: " ++ err)) ∧
      (∀ orders total, repo (effectivePageSize reqPageSize)
            ((effectivePage reqPage - 1) * effectivePageSize reqPageSize)
            = Except.ok (orders, total) →
        0 ≤ reqPageSize → 0 ≤ total → total ≤ (2 ^ 31 - 1) * effectivePageSize reqPageSize →
        ∃ resp, grpcServer.GetOrdersForAccount repo reqPage reqPageSize = Except.ok resp ∧
          resp.totalPages
            = (total + effectivePageSize reqPageSize - 1) / effectivePageSize reqPageSize ∧
          (resp.totalPages - 1) * effectivePageSize reqPageSize < total ∧
          total ≤ resp.totalPages * effectivePageSize reqPageSize) := by
  obtain ⟨hnn, hquery⟩ := getOrdersForAccount_query repo reqPage reqPageSize hp hs
  refine ⟨rfl, rfl, hnn, hquery, ?_, ?_⟩
  · intro err herr
    simp only [grpcServer.GetOrdersForAccount, hquery, herr]
  · intro orders total hok hs0 ht hfit
    obtain ⟨heq, hpages, hlow, hup⟩ := totalPages_ceiling total reqPageSize ⟨hs0, hs.2⟩ ht hfit
    have hrun : grpcServer.GetOrdersForAccount repo reqPage reqPageSize
        = Except.ok
            { orders := orders.map grpcServer.GetOrdersForAccount.order
              totalCount := wrapInt32 total
              totalPages :=
                (total + effectivePageSize reqPageSize - 1) / effectivePageSize reqPageSize
              currentPage := if reqPage = 0 then 1 else reqPage } := by
      have hq2 := hquery
      rw [heq] at hq2
      simp only [grpcServer.GetOrdersForAccount, heq, hq2, hok, hpages]
    exact ⟨_, hrun, rfl, hlow, hup⟩

set_option maxRecDepth 100000 in
/-- C30 amended, at the request with page 3 and page size 0 and 45 stored
orders: the query uses the page size 20 and the offset 40, and the handler
reports 3 total pages. -/
theorem page_arithmetic_witness :
    effectivePageSize 0 = 20 ∧ effectivePage 3 = 3 ∧
      (effectivePage 3 - 1) * effectivePageSize 0 = 40 ∧
      ∃ resp, grpcServer.GetOrdersForAccount (countingRepo 45) 3 0 = Except.ok resp ∧
        resp.totalPages = (45 + effectivePageSize 0 - 1) / effectivePageSize 0 ∧
        (resp.totalPages - 1) * effectivePageSize 0 < 45 ∧
        45 ≤ resp.totalPages * effectivePageSize 0 :=
  ⟨by decide, by decide, by decide,
    (page_arithmetic (countingRepo 45) 3 0 (by decide) (by decide)).2.2.2.2.2 [] 45 rfl
      (by decide) (by decide) (by decide)⟩

/-! ## A second run without new data -/

/-- The watermark read from a store is at most `t` exactly when
`WatermarkAtMost` holds. -/
theorem watermark_le_iff (t : Int) (store : Store) (shopName accountId : String) :
    (PostgresRepository.GetLatestOrderTimestamp store shopName accountId).unixNano ≤ t
      ↔ WatermarkAtMost t store shopName accountId := by
  unfold PostgresRepository.GetLatestOrderTimestamp WatermarkAtMost
  cases hm : maxUpdatedAt (shopRows store shopName accountId) with
  | none =>
    have hnil := (maxUpdatedAt_none _).mp hm
    simp [hnil]
  | some m =>
    obtain ⟨⟨x, hx, hxe⟩, hle⟩ := maxUpdatedAt_some _ m hm
    simp only
    constructor
    · intro h
      refine ⟨?_, ?_⟩
      · intro hnil
        rw [hnil] at hx
        simp at hx
      · intro r hr
        have := hle r hr
        omega
    · intro h
      have := h.2 x hx
      rw [hxe] at this
      exact this

/-- An upsert removes no row of a shop. -/
theorem upsert_keeps_rows (shopName accountId : String) (row : OrderRow) (store : Store)
    (h : shopRows (upsert store row) shopName accountId = []) :
    shopRows store shopName accountId = [] := by
  induction store with
  | nil => rfl
  | cons r0 rest ih =>
    unfold upsert at h
    by_cases hid : r0.id = row.id
    · simp only [hid, if_true] at h
      have hcu : (conflictUpdate r0 row).shopName = r0.shopName ∧
          (conflictUpdate r0 row).accountId = r0.accountId := ⟨rfl, rfl⟩
      simp only [shopRows, List.filter_cons, hcu.1, hcu.2] at h ⊢
      split at h
      · simp at h
      · rename_i hr0
        simp only [hr0]
        exact h
    · simp only [hid, if_false] at h
      simp only [shopRows, List.filter_cons] at h ⊢
      split at h
      · simp at h
      · rename_i hr0
        simp only [hr0]
        exact ih h

/-- After the upsert of a row updated at `t` or earlier, the rows of a shop are
updated at `t` or earlier when they were before. -/
theorem upsert_rows_le (t : Int) (shopName accountId : String) (row : OrderRow)
    (ht : row.updatedAt.unixNano ≤ t) (store : Store)
    (h : ∀ r, r ∈ shopRows store shopName accountId → r.updatedAt.unixNano ≤ t) :
    ∀ r, r ∈ shopRows (upsert store row) shopName accountId → r.updatedAt.unixNano ≤ t := by
  induction store with
  | nil =>
    intro r hr
    rw [mem_shopRows] at hr
    simp only [upsert, List.mem_singleton] at hr
    rw [hr.1]
    exact ht
  | cons r0 rest ih =>
    have hrest : ∀ r, r ∈ shopRows rest shopName accountId → r.updatedAt.unixNano ≤ t := by
      intro r hr
      rw [mem_shopRows] at hr
      exact h r ((mem_shopRows _ _ _ _).mpr ⟨List.mem_cons_of_mem _ hr.1, hr.2⟩)
    intro r hr
    rw [mem_shopRows] at hr
    obtain ⟨hmem, hshop⟩ := hr
    unfold upsert at hmem
    by_cases hid : r0.id = row.id
    · simp only [hid, if_true, List.mem_cons] at hmem
      rcases hmem with hmem | hmem
      · rw [hmem]
        exact ht
      · exact hrest r ((mem_shopRows _ _ _ _).mpr ⟨hmem, hshop⟩)
    · simp only [hid, if_false, List.mem_cons] at hmem
      rcases hmem with hmem | hmem
      · exact h r ((mem_shopRows _ _ _ _).mpr ⟨by rw [hmem]; exact List.mem_cons_self _ _, hshop⟩)
      · exact ih hrest r ((mem_shopRows _ _ _ _).mpr ⟨hmem, hshop⟩)

/-- The upsert of a row updated at `t` or earlier keeps the watermark of a shop
at `t` or earlier. -/
theorem upsert_watermark_le (t : Int) (shopName accountId : String) (row : OrderRow)
    (ht : row.updatedAt.unixNano ≤ t) (store : Store)
    (h : WatermarkAtMost t store shopName accountId) :
    WatermarkAtMost t (upsert store row) shopName accountId :=
  ⟨fun hnil => h.1 (upsert_keeps_rows shopName accountId row store hnil),
    upsert_rows_le t shopName accountId row ht store h.2⟩

/-- The batches of a run, each with orders updated at `t` or earlier, keep the
watermark of a shop at `t` or earlier. -/
theorem storeAfterWrites_watermark_le (t : Int) (txs : Nat → TxOracle)
    (shopName accountId : String) (batches : List (List Order)) :
    ∀ n store, (∀ b, b ∈ batches → ∀ order, order ∈ b → order.updatedAt.unixNano ≤ t) →
      WatermarkAtMost t store shopName accountId →
      WatermarkAtMost t (storeAfterWrites txs shopName accountId n store batches)
        shopName accountId := by
  have hfold : ∀ (rows : List OrderRow) (store : Store),
      (∀ r, r ∈ rows → r.updatedAt.unixNano ≤ t) →
      WatermarkAtMost t store shopName accountId →
      WatermarkAtMost t (rows.foldl upsert store) shopName accountId := by
    intro rows
    induction rows with
    | nil => intro store _ h; exact h
    | cons r rest ih =>
      intro store hrows h
      exact ih _ (fun x hx => hrows x (List.mem_cons_of_mem r hx))
        (upsert_watermark_le t shopName accountId r (hrows r (List.mem_cons_self r rest)) store h)
  have hsync : ∀ (tx : TxOracle) (store : Store) (orders : List Order),
      (∀ order, order ∈ orders → order.updatedAt.unixNano ≤ t) →
      WatermarkAtMost t store shopName accountId →
      WatermarkAtMost t
        (PostgresRepository.SyncOrders tx store orders shopName accountId).2
        shopName accountId := by
    intro tx store orders hold h
    unfold PostgresRepository.SyncOrders
    split
    · exact h
    · split
      · exact h
      · split
        · exact h
        · rename_i written hchunks
          split
          · exact h
          · refine hfold written store ?_ h
            intro r hr
            have hmem : r ∈ (processChunks tx shopName accountId orders.length 0 orders).2 := by
              rw [hchunks]; exact hr
            obtain ⟨o, ho, hro⟩ := processChunks_written tx shopName accountId _ 0 orders r hmem
            subst hro
            exact hold o ho
  intro n store
  induction batches generalizing n store with
  | nil => intro _ h; exact h
  | cons b rest ih =>
    intro hold h
    simp only [storeAfterWrites]
    exact ih (n + 1) _ (fun b1 hb1 => hold b1 (List.mem_cons_of_mem b hb1))
      (hsync (txs n) store b (hold b (List.mem_cons_self b rest)) h)

/-- When every write succeeded, the committed orders are the written orders. -/
theorem committed_eq_written (trace : List Event)
    (h : ∀ b, b ∈ batchWrites trace → b.2 = true) :
    committedOrders trace = (writtenOrders trace).length := by
  unfold committedOrders writtenOrders
  generalize batchWrites trace = batches at h
  induction batches with
  | nil => rfl
  | cons b rest ih =>
    have hb := h b (List.mem_cons_self b rest)
    have hrest := ih (fun x hx => h x (List.mem_cons_of_mem b hx))
    simp only [List.filter_cons, hb, if_true, List.map_cons, List.sum_cons, List.flatten_cons,
      List.length_append, hrest]

/-- A time is determined by its nanoseconds. -/
theorem Time.eq_of_unixNano (a b : Time) (h : a.unixNano = b.unixNano) : a = b := by
  cases a
  cases b
  simp only at h
  rw [h]

/-- The orders written in a run whose fetched orders are all updated at `t`
are updated at `t`. -/
theorem written_updatedAt (w : World) (c : ShopCtx) (fuel : Nat) (o : Outcome) (t : Int)
    (hrun : syncShopOrders w c fuel = some o)
    (hdata : ∀ order, order ∈ fetchedOrders w c o.state.trace → ∀ u, order.updatedAt = some u →
      u.unixNano = t) :
    ∀ b, b ∈ (batchWrites o.state.trace).map (fun b => b.1) → ∀ x, x ∈ b →
      x.updatedAt.unixNano = t := by
  intro b hb x hx
  have hw : x ∈ writtenOrders o.state.trace := by
    unfold writtenOrders
    exact List.mem_flatten.mpr ⟨b, hb, hx⟩
  obtain ⟨ro, hro, hconv⟩ := (syncShopOrders_sourced w c fuel o hrun).2 x (Or.inl hw)
  exact hdata ro hro x.updatedAt (convert_updatedAt ro x hconv)

set_option maxRecDepth 100000 in
/-- C21, counterexample to the claim as written: the account has the one shop
shop-a, whose remote holds order 1000, updated at 1600000000000000000, and order
1001, updated at 1700000600000000000, and serves the orders not below the
`UpdatedAtMin` it is given. The first call syncs both orders and leaves the
watermark 1700000600000000000. The second call, against the same remote data,
fetches order 1001 again and reports `ordersSynced` 1, not 0; the watermark
is unchanged. -/
theorem second_run_counts_resynced_order :
    SyncOrdersForAccount (unchangedRemote remoteData []) "acct-1" 1
        = some (Except.ok [("shop-a", { success := true, errorMessage := "", ordersSynced := 2 })]) ∧
      (PostgresRepository.GetLatestOrderTimestamp afterFirstRun "shop-a" "acct-1").unixNano
        = 1700000600000000000 ∧
      (fetchEvents (outcomeOf (syncShopOrders (unchangedRemote remoteData afterFirstRun)
          shopA 1)).state.trace).map (fun opts => opts.updatedAtMin.unixNano)
        = [1700000600000000000] ∧
      fetchedOrders (unchangedRemote remoteData afterFirstRun) shopA
          (outcomeOf (syncShopOrders (unchangedRemote remoteData afterFirstRun)
            shopA 1)).state.trace = [sampleOrder] ∧
      SyncOrdersForAccount (unchangedRemote remoteData afterFirstRun) "acct-1" 1
        = some (Except.ok [("shop-a", { success := true, errorMessage := "", ordersSynced := 1 })]) ∧
      (PostgresRepository.GetLatestOrderTimestamp afterSecondRun "shop-a" "acct-1").unixNano
        = 1700000600000000000 :=
  ⟨rfl, rfl, rfl, rfl, rfl, rfl⟩

/-- C21, amended: take a call of `SyncOrdersForAccount` whose workers all end,
a shop of the account with a sound credential whose watermark is read from the
store, and suppose the orders that the remote returns to the worker of that
shop are updated neither before the watermark (the remote honours
`UpdatedAtMin`) nor after it (the remote holds no new data). Then every fetch
of the worker carries the watermark as `UpdatedAtMin`; whatever the outcome of
the run and the answers of the database, the watermark of the shop after the
run is the watermark before it; and when the worker reports success, its
`ordersSynced`, which is the entry of the shop in the report returned, is the
number of orders the remote returned, all written again: it is 0 only when
the remote returned no order. -/
theorem second_run_resyncs (w : World) (accountId : String) (fuel : Nat)
    (creds : List (String × String)) (cred : String × String) (o : Outcome)
    (txs : Nat → TxOracle) (store : Store)
    (hready : w.serviceReady = true)
    (hcreds : w.getShopTokens accountId = Except.ok creds)
    (hnodup : (creds.map fun x => x.1).Nodup)
    (hmem : cred ∈ creds) (hname : cred.1 ≠ "") (htoken : cred.2 ≠ "")
    (hall : ∀ other, other ∈ creds → ∃ rs, shopResults w accountId fuel other = some rs)
    (hread : w.getLatestOrderTimestamp cred.1 accountId
      = (PostgresRepository.GetLatestOrderTimestamp store cred.1 accountId, none))
    (hrun : syncShopOrders w { shopName := cred.1, token := cred.2, accountId := accountId } fuel
      = some o)
    (hfilter : ∀ order, order ∈ fetchedOrders w
        { shopName := cred.1, token := cred.2, accountId := accountId } o.state.trace →
      ∀ u, order.updatedAt = some u →
        (PostgresRepository.GetLatestOrderTimestamp store cred.1 accountId).unixNano ≤ u.unixNano)
    (hnonew : ∀ order, order ∈ fetchedOrders w
        { shopName := cred.1, token := cred.2, accountId := accountId } o.state.trace →
      ∀ u, order.updatedAt = some u →
        u.unixNano ≤ (PostgresRepository.GetLatestOrderTimestamp store cred.1 accountId).unixNano) :
    (∀ opts, opts ∈ fetchEvents o.state.trace →
        opts.updatedAtMin = PostgresRepository.GetLatestOrderTimestamp store cred.1 accountId) ∧
      PostgresRepository.GetLatestOrderTimestamp
          (storeAfterRun txs { shopName := cred.1, token := cred.2, accountId := accountId }
            store o.state.trace) cred.1 accountId
        = PostgresRepository.GetLatestOrderTimestamp store cred.1 accountId ∧
      (∀ r s, o = Outcome.returned r s → r.success = true →
        r.ordersSynced = wrapInt32 (fetchedOrders w
            { shopName := cred.1, token := cred.2, accountId := accountId } s.trace).length ∧
        (fetchedOrders w { shopName := cred.1, token := cred.2, accountId := accountId }
            s.trace).map convertShopifyOrderToOrder = (writtenOrders s.trace).map some ∧
        ((fetchedOrders w { shopName := cred.1, token := cred.2, accountId := accountId }
            s.trace).length < 2 ^ 31 →
          (r.ordersSynced = 0 ↔ fetchedOrders w
            { shopName := cred.1, token := cred.2, accountId := accountId } s.trace = [])) ∧
        ∃ rep, SyncOrdersForAccount w accountId fuel = some (Except.ok rep) ∧
          rep.get cred.1 = some { success := true, errorMessage := r.errorMessage,
                                  ordersSynced := r.ordersSynced }) := by
  have hdata : ∀ order, order ∈ fetchedOrders w
      { shopName := cred.1, token := cred.2, accountId := accountId } o.state.trace →
      ∀ u, order.updatedAt = some u → u.unixNano
        = (PostgresRepository.GetLatestOrderTimestamp store cred.1 accountId).unixNano :=
    fun order ho u hu => le_antisymm (hnonew order ho u hu) (hfilter order ho u hu)
  have hwritten := written_updatedAt w _ fuel o _ hrun hdata
  refine ⟨?_, ?_, ?_⟩
  · have hkept := syncShopOrders_optionsKept w _ fuel o hrun
    simp only [hread] at hkept
    intro opts hm
    have hopts : opts = fetchOptions
        (PostgresRepository.GetLatestOrderTimestamp store cred.1 accountId)
        opts.listOptions.page := by
      cases o with
      | running s => exact hkept.2.1 opts hm
      | returned r s => exact hkept.1 opts hm
      | panicked v s => exact hkept.1 opts hm
    rw [hopts]
    simp only [fetchOptions]
    split
    · rename_i hz
      simp only [Time.IsZero, beq_iff_eq] at hz
      exact hz.symm
    · rfl
  · apply Time.eq_of_unixNano
    apply le_antisymm
    · rw [watermark_le_iff]
      exact storeAfterWrites_watermark_le _ txs cred.1 accountId _ 0 store
        (fun b hb x hx => le_of_eq (hwritten b hb x hx))
        ((watermark_le_iff _ store cred.1 accountId).mp (le_refl _))
    · rw [le_watermark_iff]
      exact storeAfterWrites_watermark _ txs cred.1 accountId _ 0 store
        (fun b hb x hx => le_of_eq (hwritten b hb x hx).symm)
        ((le_watermark_iff _ store cred.1 accountId).mp (le_refl _))
  · intro r s ho hsucc
    subst ho
    obtain ⟨hcounted, hsent⟩ := syncShopOrders_counted w _ fuel _ hrun
    obtain ⟨hok, hconv⟩ := syncShopOrders_faithful w _ fuel _ hrun hsucc
    have hlen : (fetchedOrders w { shopName := cred.1, token := cred.2, accountId := accountId }
        s.trace).length = (writtenOrders s.trace).length := by
      have := congrArg List.length hconv
      simpa using this
    have hsynced : r.ordersSynced = wrapInt32 (fetchedOrders w
        { shopName := cred.1, token := cred.2, accountId := accountId } s.trace).length := by
      rw [hsent r s rfl, hlen, ← committed_eq_written s.trace hok]
      exact hcounted
    refine ⟨hsynced, hconv, ?_, ?_⟩
    · intro hsmall
      rw [hsynced, wrapInt32_of_inRange _ (by omega) (by exact_mod_cast hsmall)]
      constructor
      · intro h0
        exact List.length_eq_zero.mp (by exact_mod_cast h0)
      · intro hnil
        rw [hnil]
        rfl
    · have hsingle := syncShopOrders_single w _ fuel _ hrun
      have hshop : shopResults w accountId fuel cred = some [r] := by
        simp only [shopResults, hname, htoken, or_self, if_false, goroutineResults, hrun]
        simp only [OutcomeSingle] at hsingle
        rw [hsingle.1]
      obtain ⟨rep, hrep, hget⟩ := report_entry w accountId fuel creds cred r hready hcreds hnodup
        hmem hname hall hshop
      refine ⟨rep, hrep, ?_⟩
      rw [hget, statusOf, hsucc]

set_option maxRecDepth 100000 in
/-- C21 amended, at the second run of shop-a against `remoteData`, from the
store left by the first run: the remote returns order 1001, updated exactly at
the watermark; the report has `ordersSynced` 1 for shop-a and the watermark is
unchanged. -/
theorem second_run_resyncs_witness :
    fetchedOrders (unchangedRemote remoteData afterFirstRun) shopA
        (outcomeOf (syncShopOrders (unchangedRemote remoteData afterFirstRun)
          shopA 1)).state.trace = [sampleOrder] ∧
      PostgresRepository.GetLatestOrderTimestamp
          (storeAfterRun (fun _ => healthyDatabase)
            { shopName := "shop-a", token := "token-a", accountId := "acct-1" } afterFirstRun
            (outcomeOf (syncShopOrders (unchangedRemote remoteData afterFirstRun)
              shopA 1)).state.trace) "shop-a" "acct-1"
        = PostgresRepository.GetLatestOrderTimestamp afterFirstRun "shop-a" "acct-1" :=
  ⟨rfl,
    (second_run_resyncs (unchangedRemote remoteData afterFirstRun) "acct-1" 1
      [("shop-a", "token-a")] ("shop-a", "token-a")
      (outcomeOf (syncShopOrders (unchangedRemote remoteData afterFirstRun) shopA 1))
      (fun _ => healthyDatabase) afterFirstRun rfl rfl (by decide) (by decide) (by decide)
      (by decide)
      (fun other hother => by
        rw [List.mem_singleton] at hother
        subst hother
        exact ⟨[{ shopName := "shop-a", success := true, errorMessage := "", ordersSynced := 1 }],
          rfl⟩)
      rfl rfl
      (by
        intro order horder u hu
        have hf : fetchedOrders (unchangedRemote remoteData afterFirstRun)
            { shopName := "shop-a", token := "token-a", accountId := "acct-1" }
            (outcomeOf (syncShopOrders (unchangedRemote remoteData afterFirstRun)
              shopA 1)).state.trace = [sampleOrder] := rfl
        have horder1 : order ∈ [sampleOrder] := hf ▸ horder
        rw [List.mem_singleton] at horder1
        subst horder1
        cases hu
        decide)
      (by
        intro order horder u hu
        have hf : fetchedOrders (unchangedRemote remoteData afterFirstRun)
            { shopName := "shop-a", token := "token-a", accountId := "acct-1" }
            (outcomeOf (syncShopOrders (unchangedRemote remoteData afterFirstRun)
              shopA 1)).state.trace = [sampleOrder] := rfl
        have horder1 : order ∈ [sampleOrder] := hf ▸ horder
        rw [List.mem_singleton] at horder1
        subst horder1
        cases hu
        decide)).2.1⟩

/-! ## The call of `adjustRate` and the reset of the ticker -/

/-- The call of `adjustRate` on a positive new interval returns the limiter of
the assignment. -/
theorem adjustRate_call_of_pos (r : adaptiveRateLimiter) (b : Bool)
    (h : 0 < (adjustRate r b).interval) : adjustRate.call r b = Except.ok (adjustRate r b) := by
  unfold adjustRate.call Ticker.Reset
  rw [if_neg (by omega)]

/-- An iteration that leaves the worker in its loop keeps the interval of the
governor between floor and ceiling. -/
theorem step_governorInBand (w : World) (c : ShopCtx) (s s1 : LoopState)
    (hs : GovernorInBand s) (h : step w c s = Outcome.running s1) : GovernorInBand s1 := by
  cases hctx : w.ctxDone c.shopName s.fetches with
  | some err =>
    rw [step_timeout w c s err hctx] at h
    simp [sendResult] at h
  | none =>
    cases hres : w.listWithPagination c.shopName c.token s.fetches s.options with
    | error e =>
      by_cases hretry : stringsContains e "Exceeded" = true ∧ s.retryCount < maxRetries
      · rw [step_rateLimited w c s e hctx hres hretry.1 hretry.2] at h
        cases h
        exact adjustRate_bounds s.rateLimiter true hs.1 hs.2
      · rw [step_fetchFailed w c s e hctx hres (by
          by_cases h1 : stringsContains e "Exceeded" = true
          · exact Or.inr (fun h2 => hretry ⟨h1, h2⟩)
          · exact Or.inl (by simpa using h1))] at h
        cases h
    | ok orders pagination =>
      rw [step_of_fetch_ok w c s orders pagination hctx hres] at h
      have h1 := (processOrders_control w c orders s.fetched).2.2.1
      split at h
      · rename_i s2 heq
        rw [heq] at h1
        have h2 := (finishPage_control w c pagination s2).2.2.1
        rw [h] at h2
        simp only [Outcome.state] at h1 h2
        unfold GovernorInBand
        rw [h2, h1]
        exact adjustRate_bounds s.rateLimiter false hs.1 hs.2
      · rename_i hne
        exact absurd h (by
          intro hh
          exact hne s1 hh)

/-- In a run of the worker every call of `adjustRate` returns: at the start of
every iteration the interval of the governor lies between floor and ceiling,
and the call made in the iteration, with either signal, hands a positive
interval to `ticker.Reset`. -/
theorem adjustRate_call_in_run (w : World) (c : ShopCtx) (lastSync : Time) (j : Nat)
    (sj : LoopState) (h : iterateLoop w c (initialState lastSync) j = some sj) (b : Bool) :
    GovernorInBand sj ∧ adjustRate.call sj.rateLimiter b = Except.ok (adjustRate sj.rateLimiter b) := by
  have hband : GovernorInBand sj :=
    iterateLoop_invariant w c GovernorInBand (fun s s1 hs hstep => step_governorInBand w c s s1 hs hstep)
      (initialState lastSync)
      ⟨(by decide : minRateLimit ≤ initialRateLimit), (by decide : initialRateLimit ≤ maxRateLimit)⟩
      j sj h
  refine ⟨hband, adjustRate_call_of_pos sj.rateLimiter b ?_⟩
  have hb := adjustRate_bounds sj.rateLimiter b hband.1 hband.2
  have hpos : (0 : Int) < minRateLimit := by decide
  omega

/-- C8, the step function of `adjustRate`: for every current interval `i` that
is positive and below `2 ^ 62` ns, which covers every interval a governor
holds (it stays within `[100 ms, 1000 ms]`), the call `adjustRate(true)`
returns with the interval set to `min(2 * i, 1000 ms)` and the call
`adjustRate(false)` returns with the interval set to `max(i - 50 ms, 100 ms)`;
for `i` within `[100 ms, 1000 ms]` a throttle signal never decreases the
interval and a success signal never increases it. -/
theorem adjustRate_step (i : Int) (hpos : 0 < i) (hrep : i < 2 ^ 62) :
    adjustRate.call { interval := i } true
        = Except.ok { interval := min (2 * i) maxRateLimit } ∧
      adjustRate.call { interval := i } false
        = Except.ok { interval := max (i - 50 * millisecond) minRateLimit } ∧
      (adjustRate { interval := i } true).interval = min (2 * i) maxRateLimit ∧
      (adjustRate { interval := i } false).interval = max (i - 50 * millisecond) minRateLimit ∧
      (minRateLimit ≤ i → i ≤ maxRateLimit →
        i ≤ (adjustRate { interval := i } true).interval ∧
          (adjustRate { interval := i } false).interval ≤ i) := by
  have h1 : wrapInt64 (i * 2) = 2 * i := by
    rw [wrapInt64_of_inRange _ (by omega) (by omega)]; omega
  have h2 : wrapInt64 (i - 50 * millisecond) = i - 50 * millisecond := by
    unfold millisecond
    exact wrapInt64_of_inRange _ (by omega) (by omega)
  have e1 : adjustRate { interval := i } true = { interval := min (2 * i) maxRateLimit } := by
    simp [adjustRate, h1]
  have e2 : adjustRate { interval := i } false
      = { interval := max (i - 50 * millisecond) minRateLimit } := by
    simp [adjustRate, h2]
  have p1 : 0 < min (2 * i) maxRateLimit := by
    unfold min maxRateLimit millisecond
    split <;> omega
  have p2 : 0 < max (i - 50 * millisecond) minRateLimit := by
    unfold max minRateLimit millisecond
    split <;> omega
  refine ⟨?_, ?_, by rw [e1], by rw [e2], ?_⟩
  · rw [adjustRate_call_of_pos _ _ (by rw [e1]; exact p1), e1]
  · rw [adjustRate_call_of_pos _ _ (by rw [e2]; exact p2), e2]
  · intro ha hb
    rw [e1, e2]
    show i ≤ min (2 * i) maxRateLimit ∧ max (i - 50 * millisecond) minRateLimit ≤ i
    clear e1 e2 p1 p2 h1 h2
    unfold min max minRateLimit maxRateLimit millisecond at *
    constructor <;> (split <;> omega)

/-- C8 at the initial interval of 200 ms: a throttle signal sets 400 ms, a
success signal 150 ms, and both calls return. -/
theorem adjustRate_step_witness :
    adjustRate.call { interval := 200 * millisecond } true
        = Except.ok { interval := 400 * millisecond } ∧
      adjustRate.call { interval := 200 * millisecond } false
        = Except.ok { interval := 150 * millisecond } ∧
      200 * millisecond ≤ (adjustRate { interval := 200 * millisecond } true).interval ∧
      (adjustRate { interval := 200 * millisecond } false).interval ≤ 200 * millisecond :=
  let h := adjustRate_step (200 * millisecond) (by decide) (by decide)
  ⟨h.1.trans rfl, h.2.1.trans rfl, (h.2.2.2.2 (by decide) (by decide)).1,
    (h.2.2.2.2 (by decide) (by decide)).2⟩

/-! ## The backoff between retries -/

/-- The sleep the claim's formula gives before the `k`-th consecutive retry,
`min(1 s * 2 ^ (k - 1), maxRateLimit)`, is one second: the ceiling equals the
starting backoff. -/
theorem capped_backoff_second (j : Nat) : min (second * 2 ^ j) maxRateLimit = second := by
  have hpos0 : (0 : Int) < 2 ^ j := by positivity
  have hpos : (1 : Int) ≤ 2 ^ j := by omega
  have hx : second ≤ second * 2 ^ j := le_mul_of_one_le_right (by decide) hpos
  generalize second * 2 ^ j = x at hx
  unfold min second maxRateLimit millisecond at *
  split <;> omega

set_option maxRecDepth 100000 in
/-- C10, the statement as written fails: at the world `throttledThrice` the
first three fetches of the page are answered by a rate-limit error, and the
worker sleeps one second before the first retry and one second before the second
retry: the second retry does not wait longer than the first. -/
theorem second_retry_waits_no_longer :
    sleeps (outcomeOf (syncShopOrders throttledThrice shopA 5)).state.trace
        = [second, second, second] ∧
      (outcomeOf (syncShopOrders throttledThrice shopA 5)).result
        = some { shopName := "shop-a", success := true, errorMessage := "", ordersSynced := 10 } ∧
      ¬ ((sleeps (outcomeOf (syncShopOrders throttledThrice shopA 5)).state.trace).getD 0 0
          < (sleeps (outcomeOf (syncShopOrders throttledThrice shopA 5)).state.trace).getD 1 0) :=
  ⟨rfl, rfl, by decide⟩

/-- C10, amended: from a loop state with retry counter 0 and backoff of one
second (a worker about to fetch a page), if the deadline is live at the next
`k ≤ 5` checks and the next `k` fetches are answered by a rate-limit error, the
worker is still in its loop after the `k` retries were scheduled; it slept `k`
times, the `j`-th time (from 1) for `min(1 s * 2 ^ (j - 1), maxRateLimit)`,
which is one second every time, and the backoff for the next retry is one
second again. -/
theorem backoff_capped (w : World) (c : ShopCtx) (s0 : LoopState) (k : Nat)
    (hk : k ≤ 5) (hr0 : s0.retryCount = 0) (hb0 : s0.backoff = second)
    (hctx : ∀ i, i < k → w.ctxDone c.shopName (s0.fetches + i) = none)
    (hfail : ∀ i, i < k → ∀ opts, ∃ e,
      w.listWithPagination c.shopName c.token (s0.fetches + i) opts = FetchResult.error e ∧
        stringsContains e "Exceeded" = true) :
    ∃ sk, iterateLoop w c s0 k = some sk ∧
      sleeps sk.trace
        = sleeps s0.trace ++ (List.range k).map (fun j => min (second * 2 ^ j) maxRateLimit) ∧
      sleeps sk.trace = sleeps s0.trace ++ List.replicate k second ∧
      (∀ j, min (second * 2 ^ j) maxRateLimit = second) ∧
      sk.backoff = second ∧ sk.retryCount = k := by
  obtain ⟨sk, hit, hr, _, _, _, _, _, _, _, _, hback, _⟩ :=
    iterateLoop_throttled w c s0 k hk hr0 hctx hfail k (le_refl k)
  obtain ⟨hb, hsl⟩ := hback hb0
  have hmap : (List.range k).map (fun j => min (second * 2 ^ j) maxRateLimit)
      = List.replicate k second := by
    rw [List.eq_replicate_iff]
    refine ⟨by simp, ?_⟩
    intro x hx
    simp only [List.mem_map, List.mem_range] at hx
    obtain ⟨j, _, rfl⟩ := hx
    exact capped_backoff_second j
  exact ⟨sk, hit, by rw [hsl, hmap], hsl, capped_backoff_second, hb, hr⟩

set_option maxRecDepth 100000 in
/-- C10, amended, at the world `throttledThrice` from the initial state with
`k = 3`: three sleeps of one second each. -/
theorem backoff_capped_witness :
    ∃ sk, iterateLoop throttledThrice shopA (initialState Time.zero) 3 = some sk ∧
      sleeps sk.trace = [1000000000, 1000000000, 1000000000] ∧
      sk.backoff = 1000000000 ∧ sk.retryCount = 3 :=
  let ⟨sk, hit, _, hsl, _, hb, hr⟩ :=
    backoff_capped throttledThrice shopA (initialState Time.zero) 3 (by decide) rfl rfl
      (fun _ _ => rfl)
      (fun i hi _ => ⟨throttleError,
        (if_pos (by omega : 0 + i < 3) : (if 0 + i < 3 then FetchResult.error throttleError
          else FetchResult.ok (List.replicate 10 sampleOrder) none) = _),
        by decide⟩)
  ⟨sk, hit, hsl.trans rfl, hb, hr⟩

/-! ## The literal scenario behind a cursor-paged remote -/

/-- A worker of shop-a that is served the first page of 250 orders whenever it
asks without cursor, and whose writes succeed, stays without cursor: an
iteration either finds the deadline exceeded and reports the failure, or
writes the first page once more and goes on. -/
theorem step_firstPageAgain (w : World) (s : LoopState)
    (hremote : ∀ k opts, opts.listOptions.pageInfo = "" →
      w.listWithPagination "shop-a" "token-a" k opts
        = FetchResult.ok (List.replicate 250 sampleOrder) morePages)
    (hwrite : ∀ k batch, w.syncOrders "shop-a" "acct-1" k batch = (true, none))
    (h : FirstPageAgain s) :
    (∀ err, w.ctxDone "shop-a" s.fetches = some err →
      step w shopA s = sendResult shopA s false ("operation cancelled or timed out: " ++ err)) ∧
    (w.ctxDone "shop-a" s.fetches = none →
      ∃ s1, step w shopA s = Outcome.running s1 ∧ FirstPageAgain s1 ∧
        s1.fetches = s.fetches + 1) := by
  obtain ⟨hinfo, hbatch⟩ := h
  refine ⟨fun err herr => step_timeout w shopA s err herr, ?_⟩
  intro hctx
  have hvalid : ValidPage (List.replicate 250 sampleOrder) := by
    intro o ho
    rw [List.eq_of_mem_replicate ho]
    rfl
  obtain ⟨s1, hs1, hf1, _, hb1, _, _, _⟩ :=
    step_fill_next w shopA s (List.replicate 250 sampleOrder) morePages
      { pageInfo := "cursor-2", page := 0, limit := 250 } hctx
      (hremote s.fetches s.options hinfo) hvalid
      (by intro h
          have hl := congrArg List.length h
          rw [List.length_replicate] at hl
          exact absurd hl (by decide))
      (by rw [hbatch, List.length_nil, List.length_replicate]; rfl)
      (by simp only [syncBatch]; rw [show shopA.shopName = "shop-a" from rfl,
            show shopA.accountId = "acct-1" from rfl, hwrite])
      rfl
  refine ⟨s1, hs1, ⟨?_, hb1⟩, hf1⟩
  rw [(step_options w shopA s s1 hs1).2.2.2]
  exact hinfo

/-- While the deadline is live such a worker does not leave its loop. -/
theorem runLoop_firstPageAgain_running (w : World)
    (hremote : ∀ k opts, opts.listOptions.pageInfo = "" →
      w.listWithPagination "shop-a" "token-a" k opts
        = FetchResult.ok (List.replicate 250 sampleOrder) morePages)
    (hwrite : ∀ k batch, w.syncOrders "shop-a" "acct-1" k batch = (true, none))
    (hctx : ∀ k, w.ctxDone "shop-a" k = none) :
    ∀ fuel s, FirstPageAgain s → runLoop w shopA fuel s = none := by
  intro fuel
  induction fuel with
  | zero => intro s _; rfl
  | succ n ih =>
    intro s hs
    obtain ⟨s1, hs1, hp1, _⟩ := (step_firstPageAgain w s hremote hwrite hs).2 (hctx _)
    simp only [runLoop, hs1]
    exact ih s1 hp1

/-- Such a worker returns only by the deadline, with a failure. -/
theorem runLoop_firstPageAgain_fails (w : World)
    (hremote : ∀ k opts, opts.listOptions.pageInfo = "" →
      w.listWithPagination "shop-a" "token-a" k opts
        = FetchResult.ok (List.replicate 250 sampleOrder) morePages)
    (hwrite : ∀ k batch, w.syncOrders "shop-a" "acct-1" k batch = (true, none)) :
    ∀ fuel s o, FirstPageAgain s → runLoop w shopA fuel s = some o →
      ∃ r st, o = Outcome.returned r st ∧ r.success = false := by
  intro fuel
  induction fuel with
  | zero => intro s o _ h; simp [runLoop] at h
  | succ n ih =>
    intro s o hs h
    obtain ⟨hdone, hlive⟩ := step_firstPageAgain w s hremote hwrite hs
    cases hctx : w.ctxDone "shop-a" s.fetches with
    | some err =>
      rw [runLoop, hdone err hctx] at h
      simp only [sendResult] at h
      cases h
      exact ⟨_, _, rfl, rfl⟩
    | none =>
      obtain ⟨s1, hs1, hp1, _⟩ := hlive hctx
      simp only [runLoop, hs1] at h
      exact ih s1 o hp1 h

set_option maxRecDepth 1000000 in
/-- C1, the behaviour of the code against the claim: the literal scenario
behind a remote that pages by cursor. The remote answers the request without
cursor with the first page of 250 orders and the cursor "cursor-2", and a
request with that cursor with the last page of 10 orders. The worker of shop-a
never sends the cursor: while the deadline is live it stays in its loop, so
`SyncOrdersForAccount` does not return; whenever the deadline ends its run the
result is a failure; with the deadline exceeded at the fifth check the report
is shop-a: failure with 1000 orders synced, shop-b: success with 0, after four
fetches without cursor and four batch writes of the same 250 orders. -/
theorem literal_scenario_never_reaches_last_page :
    literalPaged.listWithPagination "shop-a" "token-a" 0 firstPageOptions
        = FetchResult.ok (List.replicate 250 sampleOrder)
            (some { nextPageOptions := some { pageInfo := "cursor-2", page := 0, limit := 250 },
                    previousPageOptions := none }) ∧
      literalPaged.listWithPagination "shop-a" "token-a" 1
          { firstPageOptions with
            listOptions := { pageInfo := "cursor-2", page := 0, limit := 250 } }
        = FetchResult.ok (List.replicate 10 sampleOrder) none ∧
      (∀ fuel, SyncOrdersForAccount literalPaged "acct-1" fuel = none) ∧
      (∀ n fuel o, syncShopOrders (literalPagedUntil n) shopA fuel = some o →
        ∃ r st, o = Outcome.returned r st ∧ r.success = false) ∧
      SyncOrdersForAccount (literalPagedUntil 4) "acct-1" 5
        = some (Except.ok
            [("shop-a", { success := false,
                          errorMessage :=
                            "operation cancelled or timed out: context deadline exceeded",
                          ordersSynced := 1000 }),
             ("shop-b", { success := true, errorMessage := "", ordersSynced := 0 })]) ∧
      fetchEvents (outcomeOf (syncShopOrders (literalPagedUntil 4) shopA 5)).state.trace
        = List.replicate 4 firstPageOptions ∧
      (batchWrites (outcomeOf (syncShopOrders (literalPagedUntil 4) shopA 5)).state.trace).map
          (fun b => (b.1.map (fun x => x.id), b.2))
        = List.replicate 4 (List.replicate 250 1001, true) := by
  have hinit : FirstPageAgain (initialState Time.zero) := ⟨rfl, rfl⟩
  refine ⟨rfl, rfl, ?_, ?_, rfl, rfl, rfl⟩
  · intro fuel
    have hrun : syncShopOrders literalPaged shopA fuel = none :=
      runLoop_firstPageAgain_running literalPaged (fun _ _ h => by simp [literalPaged, h])
        (fun _ _ => rfl) (fun _ => rfl) fuel _ hinit
    have hch : channelResults literalPaged "acct-1" fuel
        [("shop-a", "token-a"), ("shop-b", "token-b")] = none := by
      have hshop : shopResults literalPaged "acct-1" fuel ("shop-a", "token-a") = none := by
        have hg : goroutineResults literalPaged shopA fuel = none := by
          simp only [goroutineResults, hrun]
        simpa [shopResults] using hg
      simp only [channelResults, hshop]
    show (if !literalPaged.serviceReady then _ else _) = none
    simp only [show literalPaged.serviceReady = true from rfl,
      show literalPaged.getShopTokens "acct-1"
        = Except.ok [("shop-a", "token-a"), ("shop-b", "token-b")] from rfl, hch]
    rfl
  · intro n fuel o h
    exact runLoop_firstPageAgain_fails (literalPagedUntil n)
      (fun _ _ h => by simp [literalPagedUntil, literalPaged, h])
      (fun _ _ => rfl) fuel _ o hinit h

end Shopify
